import Mathlib

/-!
Amiga platform layer of lkamiga: interrupt demultiplexer, timebase, serial driver

A shallow embedding of `platform/amiga/platform.c`, `timer.c` and `serial.c`.

* C globals become fields of explicit state records that every operation threads through.
* Memory-mapped register stores are appended to a write log, register loads to a read log;
  the value a load returns is an input of the operation that performs it.
* Machine integers are natural numbers reduced modulo `2^w` wherever the C code narrows.
* Loops whose trip count is not syntactically bounded carry a fuel argument and return
  `none` when it runs out.
-/

namespace Amiga

/-! ## Machine integers -/

/-- Narrowing to `uint8_t`. -/
def u8 (n : Nat) : Nat := n % 256

/-- Narrowing to `uint16_t`. -/
def u16 (n : Nat) : Nat := n % 65536

/-- Narrowing to `uint32_t` / `unsigned int`. -/
def u32 (n : Nat) : Nat := n % 4294967296

/-- Narrowing to `uint64_t`. -/
def u64 (n : Nat) : Nat := n % 18446744073709551616

/-- Bitwise complement `~x` of a 32-bit `int`/`unsigned` operand. -/
def not32 (x : Nat) : Nat := 4294967295 ^^^ (x % 4294967296)

/-- Helper of `ctz`: trailing zeros among the lowest `k` bit positions. -/
def ctzAux : Nat → Nat → Nat
  | 0, _ => 0
  | k + 1, n => if n % 2 = 1 then 0 else 1 + ctzAux k (n / 2)

/-- Modelled from the spec: `ctz` of lk/bits.h (not among the sources), the index of the
least-significant set bit of a 32-bit word, by which dispatch visits the set bits from
least to most significant; the compiler builtin is undefined at 0, where this model
yields 32. -/
def ctz (n : Nat) : Nat := ctzAux 32 n

/-! ## Kernel enumerations -/

/-- Status codes of lk/err.h that the platform layer returns. -/
inductive status_t where
  | NO_ERROR
  | ERR_INVALID_ARGS
  deriving DecidableEq, Repr

/-- Return value of an interrupt handler (`enum handler_return`). -/
inductive handler_return where
  | INT_NO_RESCHEDULE
  | INT_RESCHEDULE
  deriving DecidableEq, Repr

/-! ## Registers and machine state -/

/-- A memory-mapped register: the 16-bit word `index` of the chipset block at 0xDFF000
(`paula_base[index]`, `serial_reg[index]`), or the byte at `offset` of the peripheral block
at 0xBFE000 (A) or 0xBFD000 (B). -/
inductive Reg where
  | paula (index : Nat)
  | cia_a (offset : Nat)
  | cia_b (offset : Nat)
  deriving DecidableEq, Repr

/-- The chipset register at byte offset `reg`, addressed as the source does:
`paula_base[reg >> 1]`, `serial_reg[reg >> 1]`. -/
abbrev paula_reg (reg : Nat) : Reg := Reg.paula (reg >>> 1)

/-! Register offsets of platform.c, serial.c and platform_p.h. -/

def INTREQ : Nat := 0x9c

def INTENA : Nat := 0x9a

def INTREQR : Nat := 0x1e

def INTENAR : Nat := 0x1c

def SERDAT : Nat := 0x030

def SERDATR : Nat := 0x018

def CIA_A_PRA : Nat := 0x001

def CIA_A_ICR : Nat := 0xD01

def CIA_B_PRA : Nat := 0x000

def CIA_B_TALO : Nat := 0x400

def CIA_B_TAHI : Nat := 0x500

def CIA_B_TBLO : Nat := 0x600

def CIA_B_TBHI : Nat := 0x700

def CIA_B_TODMID : Nat := 0x900

def CIA_B_ICR : Nat := 0xD00

def CIA_B_CRA : Nat := 0xE00

def CIA_B_CRB : Nat := 0xF00

/-- Globals of platform.c together with the log of hardware accesses. `world` is the part
of the system that only interrupt handlers touch. -/
structure Machine (σ : Type) where
  cia_a_irqs_enabled : Nat
  cia_b_irqs_enabled : Nat
  writes : List (Reg × Nat)
  reads : List Reg
  world : σ

/-- A store to a memory-mapped register. -/
def Machine.write {σ : Type} (m : Machine σ) (r : Reg) (v : Nat) : Machine σ :=
  { m with writes := m.writes ++ [(r, v)] }

/-- A load from a memory-mapped register (the value is supplied by the caller). -/
def Machine.read {σ : Type} (m : Machine σ) (r : Reg) : Machine σ :=
  { m with reads := m.reads ++ [r] }

/-- Function `write_reg` of platform.c: `paula_base[reg >> 1] = val`, a 16-bit store. -/
def Platform.write_reg {σ : Type} (m : Machine σ) (reg val : Nat) : Machine σ :=
  m.write (paula_reg reg) (u16 val)

/-- Function `write_reg` of timer.c: `cia_base[reg] = val` on peripheral B, an 8-bit
store. -/
def Timer.write_reg {σ : Type} (m : Machine σ) (reg val : Nat) : Machine σ :=
  m.write (Reg.cia_b reg) (u8 val)

/-- Function `write_reg` of serial.c: `serial_reg[reg >> 1] = (uint16_t)val`. -/
def Serial.write_reg {σ : Type} (m : Machine σ) (reg val : Nat) : Machine σ :=
  m.write (paula_reg reg) (u16 val)

def NUM_IRQS_TOTAL : Nat := 24

def NUM_IRQS_PAULA : Nat := 14

def NUM_IRQS_CIA : Nat := 5

def CIA_A_MUX_LEVEL : Nat := 3

def CIA_B_MUX_LEVEL : Nat := 13

/-- Table `irq_level_map` of platform.c: primary lines serviced at CPU levels 1..6. -/
def irq_level_map : List Nat := [0x0007, 0x300C, 0x0070, 0x0780, 0x1800, 0x2000]

def is_paula_irq (irq : Nat) : Bool := decide (irq ≥ 1) && decide (irq ≤ NUM_IRQS_PAULA)

def is_valid_irq (irq : Nat) : Bool := decide (irq ≥ 1) && decide (irq ≤ NUM_IRQS_TOTAL)

def is_cia_a_irq (irq : Nat) : Bool :=
  decide (irq ≥ NUM_IRQS_PAULA + 1) && decide (irq ≤ NUM_IRQS_PAULA + NUM_IRQS_CIA)

def is_cia_b_irq (irq : Nat) : Bool :=
  decide (irq ≥ NUM_IRQS_TOTAL - NUM_IRQS_CIA) && decide (irq ≤ NUM_IRQS_TOTAL)

/-- Function `mask_interrupt` of platform.c. The register offset is held in a
`uint16_t cia_icr`. -/
def mask_interrupt {σ : Type} (m : Machine σ) (irq : Nat) : status_t × Machine σ :=
  if !is_valid_irq irq then (status_t.ERR_INVALID_ARGS, m)
  else if is_paula_irq irq then
    (status_t.NO_ERROR, Platform.write_reg m INTENA (u16 (0x0000 ||| (1 <<< (irq - 1)))))
  else if is_cia_a_irq irq then
    let bit := u8 (irq - (NUM_IRQS_PAULA + 1))
    let m1 := { m with cia_a_irqs_enabled := u8 (m.cia_a_irqs_enabled &&& not32 (1 <<< bit)) }
    (status_t.NO_ERROR, m1.write (Reg.cia_a (u16 CIA_A_ICR)) (u8 (0x00 ||| (1 <<< bit))))
  else if is_cia_b_irq irq then
    let bit := u8 (irq - (NUM_IRQS_PAULA + NUM_IRQS_CIA + 1))
    let m1 := { m with cia_b_irqs_enabled := u8 (m.cia_b_irqs_enabled &&& not32 (1 <<< bit)) }
    (status_t.NO_ERROR, m1.write (Reg.cia_b (u16 CIA_B_ICR)) (u8 (0x00 ||| (1 <<< bit))))
  else (status_t.ERR_INVALID_ARGS, m)

/-- Function `unmask_interrupt` of platform.c. The register offset is held in a
`uint8_t cia_icr`, so the offset the store uses is the low byte of the macro's value. -/
def unmask_interrupt {σ : Type} (m : Machine σ) (irq : Nat) : status_t × Machine σ :=
  if !is_valid_irq irq then (status_t.ERR_INVALID_ARGS, m)
  else if is_paula_irq irq then
    (status_t.NO_ERROR, Platform.write_reg m INTENA (u16 (0x8000 ||| (1 <<< (irq - 1)))))
  else if is_cia_a_irq irq then
    let bit := u8 (irq - (NUM_IRQS_PAULA + 1))
    let m1 := { m with cia_a_irqs_enabled := u8 (m.cia_a_irqs_enabled ||| (1 <<< bit)) }
    (status_t.NO_ERROR, m1.write (Reg.cia_a (u8 CIA_A_ICR)) (u8 (0x80 ||| (1 <<< bit))))
  else if is_cia_b_irq irq then
    let bit := u8 ((irq - (NUM_IRQS_PAULA + NUM_IRQS_CIA)) - 1)
    let m1 := { m with cia_b_irqs_enabled := u8 (m.cia_b_irqs_enabled ||| (1 <<< bit)) }
    (status_t.NO_ERROR, m1.write (Reg.cia_b (u8 CIA_B_ICR)) (u8 (0x80 ||| (1 <<< bit))))
  else (status_t.ERR_INVALID_ARGS, m)

/-- Function `clear_interrupt` of platform.c. -/
def clear_interrupt {σ : Type} (m : Machine σ) (irq : Nat) : status_t × Machine σ :=
  (status_t.NO_ERROR, Platform.write_reg m INTREQ (u16 (1 <<< (u32 (irq + 4294967295)))))

/-- An interrupt handler (`int_handler`): called with its registered argument, it acts on
the machine and returns a reschedule request. -/
abbrev int_handler (σ : Type) : Type := Nat → Machine σ → handler_return × Machine σ

/-- One slot of the handler array (`struct int_handlers`); `none` is the null pointer. -/
structure int_handlers (σ : Type) where
  handler : Option (int_handler σ)
  arg : Nat

/-- The array `handlers[NUM_IRQS_TOTAL]`, indexed by vector minus one. -/
abbrev HandlerTable (σ : Type) : Type := Nat → int_handlers σ

/-- Function `register_int_handler` of platform.c. -/
def register_int_handler {σ : Type} (handlers : HandlerTable σ) (vector : Nat)
    (handler : Option (int_handler σ)) (arg : Nat) : HandlerTable σ :=
  if vector ≥ 1 ∧ vector ≤ NUM_IRQS_TOTAL then
    Function.update handlers (vector - 1) { handler := handler, arg := arg }
  else handlers

/-- Values the hardware returns for the loads one call of `m68k_platform_irq` performs. -/
structure IrqInputs where
  intreqr : Nat
  intenar : Nat
  cia_a_icr : Nat
  cia_b_icr : Nat

/-- Outcome of one call of `m68k_platform_irq`: the returned value, the machine afterwards,
the trace of handler invocations (vector, value the handler returned) in call order, and
the indices `irq_bit` at which the handler array was read, in order. -/
structure IrqResult (σ : Type) where
  ret : handler_return
  invoked : List (Nat × handler_return)
  lookups : List Nat
  machine : Machine σ

/-- The `while (combined)` loop of `m68k_platform_irq`. -/
def irq_loop {σ : Type} (handlers : HandlerTable σ) :
    Nat → Nat → handler_return → List (Nat × handler_return) → List Nat → Machine σ →
      Option (IrqResult σ)
  | fuel, combined, ret, tr, lk, m =>
    if combined = 0 then some { ret := ret, invoked := tr, lookups := lk, machine := m }
    else
      match fuel with
      | 0 => none
      | fuel + 1 =>
        let irq_bit := ctz combined
        let combined := combined &&& not32 (1 <<< irq_bit)
        match (handlers irq_bit).handler with
        | some h =>
          let r := h (handlers irq_bit).arg m
          irq_loop handlers fuel combined r.1 (tr ++ [(irq_bit + 1, r.1)])
            (lk ++ [irq_bit]) r.2
        | none => irq_loop handlers fuel combined ret tr (lk ++ [irq_bit]) m

/-- State of `m68k_platform_irq` when it reaches the test `combined == 0`. -/
structure IrqScan (σ : Type) where
  paula_this_level : Nat
  combined : Nat
  to_clear : Nat
  machine : Machine σ

/-- First half of `m68k_platform_irq`: the loads of the primary pending and enable
registers, the restriction to the CPU level, and the two peripheral status loads. -/
def m68k_platform_irq_scan {σ : Type} (m : Machine σ) (inp : IrqInputs) (m68k_irq : Nat) :
    IrqScan σ :=
  let level := u32 (u8 m68k_irq + 4294967296 - 24)
  let m := m.read (paula_reg INTREQR)
  let paula_pending := u16 inp.intreqr
  let m := m.read (paula_reg INTENAR)
  let paula_enabled := u16 inp.intenar
  let paula_all := paula_pending &&& paula_enabled
  let paula_this_level := paula_all &&& irq_level_map.getD (u32 (level + 4294967295)) 0
  let combined := u32 (paula_this_level &&&
    not32 ((1 <<< CIA_A_MUX_LEVEL) ||| (1 <<< CIA_B_MUX_LEVEL)))
  let to_clear := 0
  let s : IrqScan σ :=
    if paula_this_level &&& (1 <<< CIA_A_MUX_LEVEL) ≠ 0 then
      let m := m.read (Reg.cia_a CIA_A_ICR)
      let icr := u8 inp.cia_a_icr
      let pending := icr &&& 0x1F
      let enabled := pending &&& u8 m.cia_a_irqs_enabled
      let combined :=
        if icr &&& 0x80 ≠ 0 ∧ enabled ≠ 0 then combined ||| (enabled <<< NUM_IRQS_PAULA)
        else combined
      { paula_this_level := paula_this_level, combined := combined,
        to_clear := u16 (to_clear ||| (1 <<< CIA_A_MUX_LEVEL)), machine := m }
    else
      { paula_this_level := paula_this_level, combined := combined,
        to_clear := to_clear, machine := m }
  if paula_this_level &&& (1 <<< CIA_B_MUX_LEVEL) ≠ 0 then
    let m := s.machine.read (Reg.cia_b CIA_B_ICR)
    let icr := u8 inp.cia_b_icr
    let pending := icr &&& 0x1F
    let enabled := pending &&& u8 m.cia_b_irqs_enabled
    let combined :=
      if icr &&& 0x80 ≠ 0 ∧ enabled ≠ 0 then
        s.combined ||| (enabled <<< (NUM_IRQS_PAULA + NUM_IRQS_CIA))
      else s.combined
    { paula_this_level := paula_this_level, combined := combined,
      to_clear := u16 (s.to_clear ||| (1 <<< CIA_B_MUX_LEVEL)), machine := m }
  else s

/-- Function `m68k_platform_irq` of platform.c. `fuel` bounds the dispatch loop. -/
def m68k_platform_irq {σ : Type} (handlers : HandlerTable σ) (m : Machine σ)
    (inp : IrqInputs) (m68k_irq : Nat) (fuel : Nat) : Option (IrqResult σ) :=
  let s := m68k_platform_irq_scan m inp m68k_irq
  if s.combined = 0 then
    some { ret := handler_return.INT_NO_RESCHEDULE, invoked := [], lookups := [],
           machine := if s.to_clear ≠ 0 then Platform.write_reg s.machine INTREQ s.to_clear
                      else s.machine }
  else
    match irq_loop handlers fuel s.combined handler_return.INT_NO_RESCHEDULE [] []
        s.machine with
    | none => none
    | some r => some { r with machine := Platform.write_reg r.machine INTREQ s.to_clear }

/-- Modelled from the spec: the set/clear-by-high-bit protocol of the primary enable
register (hardware): a store with bit 15 set enables the lines selected by the remaining
bits, a store with bit 15 clear disables them. -/
def intena_store (cur val : Nat) : Nat :=
  if val &&& 0x8000 ≠ 0 then cur ||| (val &&& 0x7FFF)
  else cur &&& (0x7FFF ^^^ (val &&& 0x7FFF))

/-- Content of the primary enable register after the logged stores, starting from `init`. -/
def paula_intena (init : Nat) (writes : List (Reg × Nat)) : Nat :=
  writes.foldl (fun cur w => if w.1 = paula_reg INTENA then intena_store cur w.2 else cur) init

/-! ## timer.c -/

/-- Globals of timer.c. The callback is kept as an abstract value of type `κ`. -/
structure TimerGlobals (κ : Type) where
  eclock_hz : Nat
  ta_last : Nat
  ta_ticks : Nat
  t_callback : Option κ
  callback_arg : Nat

/-- Values the hardware returns for the (up to four) loads of one `get_ta_tick` call. -/
structure TaReads where
  lo : Nat
  hi1 : Nat
  hi2 : Nat
  lo2 : Nat

/-- Function `get_ta_tick` of timer.c. -/
def get_ta_tick {σ : Type} (m : Machine σ) (r : TaReads) : Nat × Machine σ :=
  let m := m.read (Reg.cia_b CIA_B_TALO)
  let ta_lo := u8 r.lo
  let m := m.read (Reg.cia_b CIA_B_TAHI)
  let ta_hi1 := u8 r.hi1
  let m := m.read (Reg.cia_b CIA_B_TAHI)
  let ta_hi2 := u8 r.hi2
  if ta_hi1 ≠ ta_hi2 then
    let m := m.read (Reg.cia_b CIA_B_TALO)
    (u16 ((u16 ta_hi2 <<< 8) ||| u8 r.lo2), m)
  else
    (u16 ((u16 ta_hi1 <<< 8) ||| ta_lo), m)

/-- Frequency selection of `calculate_eclock` (timer.c, from the computation of `palfreq`
to the return), as a function of the accumulated 64-bit total `tick_accum`. -/
def calculate_eclock_select (tick_accum : Nat) : Nat :=
  let tod_ticks := 128
  let palfreq := u64 (u64 tick_accum * 50) / tod_ticks
  let ntscfreq := u64 (u64 tick_accum * 60) / tod_ticks
  let lo := 650000
  let hi := 780000
  let pal_nom := 709379
  let ntsc_nom := 715909
  let in50 := decide (palfreq ≥ lo) && decide (palfreq ≤ hi)
  let in60 := decide (ntscfreq ≥ lo) && decide (ntscfreq ≤ hi)
  let hz :=
    if in50 && in60 then
      let d50 := if palfreq > pal_nom then palfreq - pal_nom else pal_nom - palfreq
      let d60 := if ntscfreq > ntsc_nom then ntscfreq - ntsc_nom else ntsc_nom - ntscfreq
      if d50 ≤ d60 then palfreq else ntscfreq
    else if in50 then palfreq
    else if in60 then ntscfreq
    else pal_nom
  u32 hz

/-- Function `current_time_hires` of timer.c: returned microseconds, globals, machine. -/
def current_time_hires {κ σ : Type} (g : TimerGlobals κ) (m : Machine σ) (r : TaReads) :
    Nat × TimerGlobals κ × Machine σ :=
  let s := get_ta_tick m r
  let now := s.1
  let delta := u16 (u16 g.ta_last + 65536 - now)
  let g := { g with ta_last := now, ta_ticks := u64 (u64 g.ta_ticks + delta) }
  (u64 (u64 (g.ta_ticks * 1000000) / u32 g.eclock_hz), g, s.2)

/-- Function `platform_stop_timer` of timer.c. -/
def platform_stop_timer {σ : Type} (m : Machine σ) : Machine σ :=
  let m := Timer.write_reg m CIA_B_CRB 0x00
  (mask_interrupt m 21).2

/-- Function `ms_to_ticks` of timer.c (`lk_time_t` is a 32-bit unsigned integer). -/
def ms_to_ticks (eclock_hz ms : Nat) : Nat :=
  let ticks := u64 (u64 (u32 ms * u32 eclock_hz) + 500)
  let ticks := ticks / 1000
  let ticks := if ticks = 0 then 1 else ticks
  let ticks := if ticks > 65535 then 65535 else ticks
  u16 ticks

/-- Function `platform_set_oneshot_timer` of timer.c. -/
def platform_set_oneshot_timer {κ σ : Type} (g : TimerGlobals κ) (m : Machine σ)
    (callback : Option κ) (arg : Nat) (interval : Nat) :
    status_t × TimerGlobals κ × Machine σ :=
  let g := { g with t_callback := callback, callback_arg := arg }
  let ticks := ms_to_ticks g.eclock_hz interval
  let m := platform_stop_timer m
  let m := Timer.write_reg m CIA_B_TBLO (u8 (ticks &&& 0xFF))
  let m := Timer.write_reg m CIA_B_TBHI (u8 (ticks >>> 8))
  let m := Timer.write_reg m CIA_B_ICR (0x80 ||| 0x02)
  let m := (unmask_interrupt m 21).2
  let m := Timer.write_reg m CIA_B_CRB ((0 <<< 5) ||| (1 <<< 4) ||| (1 <<< 3) ||| (1 <<< 0))
  (status_t.NO_ERROR, g, m)

/-- Function `platform_set_periodic_timer` of timer.c. -/
def platform_set_periodic_timer {κ σ : Type} (g : TimerGlobals κ) (m : Machine σ)
    (callback : Option κ) (arg : Nat) (interval : Nat) :
    status_t × TimerGlobals κ × Machine σ :=
  let g := { g with t_callback := callback, callback_arg := arg }
  let ticks := ms_to_ticks g.eclock_hz interval
  let m := Timer.write_reg m CIA_B_TBLO (u8 (ticks &&& 0xFF))
  let m := Timer.write_reg m CIA_B_TBHI (u8 (ticks >>> 8))
  (status_t.NO_ERROR, g, m)

/-- Values the hardware returns during one pass of the calibration loop: the loads of
`get_ta_tick` and the load of the time-of-day register. -/
structure CalReads where
  ta : TaReads
  tod : Nat

/-- Locals of `calculate_eclock` during its loop, the number of passes made so far and the
machine. -/
structure CalState (σ : Type) where
  seen_ticks : Nat
  tick_accum : Nat
  last_ta_tick : Nat
  last_tod_tick : Nat
  passes : Nat
  machine : Machine σ

/-- The loop `while (seen_ticks < tod_ticks)` of `calculate_eclock`; `reads i` are the
values the hardware returns in pass `i`. The difference `last_ta_tick - now_ta` is formed
in `int` and converted to `uint64_t` for the addition. -/
def calculate_eclock_loop {σ : Type} (reads : Nat → CalReads) :
    Nat → CalState σ → Option (CalState σ)
  | fuel, st =>
    if st.seen_ticks < 128 then
      match fuel with
      | 0 => none
      | fuel + 1 =>
        let x := reads st.passes
        let t := get_ta_tick st.machine x.ta
        let now_ta := t.1
        let tick_accum :=
          u64 (st.tick_accum + u64 (18446744073709551616 + st.last_ta_tick - now_ta))
        let m := t.2.read (Reg.cia_b CIA_B_TODMID)
        let tod := u8 x.tod
        calculate_eclock_loop reads fuel
          { seen_ticks := if tod ≠ st.last_tod_tick then u32 (st.seen_ticks + 1)
                          else st.seen_ticks,
            tick_accum := tick_accum,
            last_ta_tick := now_ta,
            last_tod_tick := if tod ≠ st.last_tod_tick then tod else st.last_tod_tick,
            passes := st.passes + 1,
            machine := m }
    else some st

/-- Function `calculate_eclock` of timer.c: the returned frequency and the state in which
the loop ended. `first` are the loads made before the loop. -/
def calculate_eclock {σ : Type} (first : CalReads) (reads : Nat → CalReads) (fuel : Nat)
    (m : Machine σ) : Option (Nat × CalState σ) :=
  let m := Timer.write_reg m CIA_B_CRA 0x00
  let m := Timer.write_reg m CIA_B_TAHI 0xFF
  let m := Timer.write_reg m CIA_B_TALO 0xFF
  let m := Timer.write_reg m CIA_B_ICR 0x01
  let m := Timer.write_reg m CIA_B_CRA (1 <<< 0)
  let t := get_ta_tick m first.ta
  let m := t.2.read (Reg.cia_b CIA_B_TODMID)
  match calculate_eclock_loop reads fuel
      { seen_ticks := 0, tick_accum := 0, last_ta_tick := t.1, last_tod_tick := u8 first.tod,
        passes := 0, machine := m } with
  | none => none
  | some st => some (calculate_eclock_select st.tick_accum, st)

/-- Function `cia_timer_init` of timer.c; `timer_irq` stands for the address of
`cia_timer_irq`, `ta0` for the loads of its own `get_ta_tick` call. -/
def cia_timer_init {κ σ : Type} (timer_irq : int_handler σ) (handlers : HandlerTable σ)
    (g : TimerGlobals κ) (m : Machine σ) (first : CalReads) (reads : Nat → CalReads)
    (ta0 : TaReads) (fuel : Nat) : Option (HandlerTable σ × TimerGlobals κ × Machine σ) :=
  match calculate_eclock first reads fuel m with
  | none => none
  | some r =>
    let g := { g with eclock_hz := r.1 }
    let m := (mask_interrupt r.2.machine 20).2
    let m := Timer.write_reg m CIA_B_TALO 0xFF
    let m := Timer.write_reg m CIA_B_TAHI 0xFF
    let m := Timer.write_reg m CIA_B_CRA 0x01
    let t := get_ta_tick m ta0
    let g := { g with ta_last := t.1, ta_ticks := 0 }
    let m := platform_stop_timer t.2
    some (register_int_handler handlers 21 (some timer_irq) 0, g, m)

/-! ## serial.c -/

def TBE_STATUS : Nat := 1 <<< 13

def RBF_STATUS : Nat := 1 <<< 14

/-- Modelled from the spec: the bounded FIFO byte queue (`cbuf_t` of lib/cbuf, which is not
among the sources): the queued bytes, oldest first, and the number of bytes it can hold. -/
structure cbuf where
  data : List Nat
  capacity : Nat

/-- Modelled from the spec: non-blocking `cbuf_read_char` of lib/cbuf: returns 1 together
with the oldest byte, which it removes, or 0 when the queue is empty. -/
def cbuf_read_char (b : cbuf) : Nat × Nat × cbuf :=
  match b.data with
  | [] => (0, 0, b)
  | q :: rest => (1, q, { b with data := rest })

/-- Modelled from the spec: non-blocking `cbuf_write_char` of lib/cbuf: appends the byte
and returns 1, or returns 0 when the queue is full. -/
def cbuf_write_char (b : cbuf) (c : Nat) : Nat × cbuf :=
  if b.data.length < b.capacity then (1, { b with data := b.data ++ [u8 c] }) else (0, b)

/-- Globals of serial.c used by the transmit path, and the number of loads of the serial
status register performed so far (`serdatr_loads`, which indexes the hardware's answers). -/
structure SerialGlobals where
  tx_buf : cbuf
  tx_active : Bool
  tx_kick_pending : Bool
  tx_writer_started : Bool
  tx_ev_signals : Nat
  serdatr_loads : Nat

/-- State threaded through uart_putc: serial globals and machine. -/
structure SerialSys (σ : Type) where
  g : SerialGlobals
  machine : Machine σ

/-- Integer promotion of a `char` holding byte `c`, as a 32-bit pattern; plain `char` is
signed or unsigned depending on the target ABI. -/
def char_to_int (char_signed : Bool) (c : Nat) : Nat :=
  if char_signed && decide (u8 c ≥ 128) then 0xFFFFFF00 ||| u8 c else u8 c

/-- The busy-wait `while ((read_reg(SERDATR) & TBE_STATUS) == 0) {}` of serial.c;
`serdatr i` is the value the hardware returns for the `i`-th load of the status register. -/
def wait_tbe {σ : Type} (serdatr : Nat → Nat) : Nat → SerialSys σ → Option (SerialSys σ)
  | 0, _ => none
  | fuel + 1, s =>
    let v := u16 (serdatr s.g.serdatr_loads)
    let s : SerialSys σ :=
      { g := { s.g with serdatr_loads := s.g.serdatr_loads + 1 },
        machine := s.machine.read (paula_reg SERDATR) }
    if v &&& TBE_STATUS = 0 then wait_tbe serdatr fuel s else some s

/-- Polled transmission of one byte: wait for transmit-ready, then store `c | 0x200` to
the serial data register (`write_reg` of serial.c narrows the value to 16 bits). -/
def uart_send_polled {σ : Type} (char_signed : Bool) (serdatr : Nat → Nat) (fuel : Nat)
    (s : SerialSys σ) (c : Nat) : Option (SerialSys σ) :=
  match wait_tbe serdatr fuel s with
  | none => none
  | some s =>
    some { s with machine := Serial.write_reg s.machine SERDAT (char_to_int char_signed c ||| 0x200) }

/-- The loop `while (cbuf_read_char(&tx_buf, &q, false) == 1) { ... }` of `uart_putc`. -/
def uart_drain {σ : Type} (char_signed : Bool) (serdatr : Nat → Nat) (fuel : Nat) :
    Nat → SerialSys σ → Option (SerialSys σ)
  | 0, _ => none
  | k + 1, s =>
    let r := cbuf_read_char s.g.tx_buf
    let s : SerialSys σ := { s with g := { s.g with tx_buf := r.2.2 } }
    if r.1 = 1 then
      match uart_send_polled char_signed serdatr fuel s r.2.1 with
      | none => none
      | some s => uart_drain char_signed serdatr fuel k s
    else some s

/-- The retry loop `while (written == 0) { ... }` of the normal path of `uart_putc`. -/
def uart_retry {σ : Type} (c : Nat) : Nat → Nat → SerialSys σ → Option (SerialSys σ)
  | fuel, written, s =>
    if written = 0 then
      match fuel with
      | 0 => none
      | fuel + 1 =>
        let s : SerialSys σ := { s with g := { s.g with tx_ev_signals := s.g.tx_ev_signals + 1 } }
        let w := cbuf_write_char s.g.tx_buf c
        uart_retry c fuel w.1 { s with g := { s.g with tx_buf := w.2 } }
    else some s

/-- Function `uart_putc` of serial.c. `irqs_disabled` is the value of
`arch_ints_disabled()`; `fuel` bounds every loop of the call. -/
def uart_putc {σ : Type} (char_signed : Bool) (serdatr : Nat → Nat) (fuel : Nat)
    (s : SerialSys σ) (irqs_disabled : Bool) (c : Nat) : Option (SerialSys σ) :=
  let s : SerialSys σ :=
    if !s.g.tx_writer_started && !irqs_disabled then
      { s with g := { s.g with tx_writer_started := true } }
    else s
  if irqs_disabled then
    match uart_drain char_signed serdatr fuel fuel s with
    | none => none
    | some s =>
      match uart_send_polled char_signed serdatr fuel s c with
      | none => none
      | some s =>
        match uart_drain char_signed serdatr fuel fuel s with
        | none => none
        | some s =>
          let s : SerialSys σ := { s with g := { s.g with tx_active := false } }
          some { s with machine := (mask_interrupt s.machine 1).2 }
  else
    let w := cbuf_write_char s.g.tx_buf c
    let s : SerialSys σ := { s with g := { s.g with tx_buf := w.2 } }
    let s : SerialSys σ :=
      if !s.g.tx_active then
        { g := { s.g with tx_active := true, tx_ev_signals := s.g.tx_ev_signals + 1 },
          machine := (unmask_interrupt s.machine 1).2 }
      else s
    uart_retry c fuel w.1 s

/-- A sequence of `current_time_hires` calls, one per element of `rs`; for each call, in
call order, the pair (returned microseconds, accumulated tick count after the call). -/
def current_time_hires_calls {κ σ : Type} :
    TimerGlobals κ → Machine σ → List TaReads → List (Nat × Nat) × TimerGlobals κ × Machine σ
  | g, m, [] => ([], g, m)
  | g, m, r :: rs =>
    let c := current_time_hires g m r
    let t := current_time_hires_calls c.2.1 c.2.2 rs
    ((c.1, c.2.1.ta_ticks) :: t.1, t.2)

/-- Ticks elapsed over a sequence of raw counter samples, in the words of the claim: the sum
over the samples of (previous sample - current sample) mod 2^16, the counter counting down. -/
def elapsed_ticks : Nat → List Nat → Nat
  | _, [] => 0
  | last, now :: rest => (((last : Int) - (now : Int)) % 65536).toNat + elapsed_ticks now rest

/-- Timer globals with the given frequency, last sample and accumulated count. -/
def timer_globals (hz last ticks : Nat) : TimerGlobals Unit :=
  { eclock_hz := hz, ta_last := last, ta_ticks := ticks, t_callback := none, callback_arg := 0 }

/-- The loads of a `get_ta_tick` call that samples the 16-bit counter value `v` with a
stable high byte. -/
def ta_reads (v : Nat) : TaReads := { lo := v % 256, hi1 := v / 256, hi2 := v / 256, lo2 := 0 }

/-- One pass of the inner `for (;;)` loop of `uart_write_thread` (serial.c): the state
afterwards and whether the loop continues (`false` is the `break` taken on an empty
queue). -/
def uart_write_thread_pass {σ : Type} (char_signed : Bool) (serdatr : Nat → Nat)
    (fuel : Nat) (s : SerialSys σ) : Option (SerialSys σ × Bool) :=
  let r := cbuf_read_char s.g.tx_buf
  if r.1 ≠ 1 then
    some ({ g := { s.g with tx_buf := r.2.2, tx_kick_pending := false, tx_active := false },
            machine := (mask_interrupt s.machine 1).2 }, false)
  else
    let s : SerialSys σ := { s with g := { s.g with tx_buf := r.2.2, tx_active := true } }
    match uart_send_polled char_signed serdatr fuel s r.2.1 with
    | none => none
    | some s => some ({ s with machine := (unmask_interrupt s.machine 1).2 }, true)

/-- States of the serial driver reachable from an initial state (TX queue empty, no byte in
flight, vector 1 masked in the enable register whose content before the logged stores is
`ena0`) by the driver's steps taken one at a time: `uart_putc` on the normal path,
`uart_putc` on the panic path, one pass of the worker. -/
inductive serial_reachable {σ : Type} (char_signed : Bool) (serdatr : Nat → Nat)
    (ena0 : Nat) : SerialSys σ → Prop where
  | init (s : SerialSys σ) :
      s.g.tx_buf.data = [] → s.g.tx_active = false →
      (paula_intena ena0 s.machine.writes).testBit 0 = false →
      serial_reachable char_signed serdatr ena0 s
  | putc_normal (s s2 : SerialSys σ) (fuel c : Nat) :
      serial_reachable char_signed serdatr ena0 s →
      uart_putc char_signed serdatr fuel s false c = some s2 →
      serial_reachable char_signed serdatr ena0 s2
  | putc_panic (s s2 : SerialSys σ) (fuel c : Nat) :
      serial_reachable char_signed serdatr ena0 s →
      uart_putc char_signed serdatr fuel s true c = some s2 →
      serial_reachable char_signed serdatr ena0 s2
  | worker_pass (s s2 : SerialSys σ) (fuel : Nat) (continues : Bool) :
      serial_reachable char_signed serdatr ena0 s →
      uart_write_thread_pass char_signed serdatr fuel s = some (s2, continues) →
      serial_reachable char_signed serdatr ena0 s2

/-! ## Interrupt handlers of timer.c and serial.c -/

/-- Globals of timer.c and serial.c that the interrupt handlers of this repository use;
it is the `world` of the machine they run on. -/
structure PlatformGlobals (κ : Type) where
  timer : TimerGlobals κ
  serial : SerialGlobals
  rx_buf : cbuf

/-- Function `current_time` of timer.c (`lk_time_t` is a 32-bit unsigned integer). -/
def current_time {κ σ : Type} (g : TimerGlobals κ) (m : Machine σ) (r : TaReads) :
    Nat × TimerGlobals κ × Machine σ :=
  let c := current_time_hires g m r
  (u32 (c.1 / 1000), c.2)

/-- Function `cia_timer_irq` of timer.c. `call cb arg now` is the value the registered
callback `cb` returns; `ta` are the loads of the `current_time` call. -/
def cia_timer_irq {κ : Type} (call : κ → Nat → Nat → handler_return) (ta : TaReads) :
    int_handler (PlatformGlobals κ) :=
  fun _ m =>
    let m := m.read (Reg.cia_b CIA_B_ICR)
    match m.world.timer.t_callback with
    | some cb =>
      let c := current_time m.world.timer m ta
      (call cb m.world.timer.callback_arg c.1,
        { c.2.2 with world := { c.2.2.world with timer := c.2.1 } })
    | none => (handler_return.INT_NO_RESCHEDULE, m)

/-- Function `uart_irq_tx_handler` of serial.c. -/
def uart_irq_tx_handler {κ : Type} : int_handler (PlatformGlobals κ) :=
  fun _ m =>
    let m := (clear_interrupt m 1).2
    (handler_return.INT_NO_RESCHEDULE,
      { m with world := { m.world with
          serial := { m.world.serial with
            tx_ev_signals := m.world.serial.tx_ev_signals + 1 } } })

/-- Function `uart_irq_rx_handler` of serial.c; `serdatr_value` is the value its load of
the receive data/status register returns. -/
def uart_irq_rx_handler {κ : Type} (serdatr_value : Nat) : int_handler (PlatformGlobals κ) :=
  fun _ m =>
    let m := m.read (paula_reg SERDATR)
    let reg := u16 serdatr_value
    let m := (clear_interrupt m 12).2
    if reg &&& RBF_STATUS > 0 then
      let c := u8 (reg &&& 0xFF)
      let w := cbuf_write_char m.world.rx_buf c
      (handler_return.INT_RESCHEDULE, { m with world := { m.world with rx_buf := w.2 } })
    else (handler_return.INT_NO_RESCHEDULE, m)

/-! ## The dispatch contract in the words of the specification -/

/-- The level-restricted active set: pending AND enabled AND the mask of CPU level `L`. -/
def level_active (pending enabled L : Nat) : Nat :=
  pending &&& enabled &&& irq_level_map.getD (L - 1) 0

/-- The mask `combined` as the dispatch contract words it: the level-restricted active set
with the two mux bits (lines 4 and 14) removed, OR the enabled pending bits of peripheral A
shifted to bit 14 when mux line 4 is active and bit 7 of A's status is set, OR those of
peripheral B shifted to bit 19 when mux line 14 is active and bit 7 of B's status is set. -/
def claimed_combined (pending enabled L sA mA sB mB : Nat) : Nat :=
  (level_active pending enabled L &&& (0xFFFF ^^^ ((1 <<< 3) ||| (1 <<< 13))))
    ||| (if (level_active pending enabled L).testBit 3 = true ∧ sA.testBit 7 = true then
          (sA &&& 0x1F &&& mA) <<< 14 else 0)
    ||| (if (level_active pending enabled L).testBit 13 = true ∧ sB.testBit 7 = true then
          (sB &&& 0x1F &&& mB) <<< 19 else 0)

/-- The vectors the contract says one dispatch call delivers, in ascending order: those in
1..24 whose bit (vector - 1) is set in `combined` and whose slot holds a handler. -/
def claimed_vectors {σ : Type} (handlers : HandlerTable σ) (combined : Nat) : List Nat :=
  (List.range' 1 24).filter
    (fun v => combined.testBit (v - 1) && ((handlers (v - 1)).handler).isSome)

/-! ## Hardware enable masks of the peripheral controllers -/

/-- Modelled from the spec: the set/clear-by-high-bit protocol of a peripheral's
interrupt-control register (hardware): a store with bit 7 set enables the sources selected
by the low 5 bits, a store with bit 7 clear disables them. -/
def cia_icr_store (cur val : Nat) : Nat :=
  if val &&& 0x80 ≠ 0 then cur ||| (val &&& 0x1F)
  else cur &&& (0x1F ^^^ (val &&& 0x1F))

/-- Hardware enable mask of peripheral A after the logged stores, starting from `init`:
only stores to its interrupt-control register (offset `CIA_A_ICR`) act on it. -/
def cia_a_enable_mask (init : Nat) (writes : List (Reg × Nat)) : Nat :=
  writes.foldl (fun cur w => if w.1 = Reg.cia_a CIA_A_ICR then cia_icr_store cur w.2 else cur)
    init

/-- Hardware enable mask of peripheral B after the logged stores, starting from `init`:
only stores to its interrupt-control register (offset `CIA_B_ICR`) act on it. -/
def cia_b_enable_mask (init : Nat) (writes : List (Reg × Nat)) : Nat :=
  writes.foldl (fun cur w => if w.1 = Reg.cia_b CIA_B_ICR then cia_icr_store cur w.2 else cur)
    init

/-! ## Concrete handlers and states used to evaluate the code -/

/-- A handler that requests a reschedule and leaves the machine alone. -/
def handler_resched : int_handler Unit := fun _ m => (handler_return.INT_RESCHEDULE, m)

/-- A handler that requests nothing and leaves the machine alone. -/
def handler_quiet : int_handler Unit := fun _ m => (handler_return.INT_NO_RESCHEDULE, m)

/-- Machine after reset: both shadow masks 0, empty access logs. -/
def machine_reset : Machine Unit :=
  { cia_a_irqs_enabled := 0, cia_b_irqs_enabled := 0, writes := [], reads := [], world := () }

/-- The handler array after reset: every slot null. -/
def handlers_reset : HandlerTable Unit := fun _ => { handler := none, arg := 0 }

/-- Vector 1 registered with `handler_resched`, vector 2 with `handler_quiet`. -/
def handlers_resched_then_quiet : HandlerTable Unit :=
  register_int_handler (register_int_handler handlers_reset 1 (some handler_resched) 0)
    2 (some handler_quiet) 0

/-- A machine whose shadow masks enable source 1 of each peripheral (vectors 16 and 21). -/
def machine_sample : Machine Unit :=
  { cia_a_irqs_enabled := 2, cia_b_irqs_enabled := 2, writes := [], reads := [], world := () }

/-- Handlers registered on vectors 3, 4, 16 and 21. -/
def handlers_sample : HandlerTable Unit :=
  register_int_handler
    (register_int_handler
      (register_int_handler
        (register_int_handler handlers_reset 3 (some handler_quiet) 0)
        4 (some handler_resched) 0)
      16 (some handler_quiet) 0)
    21 (some handler_resched) 0

/-- Lines 3, 4 and 14 pending and enabled; both peripherals assert source 1. -/
def inputs_sample : IrqInputs :=
  { intreqr := 0x200C, intenar := 0x200C, cia_a_icr := 0x82, cia_b_icr := 0x82 }

/-- Serial driver state with the bytes 0x01, 0x02, 0x83 queued and a transmission marked
in flight. -/
def serial_sample : SerialSys Unit :=
  { g := { tx_buf := { data := [0x01, 0x02, 0x83], capacity := 255 }, tx_active := true,
           tx_kick_pending := false, tx_writer_started := true, tx_ev_signals := 0,
           serdatr_loads := 0 },
    machine := machine_reset }

/-- A serial status register that reads transmit-ready on every third load. -/
def serdatr_sample : Nat → Nat := fun i => if i % 3 = 2 then 0x2000 else 0

/-- Calibration reads in which the counter, read as 5 before the loop, has wrapped through
zero to 65530 at the first pass and then falls by 10 per pass, while the time-of-day
register changes at every pass. -/
def cal_reads_sample : Nat → CalReads :=
  fun i => { ta := ta_reads (65530 - 10 * i), tod := i + 1 }

/-- The loads made before the calibration loop in the sample: counter 5, time-of-day 0. -/
def cal_first_sample : CalReads := { ta := ta_reads 5, tod := 0 }

/-- Platform globals with no timer callback, an idle transmitter and an RX ring that holds
two bytes and is full. -/
def globals_sample : PlatformGlobals Unit :=
  { timer := timer_globals 709379 0 0,
    serial := serial_sample.g,
    rx_buf := { data := [0x31, 0x32], capacity := 2 } }

/-- A machine over the platform globals whose shadow masks enable source 1 of each
peripheral. -/
def platform_machine_sample : Machine (PlatformGlobals Unit) :=
  { cia_a_irqs_enabled := 2, cia_b_irqs_enabled := 2, writes := [], reads := [],
    world := globals_sample }

/-- The platform machine after an alarm has been armed: a timer callback is registered. -/
def platform_machine_armed : Machine (PlatformGlobals Unit) :=
  { platform_machine_sample with
    world := { globals_sample with
      timer := { globals_sample.timer with t_callback := some (), callback_arg := 7 } } }

/-- The handler array as the source registers it: `uart_irq_tx_handler` on vector 1,
`uart_irq_rx_handler` on vector 12, `cia_timer_irq` on vector 21. -/
def handlers_platform : HandlerTable (PlatformGlobals Unit) :=
  register_int_handler
    (register_int_handler
      (register_int_handler (fun _ => { handler := none, arg := 0 })
        1 (some uart_irq_tx_handler) 0)
      12 (some (uart_irq_rx_handler 0x2041)) 0)
    21 (some (cia_timer_irq (fun _ _ _ => handler_return.INT_RESCHEDULE) (ta_reads 65535))) 0

/-- The serial driver before any transmission: TX queue empty, nothing in flight, worker
not started. -/
def serial_initial : SerialSys Unit :=
  { g := { tx_buf := { data := [], capacity := 255 }, tx_active := false,
           tx_kick_pending := false, tx_writer_started := false, tx_ev_signals := 0,
           serdatr_loads := 0 },
    machine := machine_reset }

/-- The serial driver after one `uart_putc(0x41)` on the normal path from `serial_initial`:
the byte is queued, a transmission is marked active and vector 1 has been unmasked. -/
def serial_after_putc : SerialSys Unit :=
  { g := { tx_buf := { data := [0x41], capacity := 255 }, tx_active := true,
           tx_kick_pending := false, tx_writer_started := true, tx_ev_signals := 1,
           serdatr_loads := 0 },
    machine := { machine_reset with writes := [(paula_reg INTENA, 0x8001)] } }

/-! # Theorems -/

/-! ## C1: the value returned by the dispatcher -/

/-- C1 (evaluation of the code at the failing input): with lines 1 and 2 pending and enabled
at CPU level 1, the handler of vector 1 requesting a reschedule and the handler of vector 2
requesting none, both handlers are invoked and `m68k_platform_irq` returns
INT_NO_RESCHEDULE: the last handler's value replaces the earlier request. -/
theorem C1_irq_returns_last_handler_value :
    (m68k_platform_irq handlers_resched_then_quiet machine_reset
        { intreqr := 0x0003, intenar := 0x0003, cia_a_icr := 0, cia_b_icr := 0 } 25 32).map
      (fun r => (r.ret, r.invoked)) =
    some (handler_return.INT_NO_RESCHEDULE,
      [(1, handler_return.INT_RESCHEDULE), (2, handler_return.INT_NO_RESCHEDULE)]) := by
  decide

/-! ## C3: vectors outside [1,24] are rejected by mask and unmask -/

/-- C3: for a vector outside [1,24], `mask_interrupt` and `unmask_interrupt` return
ERR_INVALID_ARGS and leave the machine (write log, both shadow masks) as it was; for a
vector in [1,24] both return NO_ERROR. -/
theorem C3_mask_unmask_validate_vector {σ : Type} (m : Machine σ) (v : Nat) :
    ((v < 1 ∨ 24 < v) →
      mask_interrupt m v = (status_t.ERR_INVALID_ARGS, m) ∧
      unmask_interrupt m v = (status_t.ERR_INVALID_ARGS, m)) ∧
    ((1 ≤ v ∧ v ≤ 24) →
      (mask_interrupt m v).1 = status_t.NO_ERROR ∧
      (unmask_interrupt m v).1 = status_t.NO_ERROR) := by
  constructor
  · intro h
    have hv : is_valid_irq v = false := by
      simp only [is_valid_irq, NUM_IRQS_TOTAL, Bool.and_eq_false_iff, decide_eq_false_iff_not]
      omega
    simp [mask_interrupt, unmask_interrupt, hv]
  · intro h
    have hv : is_valid_irq v = true := by
      simp only [is_valid_irq, NUM_IRQS_TOTAL, Bool.and_eq_true, decide_eq_true_eq]
      omega
    by_cases hp : is_paula_irq v = true
    · simp [mask_interrupt, unmask_interrupt, hv, hp]
    · by_cases ha : is_cia_a_irq v = true
      · simp [mask_interrupt, unmask_interrupt, hv, hp, ha]
      · have hb : is_cia_b_irq v = true := by
          simp only [is_paula_irq, is_cia_a_irq, is_cia_b_irq, NUM_IRQS_PAULA, NUM_IRQS_CIA,
            NUM_IRQS_TOTAL, Bool.and_eq_true, decide_eq_true_eq] at hp ha ⊢
          omega
        simp [mask_interrupt, unmask_interrupt, hv, hp, ha, hb]

/-- C3 witness: vectors 0 and 25 are rejected without effect, vectors 1, 19 and 24 are
accepted. -/
theorem C3_mask_unmask_validate_vector_witness :
    (mask_interrupt machine_reset 0 = (status_t.ERR_INVALID_ARGS, machine_reset) ∧
      unmask_interrupt machine_reset 0 = (status_t.ERR_INVALID_ARGS, machine_reset)) ∧
    (mask_interrupt machine_reset 25 = (status_t.ERR_INVALID_ARGS, machine_reset) ∧
      unmask_interrupt machine_reset 25 = (status_t.ERR_INVALID_ARGS, machine_reset)) ∧
    ((mask_interrupt machine_reset 19).1 = status_t.NO_ERROR ∧
      (unmask_interrupt machine_reset 19).1 = status_t.NO_ERROR) :=
  ⟨(C3_mask_unmask_validate_vector machine_reset 0).1 (Or.inl (by decide)),
   (C3_mask_unmask_validate_vector machine_reset 25).1 (Or.inr (by decide)),
   (C3_mask_unmask_validate_vector machine_reset 19).2 ⟨by decide, by decide⟩⟩

/-! ## C10: handler registration -/

/-- C10: for a vector in [1,24], `register_int_handler` stores (handler, arg) in the slot of
that vector, whatever the slot held before (so a second registration of the same vector
wins), and leaves every other slot as it was; for a vector outside [1,24] the whole table is
unchanged. The function returns nothing, so no error is reported. -/
theorem C10_register_int_handler_frame {σ : Type} (handlers : HandlerTable σ) (v : Nat)
    (h h2 : Option (int_handler σ)) (a a2 : Nat) :
    ((1 ≤ v ∧ v ≤ 24) →
      register_int_handler handlers v h a (v - 1) = { handler := h, arg := a } ∧
      register_int_handler (register_int_handler handlers v h a) v h2 a2 (v - 1) =
        { handler := h2, arg := a2 } ∧
      (∀ w, 1 ≤ w → w ≤ 24 → w ≠ v →
        register_int_handler handlers v h a (w - 1) = handlers (w - 1)) ∧
      (∀ i, i ≠ v - 1 → register_int_handler handlers v h a i = handlers i)) ∧
    ((v < 1 ∨ 24 < v) → register_int_handler handlers v h a = handlers) := by
  constructor
  · intro hv
    have hc : v ≥ 1 ∧ v ≤ NUM_IRQS_TOTAL := by simpa [NUM_IRQS_TOTAL] using hv
    refine ⟨?_, ?_, ?_, ?_⟩
    · simp [register_int_handler, hc]
    · simp [register_int_handler, hc]
    · intro w h1 _ hne
      have : w - 1 ≠ v - 1 := by omega
      simp [register_int_handler, hc, Function.update_noteq this]
    · intro i hi
      simp [register_int_handler, hc, Function.update_noteq hi]
  · intro hv
    have hc : ¬ (v ≥ 1 ∧ v ≤ NUM_IRQS_TOTAL) := by
      simp only [NUM_IRQS_TOTAL]
      omega
    simp [register_int_handler, hc]

/-- C10 witness: registering vector 2 on the reset table fills slot 1 only; registering
vector 25 changes nothing. -/
theorem C10_register_int_handler_frame_witness :
    (register_int_handler handlers_reset 2 (some handler_quiet) 7 (2 - 1) =
        { handler := some handler_quiet, arg := 7 } ∧
      register_int_handler (register_int_handler handlers_reset 2 (some handler_quiet) 7)
          2 (some handler_resched) 9 (2 - 1) =
        { handler := some handler_resched, arg := 9 } ∧
      (∀ w, 1 ≤ w → w ≤ 24 → w ≠ 2 →
        register_int_handler handlers_reset 2 (some handler_quiet) 7 (w - 1) =
          handlers_reset (w - 1)) ∧
      (∀ i, i ≠ 2 - 1 →
        register_int_handler handlers_reset 2 (some handler_quiet) 7 i = handlers_reset i)) ∧
    register_int_handler handlers_reset 25 (some handler_quiet) 7 = handlers_reset :=
  ⟨(C10_register_int_handler_frame handlers_reset 2 (some handler_quiet)
      (some handler_resched) 7 9).1 ⟨by decide, by decide⟩,
   (C10_register_int_handler_frame handlers_reset 25 (some handler_quiet)
      (some handler_resched) 7 9).2 (Or.inr (by decide))⟩

/-! ## The frequency selection on the candidates formed with 64-bit products -/

/-- Selection rule of `calculate_eclock` on the candidates the code computes: for every
64-bit total T, with pal = floor((T*50 mod 2^64)/128) and ntsc = floor((T*60 mod 2^64)/128),
the code selects pal when both candidates lie in [650000,780000] and
|pal-709379| <= |ntsc-715909|, ntsc when both lie in the band and ntsc is strictly closer,
the single in-band candidate when exactly one lies in the band, and 709379 when neither
does; the two candidates are floor(T*50/128) and floor(T*60/128) whenever T*60 < 2^64; and
for T = 1816000 they are 709375 and 851250 and the selected frequency is 709375. -/
theorem calculate_eclock_select_rule (T : Nat) (hT : T < 2 ^ 64) :
    (((650000 ≤ T * 50 % 2 ^ 64 / 128 ∧ T * 50 % 2 ^ 64 / 128 ≤ 780000) ∧
        (650000 ≤ T * 60 % 2 ^ 64 / 128 ∧ T * 60 % 2 ^ 64 / 128 ≤ 780000) ∧
        |((T * 50 % 2 ^ 64 / 128 : Nat) : Int) - 709379| ≤
          |((T * 60 % 2 ^ 64 / 128 : Nat) : Int) - 715909|) →
      calculate_eclock_select T = T * 50 % 2 ^ 64 / 128) ∧
    (((650000 ≤ T * 50 % 2 ^ 64 / 128 ∧ T * 50 % 2 ^ 64 / 128 ≤ 780000) ∧
        (650000 ≤ T * 60 % 2 ^ 64 / 128 ∧ T * 60 % 2 ^ 64 / 128 ≤ 780000) ∧
        |((T * 60 % 2 ^ 64 / 128 : Nat) : Int) - 715909| <
          |((T * 50 % 2 ^ 64 / 128 : Nat) : Int) - 709379|) →
      calculate_eclock_select T = T * 60 % 2 ^ 64 / 128) ∧
    (((650000 ≤ T * 50 % 2 ^ 64 / 128 ∧ T * 50 % 2 ^ 64 / 128 ≤ 780000) ∧
        ¬ (650000 ≤ T * 60 % 2 ^ 64 / 128 ∧ T * 60 % 2 ^ 64 / 128 ≤ 780000)) →
      calculate_eclock_select T = T * 50 % 2 ^ 64 / 128) ∧
    ((¬ (650000 ≤ T * 50 % 2 ^ 64 / 128 ∧ T * 50 % 2 ^ 64 / 128 ≤ 780000) ∧
        (650000 ≤ T * 60 % 2 ^ 64 / 128 ∧ T * 60 % 2 ^ 64 / 128 ≤ 780000)) →
      calculate_eclock_select T = T * 60 % 2 ^ 64 / 128) ∧
    ((¬ (650000 ≤ T * 50 % 2 ^ 64 / 128 ∧ T * 50 % 2 ^ 64 / 128 ≤ 780000) ∧
        ¬ (650000 ≤ T * 60 % 2 ^ 64 / 128 ∧ T * 60 % 2 ^ 64 / 128 ≤ 780000)) →
      calculate_eclock_select T = 709379) ∧
    (T * 60 < 2 ^ 64 →
      T * 50 % 2 ^ 64 / 128 = T * 50 / 128 ∧ T * 60 % 2 ^ 64 / 128 = T * 60 / 128) ∧
    (1816000 * 50 / 128 = 709375 ∧ 1816000 * 60 / 128 = 851250 ∧
      calculate_eclock_select 1816000 = 709375) := by
  have e64 : (2 : Nat) ^ 64 = 18446744073709551616 := by norm_num
  simp only [e64] at *
  have hu : T % 18446744073709551616 = T := Nat.mod_eq_of_lt hT
  generalize hp : T * 50 % 18446744073709551616 / 128 = pal
  generalize hn : T * 60 % 18446744073709551616 / 128 = ntsc
  have hsel : calculate_eclock_select T =
      u32 (if (decide (pal ≥ 650000) && decide (pal ≤ 780000)) &&
              (decide (ntsc ≥ 650000) && decide (ntsc ≤ 780000)) then
            (if (if pal > 709379 then pal - 709379 else 709379 - pal) ≤
                (if ntsc > 715909 then ntsc - 715909 else 715909 - ntsc) then pal else ntsc)
          else if (decide (pal ≥ 650000) && decide (pal ≤ 780000)) then pal
          else if (decide (ntsc ≥ 650000) && decide (ntsc ≤ 780000)) then ntsc
          else 709379) := by
    simp only [calculate_eclock_select, u64, hu, hp, hn]
  refine ⟨?_, ?_, ?_, ?_, ?_, ?_, ?_⟩
  · rintro ⟨⟨a1, a2⟩, ⟨b1, b2⟩, hd⟩
    have hd2 : (if pal > 709379 then pal - 709379 else 709379 - pal) ≤
        (if ntsc > 715909 then ntsc - 715909 else 715909 - ntsc) := by
      rw [abs_le] at hd
      have := le_abs_self ((ntsc : Int) - 715909)
      have := neg_abs_le ((ntsc : Int) - 715909)
      rcases abs_cases ((ntsc : Int) - 715909) with ⟨h1, h2⟩ | ⟨h1, h2⟩ <;>
        split_ifs <;> omega
    rw [hsel]
    simp only [ge_iff_le, a1, a2, b1, b2, decide_True, Bool.and_self, if_true, hd2, u32]
    omega
  · rintro ⟨⟨a1, a2⟩, ⟨b1, b2⟩, hd⟩
    have hd2 : ¬ (if pal > 709379 then pal - 709379 else 709379 - pal) ≤
        (if ntsc > 715909 then ntsc - 715909 else 715909 - ntsc) := by
      rw [abs_lt] at hd
      rcases abs_cases ((pal : Int) - 709379) with ⟨h1, h2⟩ | ⟨h1, h2⟩ <;>
        split_ifs <;> omega
    rw [hsel]
    simp only [ge_iff_le, a1, a2, b1, b2, decide_True, Bool.and_self, if_true, hd2, if_false,
      u32]
    omega
  · rintro ⟨⟨a1, a2⟩, hb⟩
    have hb2 : (decide (ntsc ≥ 650000) && decide (ntsc ≤ 780000)) = false := by
      simp only [ge_iff_le, Bool.and_eq_false_iff, decide_eq_false_iff_not]
      omega
    rw [hsel, hb2]
    simp only [ge_iff_le, a1, a2, decide_True, Bool.and_self, Bool.and_false, if_true, u32]
    simp
    omega
  · rintro ⟨ha, ⟨b1, b2⟩⟩
    have ha2 : (decide (pal ≥ 650000) && decide (pal ≤ 780000)) = false := by
      simp only [ge_iff_le, Bool.and_eq_false_iff, decide_eq_false_iff_not]
      omega
    rw [hsel, ha2]
    simp only [ge_iff_le, b1, b2, decide_True, Bool.and_self, Bool.false_and, if_true, u32]
    simp
    omega
  · rintro ⟨ha, hb⟩
    have ha2 : (decide (pal ≥ 650000) && decide (pal ≤ 780000)) = false := by
      simp only [ge_iff_le, Bool.and_eq_false_iff, decide_eq_false_iff_not]
      omega
    have hb2 : (decide (ntsc ≥ 650000) && decide (ntsc ≤ 780000)) = false := by
      simp only [ge_iff_le, Bool.and_eq_false_iff, decide_eq_false_iff_not]
      omega
    rw [hsel, ha2, hb2]
    simp [u32]
  · intro h60
    subst hp hn
    constructor
    · rw [Nat.mod_eq_of_lt (by omega)]
    · rw [Nat.mod_eq_of_lt (by omega)]
  · decide

/-! ## C8: conversion of milliseconds to alarm ticks -/

/-- Writes of `mask_interrupt` on vector 21: one store of 0x02 to the interrupt-control
register of peripheral B. -/
theorem mask_interrupt_21_writes {σ : Type} (m : Machine σ) :
    (mask_interrupt m 21).2.writes = m.writes ++ [(Reg.cia_b CIA_B_ICR, 2)] := by
  have h : u16 CIA_B_ICR = CIA_B_ICR := by decide
  simp [mask_interrupt, is_valid_irq, is_paula_irq, is_cia_a_irq, is_cia_b_irq,
    NUM_IRQS_TOTAL, NUM_IRQS_PAULA, NUM_IRQS_CIA, Machine.write, u8, h]

/-- Writes of `unmask_interrupt` on vector 21: one store of 0x82, which goes to offset
`(uint8_t)CIA_B_ICR` = 0x00 of peripheral B, the register `CIA_B_PRA`. -/
theorem unmask_interrupt_21_writes {σ : Type} (m : Machine σ) :
    (unmask_interrupt m 21).2.writes = m.writes ++ [(Reg.cia_b CIA_B_PRA, 130)] := by
  have h : u8 CIA_B_ICR = CIA_B_PRA := by decide
  simp only [unmask_interrupt, is_valid_irq, is_paula_irq, is_cia_a_irq, is_cia_b_irq,
    NUM_IRQS_TOTAL, NUM_IRQS_PAULA, NUM_IRQS_CIA, Machine.write, h]
  simp [u8]

/-- For 32-bit operands `ms_to_ticks` is floor((ms*hz+500)/1000) clamped to [1,65535]. -/
theorem ms_to_ticks_eq (hz ms : Nat) (hms : ms < 2 ^ 32) (hhz : hz < 2 ^ 32) :
    ms * hz + 500 < 2 ^ 64 ∧
    ms_to_ticks hz ms = max 1 (min 65535 ((ms * hz + 500) / 1000)) := by
  have e32 : (2 : Nat) ^ 32 = 4294967296 := by norm_num
  have e64 : (2 : Nat) ^ 64 = 18446744073709551616 := by norm_num
  rw [e32] at hms hhz
  rw [e64]
  have hp : ms * hz ≤ 4294967295 * 4294967295 :=
    Nat.mul_le_mul (by omega) (by omega)
  have h1 : ms % 4294967296 = ms := Nat.mod_eq_of_lt hms
  have h2 : hz % 4294967296 = hz := Nat.mod_eq_of_lt hhz
  refine ⟨by omega, ?_⟩
  simp only [ms_to_ticks, u32, u64, u16, h1, h2]
  generalize ms * hz = p at hp ⊢
  have h3 : p % 18446744073709551616 = p := Nat.mod_eq_of_lt (by omega)
  rw [h3]
  have h4 : (p + 500) % 18446744073709551616 = p + 500 := Nat.mod_eq_of_lt (by omega)
  rw [h4]
  generalize (p + 500) / 1000 = r
  split_ifs <;> omega

/-- C8: for 32-bit `ms` and a 32-bit calibrated frequency, ms*hz+500 does not overflow 64
bits, and `ms_to_ticks` is r = floor((ms*hz+500)/1000), the nearest integer to ms*hz/1000,
clamped to [1,65535]: it is at least 1, at most 65535, and equals r whenever r is in
[1,65535]. `platform_set_oneshot_timer` and `platform_set_periodic_timer` both store it to
the alarm latch as low byte, then high byte, with 256*high + low equal to it. -/
theorem C8_ms_to_ticks_round_clamp {κ σ : Type} (g : TimerGlobals κ) (m : Machine σ)
    (callback : Option κ) (arg ms : Nat) (hms : ms < 2 ^ 32) (hhz : g.eclock_hz < 2 ^ 32) :
    ms * g.eclock_hz + 500 < 2 ^ 64 ∧
    (1000 * ((ms * g.eclock_hz + 500) / 1000) ≤ ms * g.eclock_hz + 500 ∧
      ms * g.eclock_hz < 1000 * ((ms * g.eclock_hz + 500) / 1000) + 500) ∧
    ms_to_ticks g.eclock_hz ms = max 1 (min 65535 ((ms * g.eclock_hz + 500) / 1000)) ∧
    1 ≤ ms_to_ticks g.eclock_hz ms ∧ ms_to_ticks g.eclock_hz ms ≤ 65535 ∧
    ((1 ≤ (ms * g.eclock_hz + 500) / 1000 ∧ (ms * g.eclock_hz + 500) / 1000 ≤ 65535) →
      ms_to_ticks g.eclock_hz ms = (ms * g.eclock_hz + 500) / 1000) ∧
    (∃ low high, low < 256 ∧ high < 256 ∧ 256 * high + low = ms_to_ticks g.eclock_hz ms ∧
      (platform_set_oneshot_timer g m callback arg ms).2.2.writes =
        m.writes ++ [(Reg.cia_b CIA_B_CRB, 0), (Reg.cia_b CIA_B_ICR, 2), (Reg.cia_b CIA_B_TBLO, low),
          (Reg.cia_b CIA_B_TBHI, high), (Reg.cia_b CIA_B_ICR, 130), (Reg.cia_b CIA_B_PRA, 130),
          (Reg.cia_b CIA_B_CRB, 25)] ∧
      (platform_set_periodic_timer g m callback arg ms).2.2.writes =
        m.writes ++ [(Reg.cia_b CIA_B_TBLO, low), (Reg.cia_b CIA_B_TBHI, high)]) := by
  obtain ⟨hov, heq⟩ := ms_to_ticks_eq g.eclock_hz ms hms hhz
  have hlo : 1 ≤ ms_to_ticks g.eclock_hz ms := by rw [heq]; omega
  have hhi : ms_to_ticks g.eclock_hz ms ≤ 65535 := by rw [heq]; omega
  refine ⟨hov, by omega, heq, hlo, hhi, ?_, ?_⟩
  · intro h
    rw [heq]
    omega
  · refine ⟨ms_to_ticks g.eclock_hz ms % 256, ms_to_ticks g.eclock_hz ms / 256,
      Nat.mod_lt _ (by decide), by omega, by omega, ?_, ?_⟩
    · have ha : ms_to_ticks g.eclock_hz ms &&& 255 = ms_to_ticks g.eclock_hz ms % 256 :=
        Nat.and_pow_two_sub_one_eq_mod _ 8
      have hb : ms_to_ticks g.eclock_hz ms >>> 8 = ms_to_ticks g.eclock_hz ms / 256 :=
        Nat.shiftRight_eq_div_pow _ 8
      have hc : ms_to_ticks g.eclock_hz ms / 256 % 256 = ms_to_ticks g.eclock_hz ms / 256 :=
        Nat.mod_eq_of_lt (by omega)
      simp only [platform_set_oneshot_timer, platform_stop_timer, unmask_interrupt_21_writes,
        mask_interrupt_21_writes, Timer.write_reg, Machine.write, ha, hb, u8, Nat.mod_mod, hc]
      simp
    · have ha : ms_to_ticks g.eclock_hz ms &&& 255 = ms_to_ticks g.eclock_hz ms % 256 :=
        Nat.and_pow_two_sub_one_eq_mod _ 8
      have hb : ms_to_ticks g.eclock_hz ms >>> 8 = ms_to_ticks g.eclock_hz ms / 256 :=
        Nat.shiftRight_eq_div_pow _ 8
      have hc : ms_to_ticks g.eclock_hz ms / 256 % 256 = ms_to_ticks g.eclock_hz ms / 256 :=
        Nat.mod_eq_of_lt (by omega)
      simp only [platform_set_periodic_timer, Timer.write_reg, Machine.write, ha, hb, u8,
        Nat.mod_mod, hc]
      simp

/-- C8 witness: 10 ms at 709379 Hz is 7094 ticks (7093.79 rounded), stored as low byte 182
and high byte 27. -/
theorem C8_ms_to_ticks_round_clamp_witness :
    ms_to_ticks 709379 10 = 7094 ∧ (10 * 709379 + 500) / 1000 = 7094 ∧
    256 * 27 + 182 = 7094 ∧
    (platform_set_periodic_timer (timer_globals 709379 0 0) machine_reset none 0 10).2.2.writes
      = [(Reg.cia_b CIA_B_TBLO, 182), (Reg.cia_b CIA_B_TBHI, 27)] :=
  ⟨((C8_ms_to_ticks_round_clamp (timer_globals 709379 0 0) machine_reset none 0 10
      (by decide) (by decide)).2.2.2.2.2.1 (by decide)).trans (by decide),
   by decide, by decide, by decide⟩

/-! ## C7: the accumulated timebase -/

/-- The sample `get_ta_tick` returns is a 16-bit value that depends on the loads only. -/
theorem get_ta_tick_value {σ τ : Type} (m : Machine σ) (m2 : Machine τ) (r : TaReads) :
    (get_ta_tick m r).1 = (get_ta_tick m2 r).1 ∧ (get_ta_tick m r).1 < 65536 := by
  unfold get_ta_tick
  simp only
  split_ifs
  · exact ⟨rfl, Nat.mod_lt _ (by decide)⟩
  · exact ⟨rfl, Nat.mod_lt _ (by decide)⟩

/-- One call of `current_time_hires` while the product with 1000000 fits 64 bits. -/
theorem current_time_hires_step {κ σ : Type} (g : TimerGlobals κ) (m : Machine σ)
    (r : TaReads) (hlast : g.ta_last < 65536)
    (hb : (g.ta_ticks +
      (((g.ta_last : Int) - ((get_ta_tick m r).1 : Int)) % 65536).toNat) * 1000000
        < 18446744073709551616)
    (hz32 : g.eclock_hz < 4294967296) :
    (current_time_hires g m r).2.1.ta_ticks =
      g.ta_ticks + (((g.ta_last : Int) - ((get_ta_tick m r).1 : Int)) % 65536).toNat ∧
    (current_time_hires g m r).2.1.ta_last = (get_ta_tick m r).1 ∧
    (current_time_hires g m r).2.1.eclock_hz = g.eclock_hz ∧
    (current_time_hires g m r).1 =
      (current_time_hires g m r).2.1.ta_ticks * 1000000 / g.eclock_hz := by
  have hnow := (get_ta_tick_value m m r).2
  simp only [current_time_hires]
  generalize (get_ta_tick m r).1 = now at hnow hb ⊢
  have hd : (((g.ta_last : Int) - (now : Int)) % 65536).toNat =
      (g.ta_last + 65536 - now) % 65536 := by omega
  rw [hd] at hb ⊢
  have hdl : (g.ta_last + 65536 - now) % 65536 < 65536 := Nat.mod_lt _ (by decide)
  have h16 : u16 g.ta_last = g.ta_last := Nat.mod_eq_of_lt hlast
  rw [h16]
  simp only [u16]
  generalize (g.ta_last + 65536 - now) % 65536 = d at hb hdl ⊢
  have ht : g.ta_ticks + d < 18446744073709551616 := by omega
  have h1 : u64 g.ta_ticks = g.ta_ticks := Nat.mod_eq_of_lt (by omega)
  have h2 : u64 (g.ta_ticks + d) = g.ta_ticks + d := Nat.mod_eq_of_lt ht
  have h3 : u64 ((g.ta_ticks + d) * 1000000) = (g.ta_ticks + d) * 1000000 :=
    Nat.mod_eq_of_lt hb
  have h4 : u32 g.eclock_hz = g.eclock_hz := Nat.mod_eq_of_lt hz32
  have h5 : u64 ((g.ta_ticks + d) * 1000000 / g.eclock_hz) =
      (g.ta_ticks + d) * 1000000 / g.eclock_hz :=
    Nat.mod_eq_of_lt (lt_of_le_of_lt (Nat.div_le_self _ _) hb)
  rw [h1, h2, h3, h4, h5]
  simp

/-- Induction behind C7: a sequence of calls during which the product with 1000000 fits 64
bits accumulates exactly the elapsed ticks and returns non-decreasing values. -/
theorem current_time_hires_calls_spec {κ σ : Type} (rs : List TaReads) :
    ∀ (g : TimerGlobals κ) (m : Machine σ), g.ta_last < 65536 → g.eclock_hz < 4294967296 →
      (g.ta_ticks + elapsed_ticks g.ta_last (rs.map (fun r => (get_ta_tick m r).1)))
        * 1000000 < 18446744073709551616 →
      (current_time_hires_calls g m rs).2.1.ta_ticks =
        g.ta_ticks + elapsed_ticks g.ta_last (rs.map (fun r => (get_ta_tick m r).1)) ∧
      List.Chain (fun a b => a ≤ b) g.ta_ticks
        ((current_time_hires_calls g m rs).1.map Prod.snd) ∧
      List.Chain (fun a b => a ≤ b) (g.ta_ticks * 1000000 / g.eclock_hz)
        ((current_time_hires_calls g m rs).1.map Prod.fst) ∧
      (∀ p ∈ (current_time_hires_calls g m rs).1, p.1 = p.2 * 1000000 / g.eclock_hz) ∧
      (∀ xs r ys, rs = xs ++ r :: ys →
        (current_time_hires_calls g m (xs ++ [r])).2.1.ta_ticks =
          (current_time_hires_calls g m xs).2.1.ta_ticks +
            ((((current_time_hires_calls g m xs).2.1.ta_last : Int) -
              ((get_ta_tick m r).1 : Int)) % 65536).toNat) := by
  induction rs with
  | nil =>
    intro g m _ _ _
    simp [current_time_hires_calls, elapsed_ticks]
  | cons r rs ih =>
    intro g m hlast hz hb
    simp only [List.map_cons, elapsed_ticks] at hb ⊢
    have hmap : rs.map (fun x => (get_ta_tick (current_time_hires g m r).2.2 x).1) =
        rs.map (fun x => (get_ta_tick m x).1) :=
      List.map_congr_left (fun x _ => (get_ta_tick_value _ m x).1)
    obtain ⟨s1, s2, s3, s4⟩ := current_time_hires_step g m r hlast (by omega) hz
    have hnow := (get_ta_tick_value m m r).2
    obtain ⟨i1, i2, i3, i4, i5⟩ := ih (current_time_hires g m r).2.1
      (current_time_hires g m r).2.2
      (by rw [s2]; exact hnow) (by rw [s3]; exact hz)
      (by rw [hmap, s1, s2]; omega)
    rw [hmap, s1, s2] at i1
    rw [s3] at i3 i4
    simp only [current_time_hires_calls, List.map_cons, List.chain_cons, List.mem_cons]
    refine ⟨by rw [i1]; omega, ⟨by rw [s1]; omega, i2⟩, ⟨?_, ?_⟩, ?_, ?_⟩
    · rw [s4, s1]
      exact Nat.div_le_div_right (by omega)
    · rw [s4]
      exact i3
    · rintro p (rfl | hp)
      · exact s4
      · exact i4 p hp
    · intro xs x ys hxs
      cases xs with
      | nil =>
        simp only [List.nil_append, List.cons.injEq] at hxs
        obtain ⟨rfl, -⟩ := hxs
        simp only [List.nil_append, current_time_hires_calls]
        exact s1
      | cons y xs =>
        simp only [List.cons_append, List.cons.injEq] at hxs
        obtain ⟨rfl, hrs⟩ := hxs
        have := i5 xs x ys hrs
        rw [(get_ta_tick_value (current_time_hires g m r).2.2 m x).1] at this
        simpa only [List.cons_append, current_time_hires_calls] using this

/-- The loads `ta_reads v` make `get_ta_tick` return the 16-bit sample `v`. -/
theorem get_ta_tick_ta_reads {σ : Type} (m : Machine σ) (v : Nat) (hv : v < 65536) :
    (get_ta_tick m (ta_reads v)).1 = v := by
  have h1 : u8 (v / 256) = v / 256 := Nat.mod_eq_of_lt (by omega)
  have h2 : u8 (v % 256) = v % 256 := Nat.mod_eq_of_lt (Nat.mod_lt _ (by decide))
  have h3 : u16 (v / 256) = v / 256 := Nat.mod_eq_of_lt (by omega)
  have h4 : (v / 256) <<< 8 ||| v % 256 = v := by
    rw [Nat.shiftLeft_eq, Nat.mul_comm,
      ← Nat.mul_add_lt_is_or (i := 8) (Nat.mod_lt _ (by decide)) (v / 256)]
    omega
  simp only [get_ta_tick, ta_reads, h1, h2, h3, ne_eq, not_true_eq_false, if_false, h4]
  exact Nat.mod_eq_of_lt hv

/-- Every accumulated count whose product with 1000000 fits 64 bits is reached from a
fresh timebase (accumulated count t, any machine) by calls that each see the counter one
tick lower. -/
theorem timer_state_reachable (hz : Nat) :
    ∀ (n L t : Nat) (m : Machine Unit), L < 65536 →
      (t + n) * 1000000 < 18446744073709551616 →
      ∃ rs, (current_time_hires_calls (timer_globals hz ((L + n) % 65536) t) m rs).2.1 =
        timer_globals hz L (t + n) := by
  intro n
  induction n with
  | zero =>
    intro L t m hL _
    exact ⟨[], by simp [current_time_hires_calls, Nat.mod_eq_of_lt hL]⟩
  | succ n ih =>
    intro L t m hL hb
    have hlast : (L + (n + 1)) % 65536 < 65536 := Nat.mod_lt _ (by decide)
    have hsample : (L + n) % 65536 < 65536 := Nat.mod_lt _ (by decide)
    have hval := get_ta_tick_ta_reads m ((L + n) % 65536) hsample
    have hstep : (current_time_hires (timer_globals hz ((L + (n + 1)) % 65536) t) m
        (ta_reads ((L + n) % 65536))).2.1 = timer_globals hz ((L + n) % 65536) (t + 1) := by
      have hd : u16 (u16 ((L + (n + 1)) % 65536) + 65536 - (L + n) % 65536) = 1 := by
        simp only [u16]
        omega
      have ht : u64 (u64 t + 1) = t + 1 := by
        simp only [u64]
        omega
      simp only [current_time_hires, timer_globals, hval, hd, ht]
    obtain ⟨rs, hrs⟩ := ih L (t + 1)
      (current_time_hires (timer_globals hz ((L + (n + 1)) % 65536) t) m
        (ta_reads ((L + n) % 65536))).2.2 hL (by omega)
    refine ⟨ta_reads ((L + n) % 65536) :: rs, ?_⟩
    simp only [current_time_hires_calls, hstep, hrs]
    have : t + 1 + n = t + (n + 1) := by omega
    rw [this]

/-- C7 (the claim as stated fails): at 709379 Hz, from an accumulated count of
18446744073708 with last sample 2, two calls that sample 1 and then 0 (the counter
decrements by one tick each time) accumulate 18446744073709 and 18446744073710 ticks; the
first call returns 26004074089744 microseconds and the second returns 0, because
18446744073710 * 1000000 exceeds 2^64. The starting state is reached from a fresh timebase
(accumulated count 0) by earlier calls. -/
theorem C7_microseconds_wrap_counterexample :
    (current_time_hires_calls (timer_globals 709379 2 18446744073708) machine_reset
        [ta_reads 1, ta_reads 0]).1 =
      [(26004074089744, 18446744073709), (0, 18446744073710)] ∧
    elapsed_ticks 2 [1, 0] = 2 ∧
    ¬ List.Chain (fun a b => a ≤ b) (18446744073708 * 1000000 / 709379)
        ((current_time_hires_calls (timer_globals 709379 2 18446744073708) machine_reset
          [ta_reads 1, ta_reads 0]).1.map Prod.fst) ∧
    (∃ rs, (current_time_hires_calls
        (timer_globals 709379 ((2 + 18446744073708) % 65536) 0) machine_reset rs).2.1 =
      timer_globals 709379 2 18446744073708) := by
  have h : (current_time_hires_calls (timer_globals 709379 2 18446744073708) machine_reset
      [ta_reads 1, ta_reads 0]).1 =
      [(26004074089744, 18446744073709), (0, 18446744073710)] := by decide
  refine ⟨h, by decide, ?_, ?_⟩
  · rw [h]
    simp [List.chain_cons]
  · have := timer_state_reachable 709379 18446744073708 2 0 machine_reset
      (by decide) (by decide)
    simpa using this

/-- C7 (amended): for a calibrated frequency that is not 0 and every sequence of
`current_time_hires` calls during which (accumulated count) * 1000000 stays below 2^64
(the product the conversion to microseconds forms in 64 bits), each call adds exactly the
elapsed ticks ((previous sample - current sample) mod 2^16) to the accumulated count, the
accumulated count is non-decreasing, every returned value is
accumulated * 1000000 / calibratedHz, and the returned values are non-decreasing from call
to call (counter wraps through zero included). -/
theorem C7_current_time_hires_monotone {κ σ : Type} (g : TimerGlobals κ) (m : Machine σ)
    (rs : List TaReads) (_hz0 : g.eclock_hz ≠ 0) (hz32 : g.eclock_hz < 2 ^ 32)
    (hlast : g.ta_last < 2 ^ 16)
    (hb : (g.ta_ticks + elapsed_ticks g.ta_last (rs.map (fun r => (get_ta_tick m r).1)))
      * 1000000 < 2 ^ 64) :
    (current_time_hires_calls g m rs).2.1.ta_ticks =
      g.ta_ticks + elapsed_ticks g.ta_last (rs.map (fun r => (get_ta_tick m r).1)) ∧
    List.Chain (fun a b => a ≤ b) g.ta_ticks
      ((current_time_hires_calls g m rs).1.map Prod.snd) ∧
    List.Chain (fun a b => a ≤ b) (g.ta_ticks * 1000000 / g.eclock_hz)
      ((current_time_hires_calls g m rs).1.map Prod.fst) ∧
    (∀ p ∈ (current_time_hires_calls g m rs).1, p.1 = p.2 * 1000000 / g.eclock_hz) ∧
    (∀ xs r ys, rs = xs ++ r :: ys →
      (current_time_hires_calls g m (xs ++ [r])).2.1.ta_ticks =
        (current_time_hires_calls g m xs).2.1.ta_ticks +
          ((((current_time_hires_calls g m xs).2.1.ta_last : Int) -
            ((get_ta_tick m r).1 : Int)) % 65536).toNat) := by
  have e32 : (2 : Nat) ^ 32 = 4294967296 := by norm_num
  have e16 : (2 : Nat) ^ 16 = 65536 := by norm_num
  have e64 : (2 : Nat) ^ 64 = 18446744073709551616 := by norm_num
  rw [e32] at hz32
  rw [e16] at hlast
  rw [e64] at hb
  exact current_time_hires_calls_spec rs g m hlast hz32 hb

/-- C7 witness: at 709379 Hz, from last sample 2 the samples 1, 0 and 65535 (a wrap through
zero) accumulate one tick each. -/
theorem C7_current_time_hires_monotone_witness :
    (current_time_hires_calls (timer_globals 709379 2 0) machine_reset
        [ta_reads 1, ta_reads 0, ta_reads 65535]).2.1.ta_ticks = 3 ∧
    (current_time_hires_calls (timer_globals 709379 2 0) machine_reset
        [ta_reads 1, ta_reads 0, ta_reads 65535]).1 = [(1, 1), (2, 2), (4, 3)] :=
  ⟨((C7_current_time_hires_monotone (timer_globals 709379 2 0) machine_reset
      [ta_reads 1, ta_reads 0, ta_reads 65535] (by decide) (by decide) (by decide)
      (by decide)).1).trans (by decide), by decide⟩

/-! ## The dispatch loop visits the set bits of `combined` in ascending order -/

/-- On a non-zero word below 2^k, `ctzAux k` is the index of the lowest set bit. -/
theorem ctzAux_spec : ∀ (k n : Nat), n ≠ 0 → n < 2 ^ k →
    n.testBit (ctzAux k n) = true ∧ (∀ j, j < ctzAux k n → n.testBit j = false) ∧
      ctzAux k n < k := by
  intro k
  induction k with
  | zero =>
    intro n h0 hlt
    simp at hlt
    exact absurd hlt h0
  | succ k ih =>
    intro n h0 hlt
    unfold ctzAux
    by_cases hodd : n % 2 = 1
    · simp only [hodd, if_true]
      refine ⟨by simp [hodd], fun j hj => absurd hj (Nat.not_lt_zero j), Nat.succ_pos k⟩
    · simp only [hodd, if_false]
      have h2 : n / 2 ≠ 0 := by omega
      have hlt2 : n / 2 < 2 ^ k := by
        rw [Nat.pow_succ] at hlt
        omega
      obtain ⟨a, b, c⟩ := ih (n / 2) h2 hlt2
      refine ⟨?_, ?_, by omega⟩
      · rw [Nat.add_comm, Nat.testBit_succ]
        exact a
      · intro j hj
        cases j with
        | zero => simp [hodd]
        | succ j =>
          rw [Nat.testBit_succ]
          exact b j (by omega)

/-- On a non-zero 32-bit word, `ctz` is the index of the lowest set bit. -/
theorem ctz_spec (c : Nat) (h0 : c ≠ 0) (hlt : c < 4294967296) :
    c.testBit (ctz c) = true ∧ (∀ j, j < ctz c → c.testBit j = false) ∧ ctz c < 32 :=
  ctzAux_spec 32 c h0 (by simpa using hlt)

/-- Bits of a 32-bit word after `combined &= ~(1 << b)`. -/
theorem testBit_clear_bit (c b j : Nat) (hb : b < 32) (hlt : c < 4294967296) :
    (c &&& not32 (1 <<< b)).testBit j = (c.testBit j && decide (j ≠ b)) := by
  have hpow : 1 <<< b = 2 ^ b := by rw [Nat.shiftLeft_eq, Nat.one_mul]
  have hlt2 : 2 ^ b < 4294967296 := by
    have : 2 ^ b < 2 ^ 32 := Nat.pow_lt_pow_right (by decide) hb
    simpa using this
  have hall : (4294967295 : Nat) = 2 ^ 32 - 1 := by norm_num
  unfold not32
  rw [hpow, Nat.mod_eq_of_lt hlt2, Nat.testBit_and, Nat.testBit_xor, hall,
    Nat.testBit_two_pow_sub_one, Nat.testBit_two_pow]
  by_cases hj : j < 32
  · by_cases hjb : b = j
    · subst hjb
      simp [hj]
    · have : j ≠ b := fun h => hjb h.symm
      simp [hj, hjb, this]
  · have hc : c.testBit j = false := by
      apply Nat.testBit_lt_two_pow
      calc c < 2 ^ 32 := by simpa using hlt
        _ ≤ 2 ^ j := Nat.pow_le_pow_right (by decide) (by omega)
    simp [hc]

/-- Splitting the bit positions k..31 at the lowest set bit b of c, for any side condition
`q` on the positions: nothing below b qualifies, and above b the word with bit b cleared
has the same bits. -/
theorem filter_bits_split_of (q : Nat → Bool) (c k b : Nat)
    (hkb : k ≤ b) (hb : b < 32) (hlt : c < 4294967296) (hbit : c.testBit b = true)
    (hlow : ∀ j, j < b → c.testBit j = false) :
    (List.range' k (32 - k)).filter (fun i => c.testBit i && q i) =
      (if q b = true then [b] else []) ++
      (List.range' (b + 1) (32 - (b + 1))).filter
        (fun i => (c &&& not32 (1 <<< b)).testBit i && q i) := by
  have hsplit : List.range' k (32 - k) =
      List.range' k (b - k) ++ (b :: List.range' (b + 1) (32 - (b + 1))) := by
    have h1 : List.range' k (b - k) ++ List.range' (k + (b - k)) (32 - b) =
        List.range' k ((32 - b) + (b - k)) := List.range'_append_1 k (b - k) (32 - b)
    have h2 : k + (b - k) = b := by omega
    have h3 : (32 - b) + (b - k) = 32 - k := by omega
    have h4 : 32 - b = (32 - (b + 1)) + 1 := by omega
    rw [h2, h3] at h1
    rw [← h1, h4, List.range'_succ]
  rw [hsplit, List.filter_append, List.filter_cons]
  have hnil : (List.range' k (b - k)).filter (fun i => c.testBit i && q i) = [] := by
    rw [List.filter_eq_nil_iff]
    intro a ha
    rw [List.mem_range'_1] at ha
    simp [hlow a (by omega)]
  have hrest : (List.range' (b + 1) (32 - (b + 1))).filter (fun i => c.testBit i && q i) =
      (List.range' (b + 1) (32 - (b + 1))).filter
        (fun i => (c &&& not32 (1 <<< b)).testBit i && q i) := by
    apply List.filter_congr
    intro x hx
    rw [List.mem_range'_1] at hx
    have hne : x ≠ b := by omega
    rw [testBit_clear_bit c b x hb hlt]
    simp [hne]
  rw [hnil, hrest, hbit]
  by_cases hreg : q b = true
  · simp [hreg]
  · simp [hreg]

/-- The split of `filter_bits_split_of` for the registered slots of a handler table. -/
theorem filter_bits_split {σ : Type} (handlers : HandlerTable σ) (c k b : Nat)
    (hkb : k ≤ b) (hb : b < 32) (hlt : c < 4294967296) (hbit : c.testBit b = true)
    (hlow : ∀ j, j < b → c.testBit j = false) :
    (List.range' k (32 - k)).filter (fun i => c.testBit i && ((handlers i).handler).isSome) =
      (if ((handlers b).handler).isSome then [b] else []) ++
      (List.range' (b + 1) (32 - (b + 1))).filter
        (fun i => (c &&& not32 (1 <<< b)).testBit i && ((handlers i).handler).isSome) :=
  filter_bits_split_of (fun i => ((handlers i).handler).isSome) c k b hkb hb hlt hbit hlow

/-- The dispatch loop terminates within 32 iterations; it reads the handler array at the set
bits of `combined` in ascending order and invokes the handlers registered there. -/
theorem irq_loop_spec {σ : Type} (handlers : HandlerTable σ) :
    ∀ (fuel c k : Nat) (ret : handler_return) (tr : List (Nat × handler_return))
      (lk : List Nat) (m : Machine σ), c < 4294967296 →
      (∀ j, c.testBit j = true → k ≤ j) → 32 ≤ fuel + k →
      ∃ r, irq_loop handlers fuel c ret tr lk m = some r ∧
        r.invoked.map Prod.fst = tr.map Prod.fst ++
          ((List.range' k (32 - k)).filter
            (fun i => c.testBit i && ((handlers i).handler).isSome)).map (fun i => i + 1) ∧
        r.lookups = lk ++ (List.range' k (32 - k)).filter (fun i => c.testBit i) := by
  intro fuel
  induction fuel with
  | zero =>
    intro c k ret tr lk m hlt hk hf
    by_cases h0 : c = 0
    · subst h0
      refine ⟨{ ret := ret, invoked := tr, lookups := lk, machine := m }, by simp [irq_loop],
        ?_, ?_⟩
      · simp
      · simp
    · obtain ⟨hb1, _, hb3⟩ := ctz_spec c h0 hlt
      have := hk _ hb1
      omega
  | succ fuel ih =>
    intro c k ret tr lk m hlt hk hf
    by_cases h0 : c = 0
    · subst h0
      refine ⟨{ ret := ret, invoked := tr, lookups := lk, machine := m }, by simp [irq_loop],
        ?_, ?_⟩
      · simp
      · simp
    · obtain ⟨hb1, hb2, hb3⟩ := ctz_spec c h0 hlt
      have hkb : k ≤ ctz c := hk _ hb1
      have hlt2 : c &&& not32 (1 <<< ctz c) < 4294967296 :=
        lt_of_le_of_lt Nat.and_le_left hlt
      have hk2 : ∀ j, (c &&& not32 (1 <<< ctz c)).testBit j = true → ctz c + 1 ≤ j := by
        intro j hj
        rw [testBit_clear_bit c (ctz c) j hb3 hlt] at hj
        simp only [Bool.and_eq_true, decide_eq_true_eq] at hj
        by_contra hcon
        have hjl : j < ctz c := by omega
        rw [hb2 j hjl] at hj
        exact absurd hj.1 (by simp)
      have hall := filter_bits_split_of (fun _ => true) c k (ctz c) hkb hb3 hlt hb1 hb2
      simp only [Bool.and_true, if_true] at hall
      rw [filter_bits_split handlers c k (ctz c) hkb hb3 hlt hb1 hb2, hall]
      cases hh : (handlers (ctz c)).handler with
      | none =>
        obtain ⟨r, hr1, hr2, hr3⟩ := ih (c &&& not32 (1 <<< ctz c)) (ctz c + 1) ret tr
          (lk ++ [ctz c]) m hlt2 hk2 (by omega)
        refine ⟨r, ?_, ?_, ?_⟩
        · rw [irq_loop]
          simp only [h0, if_false, hh]
          exact hr1
        · rw [hr2]
          simp
        · rw [hr3]
          simp
      | some h =>
        obtain ⟨r, hr1, hr2, hr3⟩ := ih (c &&& not32 (1 <<< ctz c)) (ctz c + 1)
          (h (handlers (ctz c)).arg m).1
          (tr ++ [(ctz c + 1, (h (handlers (ctz c)).arg m).1)]) (lk ++ [ctz c])
          (h (handlers (ctz c)).arg m).2 hlt2 hk2 (by omega)
        refine ⟨r, ?_, ?_, ?_⟩
        · rw [irq_loop]
          simp only [h0, if_false, hh]
          exact hr1
        · rw [hr2]
          simp
        · rw [hr3]
          simp

/-! ## The mask computed by the first half of the dispatcher -/

/-- A word has bit k set exactly when its AND with 2^k is not 0. -/
theorem and_two_pow_ne_zero_iff (x k : Nat) : x &&& 2 ^ k ≠ 0 ↔ x.testBit k = true := by
  constructor
  · intro h
    by_contra hb
    apply h
    apply Nat.eq_of_testBit_eq
    intro i
    rw [Nat.testBit_and, Nat.testBit_two_pow, Nat.zero_testBit]
    by_cases hki : k = i
    · subst hki
      simp [hb]
    · simp [hki]
  · intro h hz
    have : (x &&& 2 ^ k).testBit k = true := by
      rw [Nat.testBit_and, Nat.testBit_two_pow_self, h]
      rfl
    rw [hz, Nat.zero_testBit] at this
    exact absurd this (by simp)

/-- Removing the two mux bits from a 16-bit word, as the code does with a 32-bit
complement. -/
theorem and_not32_mux (x : Nat) (hx : x < 65536) :
    u32 (x &&& not32 ((1 <<< CIA_A_MUX_LEVEL) ||| (1 <<< CIA_B_MUX_LEVEL))) =
      x &&& (0xFFFF ^^^ ((1 <<< 3) ||| (1 <<< 13))) := by
  have h16 : x &&& 65535 = x :=
    Nat.and_pow_two_sub_one_of_lt_two_pow (n := 16) (by simpa using hx)
  have hc1 : not32 ((1 <<< CIA_A_MUX_LEVEL) ||| (1 <<< CIA_B_MUX_LEVEL)) = 4294959095 := by
    decide
  have hc2 : (0xFFFF ^^^ ((1 <<< 3) ||| (1 <<< 13)) : Nat) = 57335 := by decide
  have hc3 : (65535 &&& 4294959095 : Nat) = 57335 := by decide
  rw [hc1, hc2]
  have : x &&& 4294959095 = x &&& 57335 := by
    conv_lhs => rw [← h16]
    rw [Nat.and_assoc, hc3]
  rw [this]
  have hle : x &&& 57335 ≤ 57335 := Nat.and_le_right
  exact Nat.mod_eq_of_lt (by omega)

/-- Index arithmetic of the dispatcher: trap number L+24 selects entry L-1 of the level
table. -/
theorem level_index (L : Nat) (h1 : 1 ≤ L) (h6 : L ≤ 6) :
    u32 (u32 (u8 (L + 24) + 4294967296 - 24) + 4294967295) = L - 1 := by
  simp only [u8, u32]
  omega

/-- What the first half of the dispatcher computes at CPU level L in 1..6: the mask
`combined` of the contract, the mux bits to clear, and no store. -/
theorem m68k_platform_irq_scan_spec {σ : Type} (m : Machine σ) (inp : IrqInputs) (L : Nat)
    (h1 : 1 ≤ L) (h6 : L ≤ 6) (hp : inp.intreqr < 65536) (he : inp.intenar < 65536)
    (hA : inp.cia_a_icr < 256) (hB : inp.cia_b_icr < 256)
    (hmA : m.cia_a_irqs_enabled < 256) (hmB : m.cia_b_irqs_enabled < 256) :
    (m68k_platform_irq_scan m inp (L + 24)).combined =
      claimed_combined inp.intreqr inp.intenar L inp.cia_a_icr m.cia_a_irqs_enabled
        inp.cia_b_icr m.cia_b_irqs_enabled ∧
    (m68k_platform_irq_scan m inp (L + 24)).to_clear =
      ((if (level_active inp.intreqr inp.intenar L).testBit 3 = true then 8 else 0) |||
        (if (level_active inp.intreqr inp.intenar L).testBit 13 = true then 8192 else 0)) ∧
    (m68k_platform_irq_scan m inp (L + 24)).machine.writes = m.writes := by
  have e1 : u16 inp.intreqr = inp.intreqr := Nat.mod_eq_of_lt hp
  have e2 : u16 inp.intenar = inp.intenar := Nat.mod_eq_of_lt he
  have e3 : u8 inp.cia_a_icr = inp.cia_a_icr := Nat.mod_eq_of_lt hA
  have e4 : u8 inp.cia_b_icr = inp.cia_b_icr := Nat.mod_eq_of_lt hB
  have e5 : u8 m.cia_a_irqs_enabled = m.cia_a_irqs_enabled := Nat.mod_eq_of_lt hmA
  have e6 : u8 m.cia_b_irqs_enabled = m.cia_b_irqs_enabled := Nat.mod_eq_of_lt hmB
  have hact : inp.intreqr &&& inp.intenar &&& irq_level_map.getD (L - 1) 0 =
      level_active inp.intreqr inp.intenar L := rfl
  have hact16 : level_active inp.intreqr inp.intenar L < 65536 := by
    unfold level_active
    exact lt_of_le_of_lt Nat.and_le_left (lt_of_le_of_lt Nat.and_le_left hp)
  have b3 : level_active inp.intreqr inp.intenar L &&& 1 <<< CIA_A_MUX_LEVEL ≠ 0 ↔
      (level_active inp.intreqr inp.intenar L).testBit 3 = true :=
    and_two_pow_ne_zero_iff _ 3
  have b13 : level_active inp.intreqr inp.intenar L &&& 1 <<< CIA_B_MUX_LEVEL ≠ 0 ↔
      (level_active inp.intreqr inp.intenar L).testBit 13 = true :=
    and_two_pow_ne_zero_iff _ 13
  have b7A : inp.cia_a_icr &&& 0x80 ≠ 0 ↔ inp.cia_a_icr.testBit 7 = true :=
    and_two_pow_ne_zero_iff _ 7
  have b7B : inp.cia_b_icr &&& 0x80 ≠ 0 ↔ inp.cia_b_icr.testBit 7 = true :=
    and_two_pow_ne_zero_iff _ 7
  simp only [m68k_platform_irq_scan, level_index L h1 h6, e1, e2, e3, e4, Machine.read, e5, e6,
    hact, and_not32_mux _ hact16, claimed_combined, b3, b13, b7A, b7B]
  by_cases a3 : (level_active inp.intreqr inp.intenar L).testBit 3 = true <;>
  by_cases a13 : (level_active inp.intreqr inp.intenar L).testBit 13 = true <;>
  by_cases f7A : inp.cia_a_icr.testBit 7 = true <;>
  by_cases f7B : inp.cia_b_icr.testBit 7 = true <;>
  by_cases eA : inp.cia_a_icr &&& 31 &&& m.cia_a_irqs_enabled = 0 <;>
  by_cases eB : inp.cia_b_icr &&& 31 &&& m.cia_b_irqs_enabled = 0 <;>
  simp [a3, a13, f7A, f7B, eA, eB, e5, e6, NUM_IRQS_PAULA, NUM_IRQS_CIA, CIA_A_MUX_LEVEL,
    CIA_B_MUX_LEVEL, u16]

/-- The contract's mask fits 24 bits. -/
theorem claimed_combined_lt (pending enabled L sA mA sB mB : Nat) :
    claimed_combined pending enabled L sA mA sB mB < 2 ^ 24 := by
  unfold claimed_combined
  have hc2 : (0xFFFF ^^^ ((1 <<< 3) ||| (1 <<< 13)) : Nat) = 57335 := by decide
  rw [hc2]
  have h1 : level_active pending enabled L &&& 57335 < 2 ^ 24 :=
    lt_of_le_of_lt Nat.and_le_right (by norm_num)
  have hA : sA &&& 0x1F &&& mA ≤ 31 := le_trans Nat.and_le_left Nat.and_le_right
  have hB : sB &&& 0x1F &&& mB ≤ 31 := le_trans Nat.and_le_left Nat.and_le_right
  have h2 : (if (level_active pending enabled L).testBit 3 = true ∧ sA.testBit 7 = true then
      (sA &&& 0x1F &&& mA) <<< 14 else 0) < 2 ^ 24 := by
    split_ifs
    · rw [Nat.shiftLeft_eq]
      have : (sA &&& 0x1F &&& mA) * 2 ^ 14 ≤ 31 * 2 ^ 14 := Nat.mul_le_mul_right _ hA
      omega
    · norm_num
  have h3 : (if (level_active pending enabled L).testBit 13 = true ∧ sB.testBit 7 = true then
      (sB &&& 0x1F &&& mB) <<< 19 else 0) < 2 ^ 24 := by
    split_ifs
    · rw [Nat.shiftLeft_eq]
      have : (sB &&& 0x1F &&& mB) * 2 ^ 19 ≤ 31 * 2 ^ 19 := Nat.mul_le_mul_right _ hB
      omega
    · norm_num
  exact Nat.or_lt_two_pow (Nat.or_lt_two_pow h1 h2) h3

/-- For a mask that fits 24 bits, the bits 0..31 the loop visits are the vectors 1..24 of
the contract. -/
theorem claimed_vectors_eq {σ : Type} (handlers : HandlerTable σ) (c : Nat)
    (hc : c < 2 ^ 24) :
    ((List.range' 0 (32 - 0)).filter
      (fun i => c.testBit i && ((handlers i).handler).isSome)).map (fun i => i + 1) =
    claimed_vectors handlers c := by
  have hsplit : List.range' 0 (32 - 0) = List.range' 0 24 ++ List.range' 24 8 := by decide
  have hhigh : (List.range' 24 8).filter
      (fun i => c.testBit i && ((handlers i).handler).isSome) = [] := by
    rw [List.filter_eq_nil_iff]
    intro a ha
    rw [List.mem_range'_1] at ha
    have : c.testBit a = false := by
      apply Nat.testBit_lt_two_pow
      exact lt_of_lt_of_le hc (Nat.pow_le_pow_right (by decide) ha.1)
    simp [this]
  have hshift : List.range' 1 24 = (List.range' 0 24).map (fun i => i + 1) := by decide
  rw [hsplit, List.filter_append, hhigh, List.append_nil]
  unfold claimed_vectors
  rw [hshift, List.filter_map]
  rfl

/-- The vectors of the contract are strictly ascending, and are exactly the vectors in
1..24 whose bit is set and whose slot holds a handler. -/
theorem claimed_vectors_props {σ : Type} (handlers : HandlerTable σ) (c : Nat) :
    List.Pairwise (fun a b => a < b) (claimed_vectors handlers c) ∧
    (∀ v, v ∈ claimed_vectors handlers c ↔
      (1 ≤ v ∧ v ≤ 24 ∧ c.testBit (v - 1) = true ∧
        ((handlers (v - 1)).handler).isSome = true)) := by
  constructor
  · exact List.Pairwise.filter _ (List.pairwise_lt_range' 1 24)
  · intro v
    unfold claimed_vectors
    rw [List.mem_filter, List.mem_range'_1, Bool.and_eq_true]
    constructor
    · rintro ⟨⟨a, b⟩, c1, c2⟩
      exact ⟨a, by omega, c1, c2⟩
    · rintro ⟨a, b, c1, c2⟩
      exact ⟨⟨a, by omega⟩, c1, c2⟩

/-- Totality and trace of one dispatch call at CPU level L in 1..6. -/
theorem m68k_platform_irq_invoked {σ : Type} (handlers : HandlerTable σ)
    (m : Machine σ) (inp : IrqInputs) (L fuel : Nat)
    (h1 : 1 ≤ L) (h6 : L ≤ 6) (hfuel : 32 ≤ fuel)
    (hp : inp.intreqr < 65536) (he : inp.intenar < 65536)
    (hA : inp.cia_a_icr < 256) (hB : inp.cia_b_icr < 256)
    (hmA : m.cia_a_irqs_enabled < 256) (hmB : m.cia_b_irqs_enabled < 256) :
    ∃ r, m68k_platform_irq handlers m inp (L + 24) fuel = some r ∧
      r.invoked.map Prod.fst =
        claimed_vectors handlers
          (claimed_combined inp.intreqr inp.intenar L inp.cia_a_icr m.cia_a_irqs_enabled
            inp.cia_b_icr m.cia_b_irqs_enabled) ∧
      (∃ pre, r.machine.writes = pre ++
          (if (m68k_platform_irq_scan m inp (L + 24)).combined = 0 ∧
              (m68k_platform_irq_scan m inp (L + 24)).to_clear = 0 then []
            else [(paula_reg INTREQ, u16 (m68k_platform_irq_scan m inp (L + 24)).to_clear)]) ∧
        ((m68k_platform_irq_scan m inp (L + 24)).combined = 0 →
          pre = m.writes ∧ r.invoked = [] ∧ r.ret = handler_return.INT_NO_RESCHEDULE)) := by
  obtain ⟨sc, _, wr⟩ := m68k_platform_irq_scan_spec m inp L h1 h6 hp he hA hB hmA hmB
  have hlt := claimed_combined_lt inp.intreqr inp.intenar L inp.cia_a_icr
    m.cia_a_irqs_enabled inp.cia_b_icr m.cia_b_irqs_enabled
  rw [← sc] at hlt ⊢
  unfold m68k_platform_irq
  simp only
  generalize m68k_platform_irq_scan m inp (L + 24) = S at hlt wr ⊢
  by_cases h0 : S.combined = 0
  · simp only [h0, if_true, true_and]
    refine ⟨_, rfl, by simp [claimed_vectors], S.machine.writes, ?_, fun _ => ⟨wr, rfl, rfl⟩⟩
    by_cases ht : S.to_clear = 0
    · simp [ht]
    · simp [ht, Platform.write_reg, Machine.write]
  · obtain ⟨r, hr1, hr2, _⟩ := irq_loop_spec handlers fuel S.combined 0
      handler_return.INT_NO_RESCHEDULE [] [] S.machine
      (lt_of_lt_of_le hlt (by norm_num)) (fun j _ => Nat.zero_le j) (by omega)
    rw [claimed_vectors_eq handlers S.combined hlt] at hr2
    simp only [h0, if_false, hr1, false_and]
    exact ⟨_, rfl, by simpa using hr2, r.machine.writes,
      by simp [Platform.write_reg, Machine.write], fun h => h.elim⟩

/-! ## C2: which handlers one dispatch call invokes -/

/-- C2: at CPU level L in 1..6 (trap number L+24), for every primary pending/enable state,
status reads and shadow masks, `m68k_platform_irq` returns (with 32 units of fuel or more)
and the vectors whose handlers it invoked, in invocation order, are exactly the vectors of
1..24 whose bit is set in the contract's `combined` and that have a registered handler, in
strictly ascending order, each once. -/
theorem C2_irq_invokes_combined_ascending {σ : Type} (handlers : HandlerTable σ)
    (m : Machine σ) (inp : IrqInputs) (L fuel : Nat)
    (h1 : 1 ≤ L) (h6 : L ≤ 6) (hfuel : 32 ≤ fuel)
    (hp : inp.intreqr < 2 ^ 16) (he : inp.intenar < 2 ^ 16)
    (hA : inp.cia_a_icr < 2 ^ 8) (hB : inp.cia_b_icr < 2 ^ 8)
    (hmA : m.cia_a_irqs_enabled < 2 ^ 8) (hmB : m.cia_b_irqs_enabled < 2 ^ 8) :
    ∃ r, m68k_platform_irq handlers m inp (L + 24) fuel = some r ∧
      r.invoked.map Prod.fst =
        claimed_vectors handlers
          (claimed_combined inp.intreqr inp.intenar L inp.cia_a_icr m.cia_a_irqs_enabled
            inp.cia_b_icr m.cia_b_irqs_enabled) ∧
      List.Pairwise (fun a b => a < b) (r.invoked.map Prod.fst) ∧
      (∀ v, v ∈ r.invoked.map Prod.fst ↔
        (1 ≤ v ∧ v ≤ 24 ∧
          (claimed_combined inp.intreqr inp.intenar L inp.cia_a_icr m.cia_a_irqs_enabled
            inp.cia_b_icr m.cia_b_irqs_enabled).testBit (v - 1) = true ∧
          ((handlers (v - 1)).handler).isSome = true)) := by
  obtain ⟨r, hr, hv, _⟩ := m68k_platform_irq_invoked handlers m inp L fuel h1 h6 hfuel
    (by simpa using hp) (by simpa using he) (by simpa using hA) (by simpa using hB)
    (by simpa using hmA) (by simpa using hmB)
  obtain ⟨pw, mem⟩ := claimed_vectors_props handlers
    (claimed_combined inp.intreqr inp.intenar L inp.cia_a_icr m.cia_a_irqs_enabled
      inp.cia_b_icr m.cia_b_irqs_enabled)
  exact ⟨r, hr, hv, by rw [hv]; exact pw, by rw [hv]; exact mem⟩

/-- C2 witness: at CPU level 2 with lines 3, 4 and 14 pending and enabled, both status
registers reading 0x82 and both shadow masks 0x02, the handlers of vectors 3, 16 and 21 are
invoked in that order (a handler registered on vector 4 is not). -/
theorem C2_irq_invokes_combined_ascending_witness :
    (∃ r, m68k_platform_irq handlers_sample machine_sample inputs_sample (2 + 24) 32 = some r ∧
      r.invoked.map Prod.fst =
        claimed_vectors handlers_sample
          (claimed_combined inputs_sample.intreqr inputs_sample.intenar 2
            inputs_sample.cia_a_icr machine_sample.cia_a_irqs_enabled
            inputs_sample.cia_b_icr machine_sample.cia_b_irqs_enabled) ∧
      List.Pairwise (fun a b => a < b) (r.invoked.map Prod.fst) ∧
      (∀ v, v ∈ r.invoked.map Prod.fst ↔
        (1 ≤ v ∧ v ≤ 24 ∧
          (claimed_combined inputs_sample.intreqr inputs_sample.intenar 2
            inputs_sample.cia_a_icr machine_sample.cia_a_irqs_enabled
            inputs_sample.cia_b_icr machine_sample.cia_b_irqs_enabled).testBit (v - 1) = true ∧
          ((handlers_sample (v - 1)).handler).isSome = true))) ∧
    claimed_vectors handlers_sample
      (claimed_combined inputs_sample.intreqr inputs_sample.intenar 2
        inputs_sample.cia_a_icr machine_sample.cia_a_irqs_enabled
        inputs_sample.cia_b_icr machine_sample.cia_b_irqs_enabled) = [3, 16, 21] :=
  ⟨C2_irq_invokes_combined_ascending handlers_sample machine_sample inputs_sample 2 32
    (by decide) (by decide) (by decide) (by decide) (by decide) (by decide) (by decide)
    (by decide) (by decide), by decide⟩

/-! ## C5: the mux line's pending bit is cleared -/

/-- C5: at CPU level L in 1..6, when mux line 4 or mux line 14 is in the level-restricted
active set, the last store of the call is a store to the primary pending-clear register
whose value has the bit of every active mux line set and bit 15 (set/clear) clear; when
`combined` is empty this is the only store of the call, no handler is invoked and the call
returns INT_NO_RESCHEDULE. -/
theorem C5_mux_line_pending_cleared {σ : Type} (handlers : HandlerTable σ)
    (m : Machine σ) (inp : IrqInputs) (L fuel : Nat)
    (h1 : 1 ≤ L) (h6 : L ≤ 6) (hfuel : 32 ≤ fuel)
    (hp : inp.intreqr < 2 ^ 16) (he : inp.intenar < 2 ^ 16)
    (hA : inp.cia_a_icr < 2 ^ 8) (hB : inp.cia_b_icr < 2 ^ 8)
    (hmA : m.cia_a_irqs_enabled < 2 ^ 8) (hmB : m.cia_b_irqs_enabled < 2 ^ 8)
    (hmux : (level_active inp.intreqr inp.intenar L).testBit 3 = true ∨
      (level_active inp.intreqr inp.intenar L).testBit 13 = true) :
    ∃ r pre v, m68k_platform_irq handlers m inp (L + 24) fuel = some r ∧
      r.machine.writes = pre ++ [(paula_reg INTREQ, v)] ∧
      ((level_active inp.intreqr inp.intenar L).testBit 3 = true → v.testBit 3 = true) ∧
      ((level_active inp.intreqr inp.intenar L).testBit 13 = true → v.testBit 13 = true) ∧
      v.testBit 15 = false ∧
      (claimed_combined inp.intreqr inp.intenar L inp.cia_a_icr m.cia_a_irqs_enabled
          inp.cia_b_icr m.cia_b_irqs_enabled = 0 →
        pre = m.writes ∧ r.invoked = [] ∧ r.ret = handler_return.INT_NO_RESCHEDULE) := by
  have hp2 : inp.intreqr < 65536 := by simpa using hp
  have he2 : inp.intenar < 65536 := by simpa using he
  have hA2 : inp.cia_a_icr < 256 := by simpa using hA
  have hB2 : inp.cia_b_icr < 256 := by simpa using hB
  have hmA2 : m.cia_a_irqs_enabled < 256 := by simpa using hmA
  have hmB2 : m.cia_b_irqs_enabled < 256 := by simpa using hmB
  obtain ⟨sc, tc, _⟩ := m68k_platform_irq_scan_spec m inp L h1 h6 hp2 he2 hA2 hB2 hmA2 hmB2
  obtain ⟨r, hr, _, pre, hw, hz⟩ := m68k_platform_irq_invoked handlers m inp L fuel h1 h6
    hfuel hp2 he2 hA2 hB2 hmA2 hmB2
  rw [sc] at hw hz
  rw [tc] at hw
  refine ⟨r, pre, u16 ((if (level_active inp.intreqr inp.intenar L).testBit 3 = true
      then 8 else 0) ||| (if (level_active inp.intreqr inp.intenar L).testBit 13 = true
      then 8192 else 0)), hr, ?_, ?_, ?_, ?_, hz⟩
  · rw [hw]
    by_cases a3 : (level_active inp.intreqr inp.intenar L).testBit 3 = true <;>
    by_cases a13 : (level_active inp.intreqr inp.intenar L).testBit 13 = true <;>
    simp [a3, a13] at hmux ⊢
  · intro a3
    by_cases a13 : (level_active inp.intreqr inp.intenar L).testBit 13 = true <;>
    simp only [a3, a13, if_true, if_false] <;> decide
  · intro a13
    by_cases a3 : (level_active inp.intreqr inp.intenar L).testBit 3 = true <;>
    simp only [a3, a13, if_true, if_false] <;> decide
  · by_cases a3 : (level_active inp.intreqr inp.intenar L).testBit 3 = true <;>
    by_cases a13 : (level_active inp.intreqr inp.intenar L).testBit 13 = true <;>
    simp only [a3, a13, if_true, if_false] <;> decide

/-- C5 witness: at CPU level 2 with mux line 4 pending and enabled and peripheral A's
status reading 0 (nothing asserted), the call stores 0x0008 to the pending-clear register,
invokes no handler and returns INT_NO_RESCHEDULE. -/
theorem C5_mux_line_pending_cleared_witness :
    (level_active 0x0008 0x0008 2).testBit 3 = true ∧
    ∃ r pre v, m68k_platform_irq handlers_sample machine_sample
        { intreqr := 0x0008, intenar := 0x0008, cia_a_icr := 0, cia_b_icr := 0 } (2 + 24) 32
          = some r ∧
      r.machine.writes = pre ++ [(paula_reg INTREQ, v)] ∧
      ((level_active 0x0008 0x0008 2).testBit 3 = true → v.testBit 3 = true) ∧
      ((level_active 0x0008 0x0008 2).testBit 13 = true → v.testBit 13 = true) ∧
      v.testBit 15 = false ∧
      (claimed_combined 0x0008 0x0008 2 0 machine_sample.cia_a_irqs_enabled 0
          machine_sample.cia_b_irqs_enabled = 0 →
        pre = machine_sample.writes ∧ r.invoked = [] ∧
          r.ret = handler_return.INT_NO_RESCHEDULE) :=
  ⟨by decide, C5_mux_line_pending_cleared handlers_sample machine_sample
    { intreqr := 0x0008, intenar := 0x0008, cia_a_icr := 0, cia_b_icr := 0 } 2 32
    (by decide) (by decide) (by decide) (by decide) (by decide) (by decide) (by decide)
    (by decide) (by decide) (Or.inl (by decide))⟩

/-! ## C4: mask followed by unmask leaves a vector deliverable -/

/-- Effect of `mask_interrupt` followed by `unmask_interrupt` on a primary vector: two
stores to the primary enable register, the second one enabling the line. -/
theorem mask_unmask_primary {σ : Type} (m : Machine σ) (v : Nat) (h1 : 1 ≤ v)
    (h14 : v ≤ 14) :
    (unmask_interrupt (mask_interrupt m v).2 v).2 =
      { m with writes := m.writes ++
          [(paula_reg INTENA, 2 ^ (v - 1)), (paula_reg INTENA, 0x8000 ||| 2 ^ (v - 1))] } := by
  have hv : is_valid_irq v = true := by
    simp only [is_valid_irq, NUM_IRQS_TOTAL, Bool.and_eq_true, decide_eq_true_eq]
    omega
  have hpa : is_paula_irq v = true := by
    simp only [is_paula_irq, NUM_IRQS_PAULA, Bool.and_eq_true, decide_eq_true_eq]
    omega
  have hpow : 2 ^ (v - 1) < 2 ^ 14 := Nat.pow_lt_pow_right (by decide) (by omega)
  have e1 : u16 (0x0000 ||| (1 <<< (v - 1))) = 2 ^ (v - 1) := by
    rw [Nat.zero_or, Nat.one_shiftLeft]
    exact Nat.mod_eq_of_lt (by omega)
  have e2 : u16 (0x8000 ||| (1 <<< (v - 1))) = 0x8000 ||| 2 ^ (v - 1) := by
    rw [Nat.one_shiftLeft]
    have : 0x8000 ||| 2 ^ (v - 1) < 2 ^ 16 :=
      Nat.or_lt_two_pow (by norm_num) (by omega)
    exact Nat.mod_eq_of_lt (by simpa using this)
  have e3 : u16 (2 ^ (v - 1)) = 2 ^ (v - 1) := Nat.mod_eq_of_lt (by omega)
  have e4 : u16 (0x8000 ||| 2 ^ (v - 1)) = 0x8000 ||| 2 ^ (v - 1) := by
    rw [← e2, u16, u16, Nat.mod_mod]
  simp only [mask_interrupt, unmask_interrupt, hv, hpa, e1, e2, e3, e4, Platform.write_reg,
    Machine.write, Bool.not_true, Bool.false_eq_true, if_false, if_true, List.append_assoc,
    List.singleton_append]

/-- Under the set/clear-by-high-bit protocol, the enable register has bit v-1 set after
`mask_interrupt` followed by `unmask_interrupt` on a primary vector v. -/
theorem intena_after_mask_unmask {σ : Type} (m : Machine σ) (ena0 v : Nat) (h1 : 1 ≤ v)
    (h14 : v ≤ 14) :
    (paula_intena ena0 (unmask_interrupt (mask_interrupt m v).2 v).2.writes).testBit (v - 1)
      = true := by
  rw [mask_unmask_primary m v h1 h14]
  simp only [paula_intena, List.foldl_append, List.foldl_cons, List.foldl_nil, if_true]
  generalize intena_store _ (2 ^ (v - 1)) = X
  have hk : ((0x8000 ||| 2 ^ (v - 1)) &&& 0x8000 : Nat) ≠ 0 := by
    rw [show (0x8000 : Nat) = 2 ^ 15 by norm_num, and_two_pow_ne_zero_iff, Nat.testBit_or,
      Nat.testBit_two_pow_self]
    rfl
  unfold intena_store
  rw [if_pos hk, Nat.testBit_or, Nat.testBit_and, Nat.testBit_or, Nat.testBit_two_pow_self,
    show (0x7FFF : Nat) = 2 ^ 15 - 1 by norm_num, Nat.testBit_two_pow_sub_one]
  have : v - 1 < 15 := by omega
  simp [this]

/-- Effect of `mask_interrupt` followed by `unmask_interrupt` on a vector of peripheral A:
its bit of shadow mask A ends set; both masks stay 8-bit values. -/
theorem mask_unmask_cia_a {σ : Type} (m : Machine σ) (v : Nat) (h15 : 15 ≤ v)
    (h19 : v ≤ 19) (hmB : m.cia_b_irqs_enabled < 256) :
    (unmask_interrupt (mask_interrupt m v).2 v).2.cia_a_irqs_enabled.testBit (v - 15) = true ∧
    (unmask_interrupt (mask_interrupt m v).2 v).2.cia_a_irqs_enabled < 256 ∧
    (unmask_interrupt (mask_interrupt m v).2 v).2.cia_b_irqs_enabled < 256 := by
  have hv : is_valid_irq v = true := by
    simp only [is_valid_irq, NUM_IRQS_TOTAL, Bool.and_eq_true, decide_eq_true_eq]
    omega
  have hpa : is_paula_irq v = false := by
    simp only [is_paula_irq, NUM_IRQS_PAULA, Bool.and_eq_false_iff, decide_eq_false_iff_not]
    omega
  have ha : is_cia_a_irq v = true := by
    simp only [is_cia_a_irq, NUM_IRQS_PAULA, NUM_IRQS_CIA, Bool.and_eq_true,
      decide_eq_true_eq]
    omega
  have hbit : u8 (v - (NUM_IRQS_PAULA + 1)) = v - 15 := by
    simp only [u8, NUM_IRQS_PAULA]
    omega
  simp only [mask_interrupt, unmask_interrupt, hv, hpa, ha, hbit, Machine.write,
    Bool.not_true, Bool.false_eq_true, if_false, if_true]
  refine ⟨?_, Nat.mod_lt _ (by decide), hmB⟩
  rw [u8, show (256 : Nat) = 2 ^ 8 by norm_num, Nat.testBit_mod_two_pow, Nat.testBit_or,
    Nat.one_shiftLeft, Nat.testBit_two_pow_self]
  have : v - 15 < 8 := by omega
  simp [this]

/-- Effect of `mask_interrupt` followed by `unmask_interrupt` on a vector of peripheral B:
its bit of shadow mask B ends set; both masks stay 8-bit values. -/
theorem mask_unmask_cia_b {σ : Type} (m : Machine σ) (v : Nat) (h20 : 20 ≤ v)
    (h24 : v ≤ 24) (hmA : m.cia_a_irqs_enabled < 256) :
    (unmask_interrupt (mask_interrupt m v).2 v).2.cia_b_irqs_enabled.testBit (v - 20) = true ∧
    (unmask_interrupt (mask_interrupt m v).2 v).2.cia_a_irqs_enabled < 256 ∧
    (unmask_interrupt (mask_interrupt m v).2 v).2.cia_b_irqs_enabled < 256 := by
  have hv : is_valid_irq v = true := by
    simp only [is_valid_irq, NUM_IRQS_TOTAL, Bool.and_eq_true, decide_eq_true_eq]
    omega
  have hpa : is_paula_irq v = false := by
    simp only [is_paula_irq, NUM_IRQS_PAULA, Bool.and_eq_false_iff, decide_eq_false_iff_not]
    omega
  have ha : is_cia_a_irq v = false := by
    simp only [is_cia_a_irq, NUM_IRQS_PAULA, NUM_IRQS_CIA, Bool.and_eq_false_iff,
      decide_eq_false_iff_not]
    omega
  have hb : is_cia_b_irq v = true := by
    simp only [is_cia_b_irq, NUM_IRQS_TOTAL, NUM_IRQS_CIA, Bool.and_eq_true,
      decide_eq_true_eq]
    omega
  have hbit1 : u8 (v - (NUM_IRQS_PAULA + NUM_IRQS_CIA + 1)) = v - 20 := by
    simp only [u8, NUM_IRQS_PAULA, NUM_IRQS_CIA]
    omega
  have hbit2 : u8 ((v - (NUM_IRQS_PAULA + NUM_IRQS_CIA)) - 1) = v - 20 := by
    simp only [u8, NUM_IRQS_PAULA, NUM_IRQS_CIA]
    omega
  simp only [mask_interrupt, unmask_interrupt, hv, hpa, ha, hb, hbit1, hbit2, Machine.write,
    Bool.not_true, Bool.false_eq_true, if_false, if_true]
  refine ⟨?_, hmA, Nat.mod_lt _ (by decide)⟩
  rw [u8, show (256 : Nat) = 2 ^ 8 by norm_num, Nat.testBit_mod_two_pow, Nat.testBit_or,
    Nat.one_shiftLeft, Nat.testBit_two_pow_self]
  have : v - 20 < 8 := by omega
  simp [this]

/-- C4 (the claim as stated fails on the mux lines): after `mask_interrupt(4)` and
`unmask_interrupt(4)` line 4 is enabled, CPU level 2 owns it and a handler is registered on
vector 4, yet a level-2 call with line 4 pending invokes only the handler of vector 16
(peripheral A, source 1); likewise after mask/unmask of vector 14 a level-6 call with line
14 pending invokes only the handler of vector 21. -/
theorem C4_mux_vector_not_delivered_counterexample :
    ((irq_level_map.getD (2 - 1) 0).testBit (4 - 1) = true ∧
      ((handlers_sample (4 - 1)).handler).isSome = true ∧
      paula_intena 0 (unmask_interrupt (mask_interrupt machine_sample 4).2 4).2.writes = 0x0008 ∧
      (m68k_platform_irq handlers_sample (unmask_interrupt (mask_interrupt machine_sample 4).2 4).2
          { intreqr := 0x0008, intenar := 0x0008, cia_a_icr := 0x82, cia_b_icr := 0 }
          (2 + 24) 32).map (fun r => r.invoked.map Prod.fst) = some [16]) ∧
    ((irq_level_map.getD (6 - 1) 0).testBit (14 - 1) = true ∧
      ((register_int_handler handlers_sample 14 (some handler_quiet) 0 (14 - 1)).handler).isSome
        = true ∧
      paula_intena 0 (unmask_interrupt (mask_interrupt machine_sample 14).2 14).2.writes
        = 0x2000 ∧
      (m68k_platform_irq (register_int_handler handlers_sample 14 (some handler_quiet) 0)
          (unmask_interrupt (mask_interrupt machine_sample 14).2 14).2
          { intreqr := 0x2000, intenar := 0x2000, cia_a_icr := 0, cia_b_icr := 0x82 }
          (6 + 24) 32).map (fun r => r.invoked.map Prod.fst) = some [21]) := by
  decide

/-- C4 (amended): for every vector v in [1,24] other than the mux lines 4 and 14, with a
registered handler, after `mask_interrupt(v)` followed by `unmask_interrupt(v)` a call of
`m68k_platform_irq` delivers to v: for a primary vector, at a CPU level whose mask holds
line v, with line v pending and the enable register as the two stores leave it; for a
peripheral vector, at a CPU level where the controller's mux line is in the
level-restricted active set, with the status register's asserted flag and the bit of v's
source set. -/
theorem C4_mask_unmask_then_deliver {σ : Type} (handlers : HandlerTable σ) (m : Machine σ)
    (inp : IrqInputs) (ena0 v L fuel : Nat)
    (hv1 : 1 ≤ v) (hv24 : v ≤ 24) (hmux : v ≠ 4 ∧ v ≠ 14)
    (hreg : ((handlers (v - 1)).handler).isSome = true)
    (h1 : 1 ≤ L) (h6 : L ≤ 6) (hfuel : 32 ≤ fuel)
    (hp : inp.intreqr < 2 ^ 16) (he : inp.intenar < 2 ^ 16)
    (hA : inp.cia_a_icr < 2 ^ 8) (hB : inp.cia_b_icr < 2 ^ 8)
    (hmA : m.cia_a_irqs_enabled < 2 ^ 8) (hmB : m.cia_b_irqs_enabled < 2 ^ 8)
    (hprim : v ≤ 14 →
      (irq_level_map.getD (L - 1) 0).testBit (v - 1) = true ∧
      inp.intreqr.testBit (v - 1) = true ∧
      inp.intenar = paula_intena ena0 (unmask_interrupt (mask_interrupt m v).2 v).2.writes)
    (hperA : 15 ≤ v → v ≤ 19 →
      (level_active inp.intreqr inp.intenar L).testBit 3 = true ∧
      inp.cia_a_icr.testBit 7 = true ∧ inp.cia_a_icr.testBit (v - 15) = true)
    (hperB : 20 ≤ v →
      (level_active inp.intreqr inp.intenar L).testBit 13 = true ∧
      inp.cia_b_icr.testBit 7 = true ∧ inp.cia_b_icr.testBit (v - 20) = true) :
    ∃ r, m68k_platform_irq handlers (unmask_interrupt (mask_interrupt m v).2 v).2 inp
        (L + 24) fuel = some r ∧
      v ∈ r.invoked.map Prod.fst := by
  have hmA2 : m.cia_a_irqs_enabled < 256 := by simpa using hmA
  have hmB2 : m.cia_b_irqs_enabled < 256 := by simpa using hmB
  have hc2 : (0xFFFF ^^^ ((1 <<< 3) ||| (1 <<< 13)) : Nat) = 57335 := by decide
  -- the shadow masks stay 8-bit values and the bit of v in `combined` is set
  have key : (unmask_interrupt (mask_interrupt m v).2 v).2.cia_a_irqs_enabled < 256 ∧
      (unmask_interrupt (mask_interrupt m v).2 v).2.cia_b_irqs_enabled < 256 ∧
      (claimed_combined inp.intreqr inp.intenar L inp.cia_a_icr
        (unmask_interrupt (mask_interrupt m v).2 v).2.cia_a_irqs_enabled inp.cia_b_icr
        (unmask_interrupt (mask_interrupt m v).2 v).2.cia_b_irqs_enabled).testBit (v - 1)
        = true := by
    by_cases c1 : v ≤ 14
    · obtain ⟨l1, l2, l3⟩ := hprim c1
      have hbit := intena_after_mask_unmask m ena0 v hv1 c1
      rw [← l3] at hbit
      rw [mask_unmask_primary m v hv1 c1]
      refine ⟨hmA2, hmB2, ?_⟩
      have hmask : (57335 : Nat).testBit (v - 1) = true := by
        obtain ⟨n4, n14⟩ := hmux
        interval_cases v <;> first | decide | exact absurd rfl n4 | exact absurd rfl n14
      simp only [claimed_combined, level_active, hc2, Nat.testBit_or, Nat.testBit_and, l1, l2,
        hbit, hmask, Bool.and_self, Bool.true_or]
    · by_cases c2 : v ≤ 19
      · obtain ⟨a1, a2, a3⟩ := hperA (by omega) c2
        obtain ⟨s1, s2, s3⟩ := mask_unmask_cia_a m v (by omega) c2 hmB2
        refine ⟨s2, s3, ?_⟩
        have h31 : (31 : Nat).testBit (v - 15) = true := by
          rw [show (31 : Nat) = 2 ^ 5 - 1 by norm_num, Nat.testBit_two_pow_sub_one]
          exact decide_eq_true (by omega)
        have hidx : v - 1 - 14 = v - 15 := by omega
        have hge : decide (v - 1 ≥ 14) = true := decide_eq_true (by omega)
        simp only [claimed_combined, a1, a2, and_self, if_true, Nat.testBit_or,
          Nat.testBit_shiftLeft, Nat.testBit_and, hidx, hge, a3, h31, s1, Bool.and_self,
          Bool.or_true, Bool.true_or]
      · obtain ⟨a1, a2, a3⟩ := hperB (by omega)
        obtain ⟨s1, s2, s3⟩ := mask_unmask_cia_b m v (by omega) hv24 hmA2
        refine ⟨s2, s3, ?_⟩
        have h31 : (31 : Nat).testBit (v - 20) = true := by
          rw [show (31 : Nat) = 2 ^ 5 - 1 by norm_num, Nat.testBit_two_pow_sub_one]
          exact decide_eq_true (by omega)
        have hidx : v - 1 - 19 = v - 20 := by omega
        have hge : decide (v - 1 ≥ 19) = true := decide_eq_true (by omega)
        simp only [claimed_combined, a1, a2, and_self, if_true, Nat.testBit_or,
          Nat.testBit_shiftLeft, Nat.testBit_and, hidx, hge, a3, h31, s1, Bool.and_self,
          Bool.or_true, Bool.true_or]
  obtain ⟨k1, k2, k3⟩ := key
  obtain ⟨r, hr, hvs, _⟩ := m68k_platform_irq_invoked handlers
    (unmask_interrupt (mask_interrupt m v).2 v).2 inp L fuel h1 h6 hfuel
    (by simpa using hp) (by simpa using he) (by simpa using hA) (by simpa using hB) k1 k2
  refine ⟨r, hr, ?_⟩
  rw [hvs]
  exact ((claimed_vectors_props handlers _).2 v).2 ⟨hv1, hv24, k3, hreg⟩

/-- C4 witness: vector 21 (peripheral B, source 1) at CPU level 6 and primary vector 3 at
CPU level 1 are delivered after mask followed by unmask. -/
theorem C4_mask_unmask_then_deliver_witness :
    (∃ r, m68k_platform_irq handlers_sample
        (unmask_interrupt (mask_interrupt machine_reset 21).2 21).2
        { intreqr := 0x2000, intenar := 0x2000, cia_a_icr := 0, cia_b_icr := 0x82 }
        (6 + 24) 32 = some r ∧ 21 ∈ r.invoked.map Prod.fst) ∧
    (∃ r, m68k_platform_irq handlers_sample
        (unmask_interrupt (mask_interrupt machine_reset 3).2 3).2
        { intreqr := 0x0004, intenar := 0x0004, cia_a_icr := 0, cia_b_icr := 0 }
        (1 + 24) 32 = some r ∧ 3 ∈ r.invoked.map Prod.fst) :=
  ⟨C4_mask_unmask_then_deliver handlers_sample machine_reset
      { intreqr := 0x2000, intenar := 0x2000, cia_a_icr := 0, cia_b_icr := 0x82 } 0 21 6 32
      (by decide) (by decide) ⟨by decide, by decide⟩ (by decide) (by decide) (by decide)
      (by decide) (by decide) (by decide) (by decide) (by decide) (by decide) (by decide)
      (fun h => absurd h (by decide)) (fun _ h => absurd h (by decide))
      (fun _ => ⟨by decide, by decide, by decide⟩),
   C4_mask_unmask_then_deliver handlers_sample machine_reset
      { intreqr := 0x0004, intenar := 0x0004, cia_a_icr := 0, cia_b_icr := 0 } 0 3 1 32
      (by decide) (by decide) ⟨by decide, by decide⟩ (by decide) (by decide) (by decide)
      (by decide) (by decide) (by decide) (by decide) (by decide) (by decide) (by decide)
      (fun _ => ⟨by decide, by decide, by decide⟩) (fun h => absurd h (by decide))
      (fun h => absurd h (by decide))⟩

/-! ## C9: the panic path of uart_putc -/

set_option maxRecDepth 100000 in
/-- The word stored to the serial data register for byte `b`: its low 8 bits are `b` and
the stop bit 0x200 is set, whether plain `char` is signed or not. -/
theorem serdat_word_byte : ∀ b, b < 256 → ∀ cs : Bool,
    u16 (char_to_int cs b ||| 0x200) % 256 = b ∧
    u16 (char_to_int cs b ||| 0x200) &&& 0x200 = 0x200 := by
  decide

/-- The busy-wait ends once the status register reads transmit-ready: if the load number
`serdatr_loads + n` has the bit set, every fuel above `n` gives the same state, which
differs from the entry state in the load counter and the read log only. -/
theorem wait_tbe_returns {σ : Type} (serdatr : Nat → Nat) :
    ∀ (n : Nat) (s : SerialSys σ),
      u16 (serdatr (s.g.serdatr_loads + n)) &&& TBE_STATUS ≠ 0 →
      ∃ s2, (∀ fuel, n + 1 ≤ fuel → wait_tbe serdatr fuel s = some s2) ∧
        s2.machine.writes = s.machine.writes ∧ s2.g.tx_buf = s.g.tx_buf ∧
        s2.machine.cia_a_irqs_enabled = s.machine.cia_a_irqs_enabled ∧
        s2.machine.cia_b_irqs_enabled = s.machine.cia_b_irqs_enabled := by
  intro n
  induction n with
  | zero =>
    intro s hr
    refine ⟨{ g := { s.g with serdatr_loads := s.g.serdatr_loads + 1 },
              machine := s.machine.read (paula_reg SERDATR) }, ?_, rfl, rfl, rfl, rfl⟩
    intro fuel hf
    obtain ⟨f, rfl⟩ : ∃ f, fuel = f + 1 := ⟨fuel - 1, by omega⟩
    simp only [Nat.add_zero] at hr
    simp only [wait_tbe, hr, if_false]
  | succ n ih =>
    intro s hr
    by_cases hnow : u16 (serdatr s.g.serdatr_loads) &&& TBE_STATUS = 0
    · obtain ⟨s2, h2, p1, p2, p3, p4⟩ := ih
        { g := { s.g with serdatr_loads := s.g.serdatr_loads + 1 },
          machine := s.machine.read (paula_reg SERDATR) }
        (by
          have : s.g.serdatr_loads + 1 + n = s.g.serdatr_loads + (n + 1) := by omega
          simpa only [this] using hr)
      refine ⟨s2, ?_, p1, p2, p3, p4⟩
      intro fuel hf
      obtain ⟨f, rfl⟩ : ∃ f, fuel = f + 1 := ⟨fuel - 1, by omega⟩
      simp only [wait_tbe, hnow, if_true]
      exact h2 f (by omega)
    · refine ⟨{ g := { s.g with serdatr_loads := s.g.serdatr_loads + 1 },
                machine := s.machine.read (paula_reg SERDATR) }, ?_, rfl, rfl, rfl, rfl⟩
      intro fuel hf
      obtain ⟨f, rfl⟩ : ∃ f, fuel = f + 1 := ⟨fuel - 1, by omega⟩
      simp only [wait_tbe, hnow, if_false]

/-- Polled transmission of one byte returns for every large enough fuel and appends one
store of the byte's word to the serial data register. -/
theorem uart_send_polled_returns {σ : Type} (cs : Bool) (serdatr : Nat → Nat)
    (hready : ∀ i, ∃ j, i ≤ j ∧ u16 (serdatr j) &&& TBE_STATUS ≠ 0)
    (s : SerialSys σ) (c : Nat) :
    ∃ F s2, (∀ fuel, F ≤ fuel → uart_send_polled cs serdatr fuel s c = some s2) ∧
      s2.machine.writes = s.machine.writes ++ [(paula_reg SERDAT, u16 (char_to_int cs c ||| 0x200))] ∧
      s2.g.tx_buf = s.g.tx_buf ∧
      s2.machine.cia_a_irqs_enabled = s.machine.cia_a_irqs_enabled ∧
      s2.machine.cia_b_irqs_enabled = s.machine.cia_b_irqs_enabled := by
  obtain ⟨j, hj, hr⟩ := hready s.g.serdatr_loads
  obtain ⟨s2, h2, p1, p2, p3, p4⟩ := wait_tbe_returns serdatr (j - s.g.serdatr_loads) s
    (by
      have : s.g.serdatr_loads + (j - s.g.serdatr_loads) = j := by omega
      rw [this]
      exact hr)
  refine ⟨j - s.g.serdatr_loads + 1,
    { s2 with machine := s2.machine.write (paula_reg SERDAT) (u16 (char_to_int cs c ||| 0x200)) },
    ?_, ?_, p2, p3, p4⟩
  · intro fuel hf
    simp only [uart_send_polled, h2 fuel hf, Serial.write_reg]
  · simp only [Machine.write, p1]

/-- The drain loop returns for every large enough fuel: it empties the queue and stores the
word of each queued byte, oldest first, to the serial data register. -/
theorem uart_drain_returns {σ : Type} (cs : Bool) (serdatr : Nat → Nat)
    (hready : ∀ i, ∃ j, i ≤ j ∧ u16 (serdatr j) &&& TBE_STATUS ≠ 0) :
    ∀ (data : List Nat) (s : SerialSys σ), s.g.tx_buf.data = data →
      ∃ F s2, (∀ fuel k, F ≤ fuel → data.length + 1 ≤ k →
          uart_drain cs serdatr fuel k s = some s2) ∧
        s2.machine.writes = s.machine.writes ++
          data.map (fun q => (paula_reg SERDAT, u16 (char_to_int cs q ||| 0x200))) ∧
        s2.g.tx_buf.data = [] ∧
        s2.machine.cia_a_irqs_enabled = s.machine.cia_a_irqs_enabled ∧
        s2.machine.cia_b_irqs_enabled = s.machine.cia_b_irqs_enabled := by
  intro data
  induction data with
  | nil =>
    intro s hd
    refine ⟨0, s, ?_, by simp, hd, rfl, rfl⟩
    intro fuel k _ hk
    obtain ⟨k2, rfl⟩ : ∃ k2, k = k2 + 1 := ⟨k - 1, by omega⟩
    simp [uart_drain, cbuf_read_char, hd]
  | cons q rest ih =>
    intro s hd
    obtain ⟨F1, s1, h1, w1, b1, a1, c1⟩ := uart_send_polled_returns cs serdatr hready
      ({ s with g := { s.g with tx_buf := { s.g.tx_buf with data := rest } } } : SerialSys σ) q
    obtain ⟨F2, s2, h2, w2, b2, a2, c2⟩ := ih s1 (by rw [b1])
    refine ⟨max F1 F2, s2, ?_, ?_, b2, by rw [a2, a1], by rw [c2, c1]⟩
    · intro fuel k hf hk
      obtain ⟨k2, rfl⟩ : ∃ k2, k = k2 + 1 := ⟨k - 1, by omega⟩
      simp only [List.length_cons] at hk
      simp only [uart_drain, cbuf_read_char, hd, if_true,
        h1 fuel (le_trans (le_max_left F1 F2) hf)]
      exact h2 fuel k2 (le_trans (le_max_right F1 F2) hf) (by omega)
    · rw [w2, w1]
      simp

/-- After a clearing store of bit 0, the primary enable register has line 1 disabled. -/
theorem intena_after_mask_1 (ena0 : Nat) (ws : List (Reg × Nat)) :
    (paula_intena ena0 (ws ++ [(paula_reg INTENA, 1)])).testBit 0 = false := by
  simp only [paula_intena, List.foldl_append, List.foldl_cons, List.foldl_nil, if_true]
  generalize List.foldl _ ena0 ws = X
  have h1 : ((1 : Nat) &&& 0x8000) = 0 := by decide
  have h2 : (0x7FFF ^^^ ((1 : Nat) &&& 0x7FFF)) = 0x7FFE := by decide
  unfold intena_store
  simp only [h1, ne_eq, not_true_eq_false, if_false, h2, Nat.testBit_and]
  have : (0x7FFE : Nat).testBit 0 = false := by decide
  simp [this]

/-- Writes of `mask_interrupt` on vector 1: one clearing store of bit 0 to the primary
enable register; nothing else changes. -/
theorem mask_interrupt_1 {σ : Type} (m : Machine σ) :
    (mask_interrupt m 1).2 = { m with writes := m.writes ++ [(paula_reg INTENA, 1)] } := by
  simp [mask_interrupt, is_valid_irq, is_paula_irq, NUM_IRQS_TOTAL, NUM_IRQS_PAULA,
    Platform.write_reg, Machine.write, u16]

/-- C9: called with interrupts disabled, with N bytes q1..qN queued and the transmit-ready
status eventually read as set, `uart_putc(c)` returns (for every large enough fuel) after
storing to the serial data register exactly N+1 words, whose low 8 bits are q1, ..., qN, c
in that order and which all have the stop bit 0x200 set, followed by one store that clears
bit 0 of the primary enable register; it leaves the TX queue empty, `tx_active` false and
the transmit-ready interrupt (vector 1) masked. -/
theorem C9_uart_putc_panic_path_drains {σ : Type} (char_signed : Bool)
    (serdatr : Nat → Nat) (s : SerialSys σ) (c : Nat)
    (hready : ∀ i, ∃ j, i ≤ j ∧ u16 (serdatr j) &&& TBE_STATUS ≠ 0)
    (hc : c < 256) (hq : ∀ q ∈ s.g.tx_buf.data, q < 256) :
    ∃ r F, (∀ fuel, F ≤ fuel → uart_putc char_signed serdatr fuel s true c = some r) ∧
      (∃ ws : List Nat, r.machine.writes =
          s.machine.writes ++ ws.map (fun w => (paula_reg SERDAT, w)) ++ [(paula_reg INTENA, 1)] ∧
        ws.map (fun w => w % 256) = s.g.tx_buf.data ++ [c] ∧
        (∀ w ∈ ws, w &&& 0x200 = 0x200) ∧
        ws.length = s.g.tx_buf.data.length + 1) ∧
      r.g.tx_buf.data = [] ∧ r.g.tx_active = false ∧
      (∀ ena0, (paula_intena ena0 r.machine.writes).testBit 0 = false) := by
  obtain ⟨F1, s1, h1, w1, b1, _, _⟩ :=
    uart_drain_returns char_signed serdatr hready s.g.tx_buf.data s rfl
  obtain ⟨F2, s2, h2, w2, b2, _, _⟩ :=
    uart_send_polled_returns char_signed serdatr hready s1 c
  obtain ⟨F3, s3, h3, w3, b3, _, _⟩ :=
    uart_drain_returns char_signed serdatr hready [] s2 (by rw [b2, b1])
  have hfinal : ∀ fuel, max (max F1 F2) (max F3 (s.g.tx_buf.data.length + 1)) ≤ fuel →
      uart_putc char_signed serdatr fuel s true c =
        some { g := { s3.g with tx_active := false },
               machine := { s3.machine with writes := s3.machine.writes ++ [(paula_reg INTENA, 1)] } }
      := by
    intro fuel hf
    have f1 : F1 ≤ fuel := by omega
    have f2 : F2 ≤ fuel := by omega
    have f3 : F3 ≤ fuel := by omega
    have f4 : s.g.tx_buf.data.length + 1 ≤ fuel := by omega
    have f5 : ([] : List Nat).length + 1 ≤ fuel := by
      simp only [List.length_nil]
      omega
    simp only [uart_putc, Bool.not_true, Bool.and_false, Bool.false_eq_true, if_false, if_true,
      h1 fuel fuel f1 f4, h2 fuel f2, h3 fuel fuel f3 f5, mask_interrupt_1]
  have hws : s3.machine.writes = s.machine.writes ++
      (s.g.tx_buf.data ++ [c]).map
        (fun q => (paula_reg SERDAT, u16 (char_to_int char_signed q ||| 0x200))) := by
    rw [w3, w2, w1]
    simp
  refine ⟨_, _, hfinal,
    ⟨(s.g.tx_buf.data ++ [c]).map (fun q => u16 (char_to_int char_signed q ||| 0x200)),
      ?_, ?_, ?_, by simp⟩, b3, rfl, ?_⟩
  · simp only [hws, List.map_map]
    rfl
  · rw [List.map_map]
    have : ∀ q ∈ s.g.tx_buf.data ++ [c],
        ((fun w => w % 256) ∘ fun q => u16 (char_to_int char_signed q ||| 0x200)) q = id q := by
      intro q hmem
      have hq2 : q < 256 := by
        rcases List.mem_append.1 hmem with h | h
        · exact hq q h
        · rw [List.mem_singleton.1 h]
          exact hc
      exact (serdat_word_byte q hq2 char_signed).1
    rw [List.map_congr_left this, List.map_id]
  · intro w hw
    rw [List.mem_map] at hw
    obtain ⟨q, hmem, rfl⟩ := hw
    have hq2 : q < 256 := by
      rcases List.mem_append.1 hmem with h | h
      · exact hq q h
      · rw [List.mem_singleton.1 h]
        exact hc
    exact (serdat_word_byte q hq2 char_signed).2
  · intro ena0
    exact intena_after_mask_1 ena0 s3.machine.writes

/-- C9 witness: with 0x01, 0x02, 0x83 queued, signed `char` and a status register that is
ready on every third load, the panic path of `uart_putc(0x41)` stores the words 0x0201,
0x0202, 0xFF83, 0x0241 and then masks vector 1. -/
theorem C9_uart_putc_panic_path_drains_witness :
    (∃ r F, (∀ fuel, F ≤ fuel →
        uart_putc true serdatr_sample fuel serial_sample true 0x41 = some r) ∧
      (∃ ws : List Nat, r.machine.writes =
          serial_sample.machine.writes ++ ws.map (fun w => (paula_reg SERDAT, w)) ++
            [(paula_reg INTENA, 1)] ∧
        ws.map (fun w => w % 256) = serial_sample.g.tx_buf.data ++ [0x41] ∧
        (∀ w ∈ ws, w &&& 0x200 = 0x200) ∧
        ws.length = serial_sample.g.tx_buf.data.length + 1) ∧
      r.g.tx_buf.data = [] ∧ r.g.tx_active = false ∧
      (∀ ena0, (paula_intena ena0 r.machine.writes).testBit 0 = false)) ∧
    (uart_putc true serdatr_sample 10 serial_sample true 0x41).map
        (fun r => (r.machine.writes, r.g.tx_buf.data, r.g.tx_active)) =
      some ([(paula_reg SERDAT, 0x0201), (paula_reg SERDAT, 0x0202), (paula_reg SERDAT, 0xFF83),
        (paula_reg SERDAT, 0x0241), (paula_reg INTENA, 1)], [], false) :=
  ⟨C9_uart_putc_panic_path_drains true serdatr_sample serial_sample 0x41
    (fun i => ⟨3 * i + 2, by omega, by
      have h : (3 * i + 2) % 3 = 2 := by omega
      simp only [serdatr_sample, h, if_true]
      decide⟩)
    (by decide) (by decide), by decide⟩

/-! ## C11: the registers mask and unmask store to -/

/-- C11 (evaluation of the code at the failing input): `unmask_interrupt(15)` returns
NO_ERROR and sets bit 0 of shadow mask A, but its store of 0x81 goes to offset 0x001 of
peripheral A (`CIA_A_PRA`), the low byte of `CIA_A_ICR` = 0xD01, not to the
interrupt-control register; `unmask_interrupt(21)` likewise stores 0x82 to offset 0x000 of
peripheral B (`CIA_B_PRA`). `mask_interrupt` on the same vectors stores to `CIA_A_ICR` and
`CIA_B_ICR`, and the primary vector 1 is handled as claimed. -/
theorem C11_unmask_stores_to_port_register :
    ((unmask_interrupt machine_reset 15).1 = status_t.NO_ERROR ∧
      (unmask_interrupt machine_reset 15).2.cia_a_irqs_enabled = 1 ∧
      (unmask_interrupt machine_reset 15).2.writes = [(Reg.cia_a CIA_A_PRA, 0x81)]) ∧
    ((unmask_interrupt machine_reset 21).1 = status_t.NO_ERROR ∧
      (unmask_interrupt machine_reset 21).2.cia_b_irqs_enabled = 2 ∧
      (unmask_interrupt machine_reset 21).2.writes = [(Reg.cia_b CIA_B_PRA, 0x82)]) ∧
    Reg.cia_a CIA_A_PRA ≠ Reg.cia_a CIA_A_ICR ∧ Reg.cia_b CIA_B_PRA ≠ Reg.cia_b CIA_B_ICR ∧
    ((mask_interrupt machine_sample 15).2.cia_a_irqs_enabled = 2 ∧
      (mask_interrupt machine_sample 15).2.writes = [(Reg.cia_a CIA_A_ICR, 0x01)]) ∧
    ((mask_interrupt machine_sample 21).2.cia_b_irqs_enabled = 0 ∧
      (mask_interrupt machine_sample 21).2.writes = [(Reg.cia_b CIA_B_ICR, 0x02)]) ∧
    (unmask_interrupt machine_sample 1).2.writes = [(paula_reg INTENA, 0x8001)] ∧
    (mask_interrupt machine_sample 1).2.writes = [(paula_reg INTENA, 0x0001)] := by
  decide

/-! ## C13: the level table -/

/-- C13 (evaluation of the code at the failing input): the entry of CPU level 2 (0x300C)
shares line 3 (bit 2) with level 1, line 13 (bit 12) with level 5 and line 14 (bit 13) with
level 6; with line 3 pending and enabled the handler of vector 3 is invoked both by a
level-1 and by a level-2 call, and with line 14 pending and enabled peripheral B's status
register is read both by a level-2 and by a level-6 call. -/
theorem C13_level_table_overlaps :
    irq_level_map.getD 0 0 &&& irq_level_map.getD 1 0 = 0x0004 ∧
    irq_level_map.getD 1 0 &&& irq_level_map.getD 4 0 = 0x1000 ∧
    irq_level_map.getD 1 0 &&& irq_level_map.getD 5 0 = 0x2000 ∧
    (m68k_platform_irq handlers_sample machine_sample
        { intreqr := 0x0004, intenar := 0x0004, cia_a_icr := 0, cia_b_icr := 0 }
        (1 + 24) 32).map (fun r => r.invoked.map Prod.fst) = some [3] ∧
    (m68k_platform_irq handlers_sample machine_sample
        { intreqr := 0x0004, intenar := 0x0004, cia_a_icr := 0, cia_b_icr := 0 }
        (2 + 24) 32).map (fun r => r.invoked.map Prod.fst) = some [3] ∧
    (m68k_platform_irq handlers_sample machine_sample
        { intreqr := 0x2000, intenar := 0x2000, cia_a_icr := 0, cia_b_icr := 0x82 }
        (2 + 24) 32).map (fun r => (r.invoked.map Prod.fst, r.machine.reads)) =
      some ([21], [paula_reg INTREQR, paula_reg INTENAR, Reg.cia_b CIA_B_ICR]) ∧
    (m68k_platform_irq handlers_sample machine_sample
        { intreqr := 0x2000, intenar := 0x2000, cia_a_icr := 0, cia_b_icr := 0x82 }
        (6 + 24) 32).map (fun r => (r.invoked.map Prod.fst, r.machine.reads)) =
      some ([21], [paula_reg INTREQR, paula_reg INTENAR, Reg.cia_b CIA_B_ICR]) := by
  decide

/-! ## C15: shadow masks against the hardware enable masks -/

/-- C15 (evaluation of the code at the failing input): from boot (both shadow masks 0, both
hardware enable masks 0, no store yet) `unmask_interrupt(20)` ends with bit 0 of shadow
mask B set while peripheral B's hardware enable mask is still 0, because the store went to
`CIA_B_PRA`; the same happens to peripheral A on `unmask_interrupt(15)`, and
`platform_set_oneshot_timer` ends with shadow and hardware equal only because it also
stores 0x82 to `CIA_B_ICR` itself. -/
theorem C15_unmask_leaves_hardware_mask_clear :
    (unmask_interrupt machine_reset 20).2.cia_b_irqs_enabled = 1 ∧
    cia_b_enable_mask 0 (unmask_interrupt machine_reset 20).2.writes = 0 ∧
    (unmask_interrupt machine_reset 15).2.cia_a_irqs_enabled = 1 ∧
    cia_a_enable_mask 0 (unmask_interrupt machine_reset 15).2.writes = 0 ∧
    (platform_set_oneshot_timer (timer_globals 709379 0 0) machine_reset none 0
        10).2.2.cia_b_irqs_enabled = 2 ∧
    cia_b_enable_mask 0
      (platform_set_oneshot_timer (timer_globals 709379 0 0) machine_reset none 0 10).2.2.writes
        = 2 := by
  decide

/-! ## C20: bounds of the table accesses of the dispatcher -/

/-- The mux bits 3 and 13 are never set in the contract's mask. -/
theorem claimed_combined_mux_bits (pending enabled L sA mA sB mB : Nat) :
    (claimed_combined pending enabled L sA mA sB mB).testBit 3 = false ∧
    (claimed_combined pending enabled L sA mA sB mB).testBit 13 = false := by
  have hc2 : (0xFFFF ^^^ ((1 <<< 3) ||| (1 <<< 13)) : Nat) = 57335 := by decide
  have h3 : (57335 : Nat).testBit 3 = false := by decide
  have h13 : (57335 : Nat).testBit 13 = false := by decide
  unfold claimed_combined
  rw [hc2]
  constructor
  · split_ifs <;>
      simp [Nat.testBit_or, Nat.testBit_and, Nat.testBit_shiftLeft, h3]
  · split_ifs <;>
      simp [Nat.testBit_or, Nat.testBit_and, Nat.testBit_shiftLeft, h13]

/-- Totality and array reads of one dispatch call at CPU level L in 1..6: the handler array
is read at the set bits of the contract's mask, in ascending order. -/
theorem m68k_platform_irq_lookups {σ : Type} (handlers : HandlerTable σ)
    (m : Machine σ) (inp : IrqInputs) (L fuel : Nat)
    (h1 : 1 ≤ L) (h6 : L ≤ 6) (hfuel : 32 ≤ fuel)
    (hp : inp.intreqr < 65536) (he : inp.intenar < 65536)
    (hA : inp.cia_a_icr < 256) (hB : inp.cia_b_icr < 256)
    (hmA : m.cia_a_irqs_enabled < 256) (hmB : m.cia_b_irqs_enabled < 256) :
    ∃ r, m68k_platform_irq handlers m inp (L + 24) fuel = some r ∧
      r.invoked.map Prod.fst =
        claimed_vectors handlers
          (claimed_combined inp.intreqr inp.intenar L inp.cia_a_icr m.cia_a_irqs_enabled
            inp.cia_b_icr m.cia_b_irqs_enabled) ∧
      r.lookups = (List.range' 0 32).filter
        (fun i => (claimed_combined inp.intreqr inp.intenar L inp.cia_a_icr
          m.cia_a_irqs_enabled inp.cia_b_icr m.cia_b_irqs_enabled).testBit i) := by
  obtain ⟨sc, _, _⟩ := m68k_platform_irq_scan_spec m inp L h1 h6 hp he hA hB hmA hmB
  have hlt := claimed_combined_lt inp.intreqr inp.intenar L inp.cia_a_icr
    m.cia_a_irqs_enabled inp.cia_b_icr m.cia_b_irqs_enabled
  rw [← sc] at hlt ⊢
  unfold m68k_platform_irq
  simp only
  generalize m68k_platform_irq_scan m inp (L + 24) = S at hlt ⊢
  by_cases h0 : S.combined = 0
  · simp only [h0, if_true]
    refine ⟨_, rfl, by simp [claimed_vectors], ?_⟩
    simp
  · obtain ⟨r, hr1, hr2, hr3⟩ := irq_loop_spec handlers fuel S.combined 0
      handler_return.INT_NO_RESCHEDULE [] [] S.machine
      (lt_of_lt_of_le hlt (by norm_num)) (fun j _ => Nat.zero_le j) (by omega)
    rw [claimed_vectors_eq handlers S.combined hlt] at hr2
    simp only [h0, if_false, hr1]
    exact ⟨_, rfl, by simpa using hr2, by simpa using hr3⟩

/-- C20: at CPU level L in 1..6, for every primary pending/enable state, status reads and
8-bit shadow masks (in particular masks confined to the low 5 bits), the level-table index
is L-1, inside the 6-entry table; the call returns; every index at which it reads the
handler array is below 24 and is neither 3 nor 13; the loop runs at most 22 times; and no
handler is invoked for vector 4 or 14 (every invoked vector lies in 1..24). -/
theorem C20_dispatch_table_accesses_in_bounds {σ : Type} (handlers : HandlerTable σ)
    (m : Machine σ) (inp : IrqInputs) (L fuel : Nat)
    (h1 : 1 ≤ L) (h6 : L ≤ 6) (hfuel : 32 ≤ fuel)
    (hp : inp.intreqr < 2 ^ 16) (he : inp.intenar < 2 ^ 16)
    (hA : inp.cia_a_icr < 2 ^ 8) (hB : inp.cia_b_icr < 2 ^ 8)
    (hmA : m.cia_a_irqs_enabled < 2 ^ 8) (hmB : m.cia_b_irqs_enabled < 2 ^ 8) :
    (u32 (u32 (u8 (L + 24) + 4294967296 - 24) + 4294967295) = L - 1 ∧
      L - 1 < irq_level_map.length) ∧
    ∃ r, m68k_platform_irq handlers m inp (L + 24) fuel = some r ∧
      (∀ i ∈ r.lookups, i < 24 ∧ i ≠ 3 ∧ i ≠ 13) ∧
      r.lookups.length ≤ 22 ∧
      (∀ v ∈ r.invoked.map Prod.fst, 1 ≤ v ∧ v ≤ 24 ∧ v ≠ 4 ∧ v ≠ 14) := by
  refine ⟨⟨level_index L h1 h6, ?_⟩, ?_⟩
  · have : irq_level_map.length = 6 := by decide
    omega
  obtain ⟨r, hr, hv, hl⟩ := m68k_platform_irq_lookups handlers m inp L fuel h1 h6 hfuel
    (by simpa using hp) (by simpa using he) (by simpa using hA) (by simpa using hB)
    (by simpa using hmA) (by simpa using hmB)
  have hlt := claimed_combined_lt inp.intreqr inp.intenar L inp.cia_a_icr
    m.cia_a_irqs_enabled inp.cia_b_icr m.cia_b_irqs_enabled
  obtain ⟨m3, m13⟩ := claimed_combined_mux_bits inp.intreqr inp.intenar L inp.cia_a_icr
    m.cia_a_irqs_enabled inp.cia_b_icr m.cia_b_irqs_enabled
  generalize claimed_combined inp.intreqr inp.intenar L inp.cia_a_icr
    m.cia_a_irqs_enabled inp.cia_b_icr m.cia_b_irqs_enabled = C at hv hl hlt m3 m13
  have hbit : ∀ i, C.testBit i = true → i < 24 ∧ i ≠ 3 ∧ i ≠ 13 := by
    intro i hi
    refine ⟨?_, ?_, ?_⟩
    · by_contra hge
      have : C.testBit i = false := by
        apply Nat.testBit_lt_two_pow
        exact lt_of_lt_of_le hlt (Nat.pow_le_pow_right (by decide) (by omega))
      rw [this] at hi
      exact absurd hi (by simp)
    · rintro rfl
      rw [m3] at hi
      exact absurd hi (by simp)
    · rintro rfl
      rw [m13] at hi
      exact absurd hi (by simp)
  refine ⟨r, hr, ?_, ?_, ?_⟩
  · intro i hi
    rw [hl, List.mem_filter] at hi
    exact hbit i hi.2
  · have hcongr : (List.range' 0 32).filter (fun i => C.testBit i) =
        ((List.range' 0 32).filter
          (fun i => decide (i < 24) && (decide (i ≠ 3) && decide (i ≠ 13)))).filter
          (fun i => C.testBit i) := by
      rw [List.filter_filter]
      apply List.filter_congr
      intro x _
      by_cases hx : C.testBit x = true
      · obtain ⟨a, b, c⟩ := hbit x hx
        simp [hx, a, b, c]
      · simp [hx]
    rw [hl, hcongr]
    refine le_trans (List.length_filter_le _ _) ?_
    decide
  · intro v hvm
    rw [hv] at hvm
    obtain ⟨a, b, c, _⟩ := ((claimed_vectors_props handlers C).2 v).1 hvm
    obtain ⟨_, n3, n13⟩ := hbit (v - 1) c
    exact ⟨a, b, by omega, by omega⟩

/-- C20 witness: at CPU level 2 with lines 3, 4 and 14 pending and enabled and both
peripherals asserting source 1, the handler array is read at indices 2, 15 and 20. -/
theorem C20_dispatch_table_accesses_in_bounds_witness :
    ((u32 (u32 (u8 (2 + 24) + 4294967296 - 24) + 4294967295) = 2 - 1 ∧
        2 - 1 < irq_level_map.length) ∧
      ∃ r, m68k_platform_irq handlers_sample machine_sample inputs_sample (2 + 24) 32
          = some r ∧
        (∀ i ∈ r.lookups, i < 24 ∧ i ≠ 3 ∧ i ≠ 13) ∧
        r.lookups.length ≤ 22 ∧
        (∀ v ∈ r.invoked.map Prod.fst, 1 ≤ v ∧ v ≤ 24 ∧ v ≠ 4 ∧ v ≠ 14)) ∧
    (m68k_platform_irq handlers_sample machine_sample inputs_sample (2 + 24) 32).map
      (fun r => r.lookups) = some [2, 15, 20] :=
  ⟨C20_dispatch_table_accesses_in_bounds handlers_sample machine_sample inputs_sample 2 32
    (by decide) (by decide) (by decide) (by decide) (by decide) (by decide) (by decide)
    (by decide) (by decide), by decide⟩

/-! ## C19: the 50 Hz candidate wins whenever it is in band -/

/-- The five branches of the frequency selection, on the candidates the code computes
(products reduced modulo 2^64); the returned value is the selected candidate itself, the
narrowing to 32 bits does not change it. -/
theorem calculate_eclock_select_cases (T : Nat) (hT : T < 18446744073709551616) :
    ((650000 ≤ T * 50 % 18446744073709551616 / 128 ∧
        T * 50 % 18446744073709551616 / 128 ≤ 780000) ∧
      (650000 ≤ T * 60 % 18446744073709551616 / 128 ∧
        T * 60 % 18446744073709551616 / 128 ≤ 780000) ∧
      (((if T * 50 % 18446744073709551616 / 128 > 709379
            then T * 50 % 18446744073709551616 / 128 - 709379
            else 709379 - T * 50 % 18446744073709551616 / 128) ≤
          (if T * 60 % 18446744073709551616 / 128 > 715909
            then T * 60 % 18446744073709551616 / 128 - 715909
            else 715909 - T * 60 % 18446744073709551616 / 128) ∧
          calculate_eclock_select T = T * 50 % 18446744073709551616 / 128) ∨
        (¬ (if T * 50 % 18446744073709551616 / 128 > 709379
            then T * 50 % 18446744073709551616 / 128 - 709379
            else 709379 - T * 50 % 18446744073709551616 / 128) ≤
          (if T * 60 % 18446744073709551616 / 128 > 715909
            then T * 60 % 18446744073709551616 / 128 - 715909
            else 715909 - T * 60 % 18446744073709551616 / 128) ∧
          calculate_eclock_select T = T * 60 % 18446744073709551616 / 128))) ∨
    ((650000 ≤ T * 50 % 18446744073709551616 / 128 ∧
        T * 50 % 18446744073709551616 / 128 ≤ 780000) ∧
      ¬ (650000 ≤ T * 60 % 18446744073709551616 / 128 ∧
        T * 60 % 18446744073709551616 / 128 ≤ 780000) ∧
      calculate_eclock_select T = T * 50 % 18446744073709551616 / 128) ∨
    (¬ (650000 ≤ T * 50 % 18446744073709551616 / 128 ∧
        T * 50 % 18446744073709551616 / 128 ≤ 780000) ∧
      (650000 ≤ T * 60 % 18446744073709551616 / 128 ∧
        T * 60 % 18446744073709551616 / 128 ≤ 780000) ∧
      calculate_eclock_select T = T * 60 % 18446744073709551616 / 128) ∨
    (¬ (650000 ≤ T * 50 % 18446744073709551616 / 128 ∧
        T * 50 % 18446744073709551616 / 128 ≤ 780000) ∧
      ¬ (650000 ≤ T * 60 % 18446744073709551616 / 128 ∧
        T * 60 % 18446744073709551616 / 128 ≤ 780000) ∧
      calculate_eclock_select T = 709379) := by
  have hu : T % 18446744073709551616 = T := Nat.mod_eq_of_lt hT
  simp only [calculate_eclock_select, u64, hu, u32]
  generalize T * 50 % 18446744073709551616 / 128 = pal
  generalize T * 60 % 18446744073709551616 / 128 = ntsc
  by_cases a : 650000 ≤ pal ∧ pal ≤ 780000 <;>
  by_cases b : 650000 ≤ ntsc ∧ ntsc ≤ 780000
  · left
    refine ⟨a, b, ?_⟩
    simp only [ge_iff_le, a.1, a.2, b.1, b.2, decide_True, Bool.and_self, if_true]
    by_cases hd : (if pal > 709379 then pal - 709379 else 709379 - pal) ≤
        (if ntsc > 715909 then ntsc - 715909 else 715909 - ntsc)
    · left
      refine ⟨hd, ?_⟩
      rw [if_pos hd]
      omega
    · right
      refine ⟨hd, ?_⟩
      rw [if_neg hd]
      omega
  · right; left
    refine ⟨a, b, ?_⟩
    have hb : (decide (ntsc ≥ 650000) && decide (ntsc ≤ 780000)) = false := by
      simp only [ge_iff_le, Bool.and_eq_false_iff, decide_eq_false_iff_not]
      omega
    simp only [ge_iff_le, a.1, a.2, decide_True, Bool.and_self, hb, Bool.and_false, if_true]
    simp
    omega
  · right; right; left
    refine ⟨a, b, ?_⟩
    have ha : (decide (pal ≥ 650000) && decide (pal ≤ 780000)) = false := by
      simp only [ge_iff_le, Bool.and_eq_false_iff, decide_eq_false_iff_not]
      omega
    simp only [ge_iff_le, b.1, b.2, decide_True, Bool.and_self, ha, Bool.false_and, if_true]
    simp
    omega
  · right; right; right
    refine ⟨a, b, ?_⟩
    have ha : (decide (pal ≥ 650000) && decide (pal ≤ 780000)) = false := by
      simp only [ge_iff_le, Bool.and_eq_false_iff, decide_eq_false_iff_not]
      omega
    have hb : (decide (ntsc ≥ 650000) && decide (ntsc ≤ 780000)) = false := by
      simp only [ge_iff_le, Bool.and_eq_false_iff, decide_eq_false_iff_not]
      omega
    simp [ha, hb]

/-- When both candidates of the code lie in the band they are 650000 and 780000: the
products satisfy 6 * (T*50) = 5 * (T*60), also modulo 2^64 within the band. -/
theorem candidates_both_in_band (T : Nat)
    (a : 650000 ≤ T * 50 % 18446744073709551616 / 128 ∧
      T * 50 % 18446744073709551616 / 128 ≤ 780000)
    (b : 650000 ≤ T * 60 % 18446744073709551616 / 128 ∧
      T * 60 % 18446744073709551616 / 128 ≤ 780000) :
    T * 50 % 18446744073709551616 / 128 = 650000 ∧
      T * 60 % 18446744073709551616 / 128 = 780000 := by
  have h1 := Nat.div_add_mod (T * 50) 18446744073709551616
  have h2 := Nat.div_add_mod (T * 60) 18446744073709551616
  generalize T * 50 % 18446744073709551616 = x at a h1 ⊢
  generalize T * 60 % 18446744073709551616 = y at b h2 ⊢
  generalize T * 50 / 18446744073709551616 = q1 at h1
  generalize T * 60 / 18446744073709551616 = q2 at h2
  have hx1 : 83200000 ≤ x := by omega
  have hx2 : x ≤ 99840127 := by omega
  have hy1 : 83200000 ≤ y := by omega
  have hy2 : y ≤ 99840127 := by omega
  have hk : 6 * q1 = 5 * q2 := by omega
  have hxy : 6 * x = 5 * y := by omega
  omega

/-- C19: for every 64-bit total T, whenever the 50 Hz candidate floor(T*50/128) lies in
[650000,780000], `calculate_eclock` returns it; both candidates floor(T*50/128) and
floor(T*60/128) lie in the band only when they are exactly 650000 and 780000, where the
50 Hz one is the closer to its nominal (59379 against 64091); hence the 60 Hz candidate is
returned only when the 50 Hz candidate is out of band. The same holds of the candidates the
code forms with 64-bit products. -/
theorem C19_pal_candidate_wins_in_band (T : Nat) (hT : T < 2 ^ 64) :
    ((650000 ≤ T * 50 / 128 ∧ T * 50 / 128 ≤ 780000) →
      calculate_eclock_select T = T * 50 / 128) ∧
    (((650000 ≤ T * 50 / 128 ∧ T * 50 / 128 ≤ 780000) ∧
        (650000 ≤ T * 60 / 128 ∧ T * 60 / 128 ≤ 780000)) →
      T * 50 / 128 = 650000 ∧ T * 60 / 128 = 780000) ∧
    (|(650000 : Int) - 709379| = 59379 ∧ |(780000 : Int) - 715909| = 64091) ∧
    ((calculate_eclock_select T = T * 60 / 128 ∧
        (650000 ≤ T * 60 / 128 ∧ T * 60 / 128 ≤ 780000)) →
      ¬ (650000 ≤ T * 50 / 128 ∧ T * 50 / 128 ≤ 780000)) ∧
    ((650000 ≤ T * 50 % 2 ^ 64 / 128 ∧ T * 50 % 2 ^ 64 / 128 ≤ 780000) →
      calculate_eclock_select T = T * 50 % 2 ^ 64 / 128) ∧
    (((650000 ≤ T * 50 % 2 ^ 64 / 128 ∧ T * 50 % 2 ^ 64 / 128 ≤ 780000) ∧
        (650000 ≤ T * 60 % 2 ^ 64 / 128 ∧ T * 60 % 2 ^ 64 / 128 ≤ 780000)) →
      T * 50 % 2 ^ 64 / 128 = 650000 ∧ T * 60 % 2 ^ 64 / 128 = 780000) := by
  have e64 : (2 : Nat) ^ 64 = 18446744073709551616 := by norm_num
  simp only [e64] at *
  have hcases := calculate_eclock_select_cases T hT
  -- both candidates of the code in band: they are 650000 and 780000
  have hboth : (650000 ≤ T * 50 % 18446744073709551616 / 128 ∧
        T * 50 % 18446744073709551616 / 128 ≤ 780000) →
      (650000 ≤ T * 60 % 18446744073709551616 / 128 ∧
        T * 60 % 18446744073709551616 / 128 ≤ 780000) →
      T * 50 % 18446744073709551616 / 128 = 650000 ∧
        T * 60 % 18446744073709551616 / 128 = 780000 := by
    intro a b
    exact candidates_both_in_band T a b
  -- on the candidates of the code, an in-band 50 Hz candidate is returned
  have hpal : (650000 ≤ T * 50 % 18446744073709551616 / 128 ∧
        T * 50 % 18446744073709551616 / 128 ≤ 780000) →
      calculate_eclock_select T = T * 50 % 18446744073709551616 / 128 := by
    intro a
    rcases hcases with ⟨_, b, h | h⟩ | ⟨_, _, h⟩ | ⟨na, _, _⟩ | ⟨na, _, _⟩
    · exact h.2
    · obtain ⟨p1, p2⟩ := hboth a b
      exfalso
      apply h.1
      rw [p1, p2]
      decide
    · exact h
    · exact absurd a na
    · exact absurd a na
  -- an in-band unwrapped 50 Hz candidate means no product wrapped
  have hsmall : (650000 ≤ T * 50 / 128 ∧ T * 50 / 128 ≤ 780000) →
      T * 50 % 18446744073709551616 = T * 50 ∧ T * 60 % 18446744073709551616 = T * 60 := by
    intro a
    constructor <;> apply Nat.mod_eq_of_lt <;> omega
  refine ⟨?_, ?_, ?_, ?_, hpal, fun h => hboth h.1 h.2⟩
  · intro a
    obtain ⟨w1, _⟩ := hsmall a
    have := hpal (by rw [w1]; exact a)
    rw [w1] at this
    exact this
  · rintro ⟨a, b⟩
    obtain ⟨w1, w2⟩ := hsmall a
    have := hboth (by rw [w1]; exact a) (by rw [w2]; exact b)
    rw [w1, w2] at this
    exact this
  · constructor <;> norm_num
  · rintro ⟨hsel, b⟩ a
    obtain ⟨w1, w2⟩ := hsmall a
    have h1 := hpal (by rw [w1]; exact a)
    have h2 := hboth (by rw [w1]; exact a) (by rw [w2]; exact b)
    rw [w1] at h1
    rw [w1, w2] at h2
    omega

/-- C19 witness: at T = 1664000 both candidates are in band (650000 and 780000) and the
50 Hz one is returned. -/
theorem C19_pal_candidate_wins_in_band_witness :
    calculate_eclock_select 1664000 = 1664000 * 50 / 128 ∧
    (1664000 * 50 / 128 = 650000 ∧ 1664000 * 60 / 128 = 780000) :=
  ⟨(C19_pal_candidate_wins_in_band 1664000 (by decide)).1 (by decide),
   (C19_pal_candidate_wins_in_band 1664000 (by decide)).2.1 (by decide)⟩

/-! ## C14: what the calibration loop accumulates -/

set_option maxRecDepth 1000000 in
/-- C14 (evaluation of the code at the failing input): the counter reads 5 before the loop,
65530 at the first pass (a wrap through zero, 11 ticks later) and 10 less at each further
pass, the time-of-day register changing at every pass. The loop exits after 128 passes with
128 changes seen, but with the total 18446744073709487361 = 2^64 - 64255, the 64-bit image
of 5 - 64260, while the per-sample deltas modulo 2^16 add up to 1281; the frequency
returned is then the fallback 709379. -/
theorem C14_calibration_adds_signed_deltas :
    (calculate_eclock cal_first_sample cal_reads_sample 128 machine_reset).map
        (fun r => (r.1, r.2.tick_accum, r.2.seen_ticks, r.2.passes)) =
      some (709379, 18446744073709487361, 128, 128) ∧
    elapsed_ticks 5 ((List.range 128).map (fun i => 65530 - 10 * i)) = 1281 ∧
    (18446744073709487361 : Nat) = 2 ^ 64 - 64255 := by
  decide!

/-- The calibration loop only ever leaves with the invariant "accumulated total plus last
sample" unchanged modulo 2^64: the signed deltas telescope, so the total at exit is the
64-bit image of (sample before the loop) - (last sample), whatever happened in between. -/
theorem calculate_eclock_loop_telescopes {σ : Type} (reads : Nat → CalReads) :
    ∀ (fuel : Nat) (st st2 : CalState σ), st.last_ta_tick < 65536 →
      calculate_eclock_loop reads fuel st = some st2 →
      (st2.tick_accum + st2.last_ta_tick) % 18446744073709551616 =
        (st.tick_accum + st.last_ta_tick) % 18446744073709551616 ∧
      st2.last_ta_tick < 65536 ∧ ¬ st2.seen_ticks < 128 := by
  intro fuel
  induction fuel with
  | zero =>
    intro st st2 hl h
    rw [calculate_eclock_loop] at h
    by_cases hs : st.seen_ticks < 128
    · simp [hs] at h
    · simp only [hs, if_false, Option.some.injEq] at h
      subst h
      exact ⟨rfl, hl, hs⟩
  | succ fuel ih =>
    intro st st2 hl h
    rw [calculate_eclock_loop] at h
    by_cases hs : st.seen_ticks < 128
    · simp only [hs, if_true] at h
      have hnow := (get_ta_tick_value st.machine st.machine (reads st.passes).ta).2
      obtain ⟨i1, i2, i3⟩ := ih _ st2 hnow h
      refine ⟨?_, i2, i3⟩
      rw [i1]
      simp only [u64]
      generalize (get_ta_tick st.machine (reads st.passes).ta).1 = now at hnow
      omega
    · simp only [hs, if_false, Option.some.injEq] at h
      subst h
      exact ⟨rfl, hl, hs⟩

/-! ## C6: frequency selection of the calibration -/

/-- The total the calibration loop accumulates stays a 64-bit value. -/
theorem calculate_eclock_loop_total_lt {σ : Type} (reads : Nat → CalReads) :
    ∀ (fuel : Nat) (st st2 : CalState σ), st.tick_accum < 18446744073709551616 →
      calculate_eclock_loop reads fuel st = some st2 →
      st2.tick_accum < 18446744073709551616 := by
  intro fuel
  induction fuel with
  | zero =>
    intro st st2 hl h
    rw [calculate_eclock_loop] at h
    by_cases hs : st.seen_ticks < 128
    · simp [hs] at h
    · simp only [hs, if_false, Option.some.injEq] at h
      subst h
      exact hl
  | succ fuel ih =>
    intro st st2 hl h
    rw [calculate_eclock_loop] at h
    by_cases hs : st.seen_ticks < 128
    · simp only [hs, if_true] at h
      exact ih _ st2 (by simp only [u64]; exact Nat.mod_lt _ (by decide)) h
    · simp only [hs, if_false, Option.some.injEq] at h
      subst h
      exact hl

/-- Every completed `calculate_eclock` returns the frequency selected from the total its
loop left, and that total is the 64-bit image of (sample before the loop) - (last sample):
it is below 65536, or at least 2^64 - 65535. -/
theorem calculate_eclock_total {σ : Type} (first : CalReads) (reads : Nat → CalReads)
    (fuel : Nat) (m : Machine σ) (r : Nat × CalState σ)
    (h : calculate_eclock first reads fuel m = some r) :
    r.1 = calculate_eclock_select r.2.tick_accum ∧
    r.2.tick_accum < 18446744073709551616 ∧
    (r.2.tick_accum < 65536 ∨ 18446744073709486081 ≤ r.2.tick_accum) := by
  unfold calculate_eclock at h
  simp only at h
  split at h
  · exact absurd h (by simp)
  · rename_i st hst
    simp only [Option.some.injEq] at h
    have hfirst := (get_ta_tick_value
      (Timer.write_reg (Timer.write_reg (Timer.write_reg (Timer.write_reg
        (Timer.write_reg m CIA_B_CRA 0x00) CIA_B_TAHI 0xFF) CIA_B_TALO 0xFF)
        CIA_B_ICR 0x01) CIA_B_CRA (1 <<< 0)) m first.ta).2
    obtain ⟨t1, t2, _⟩ := calculate_eclock_loop_telescopes reads fuel _ st hfirst hst
    have hlt := calculate_eclock_loop_total_lt reads fuel _ st (by norm_num) hst
    simp only [Nat.zero_add] at t1
    rw [← h]
    refine ⟨rfl, hlt, ?_⟩
    simp only
    generalize (get_ta_tick (Timer.write_reg (Timer.write_reg (Timer.write_reg
      (Timer.write_reg (Timer.write_reg m CIA_B_CRA 0x00) CIA_B_TAHI 0xFF) CIA_B_TALO 0xFF)
      CIA_B_ICR 0x01) CIA_B_CRA (1 <<< 0)) first.ta).1 = f at hfirst t1
    omega

/-- For a total within 65535 below 2^64 all four candidates, the two the code forms with
64-bit products and floor(T*50/128), floor(T*60/128), lie above the band. -/
theorem candidates_of_wrapped_total (T : Nat) (h1 : 18446744073709486081 ≤ T)
    (h2 : T < 18446744073709551616) :
    780000 < T * 50 % 18446744073709551616 / 128 ∧
    780000 < T * 60 % 18446744073709551616 / 128 ∧
    780000 < T * 50 / 128 ∧ 780000 < T * 60 / 128 := by
  have h50 : T * 50 = (T * 50 - 49 * 18446744073709551616) + 18446744073709551616 * 49 := by
    omega
  have h60 : T * 60 = (T * 60 - 59 * 18446744073709551616) + 18446744073709551616 * 59 := by
    omega
  have m50 : T * 50 % 18446744073709551616 = T * 50 - 49 * 18446744073709551616 := by
    rw [h50, Nat.add_mul_mod_self_left, Nat.mod_eq_of_lt (by omega)]
    omega
  have m60 : T * 60 % 18446744073709551616 = T * 60 - 59 * 18446744073709551616 := by
    rw [h60, Nat.add_mul_mod_self_left, Nat.mod_eq_of_lt (by omega)]
    omega
  rw [m50, m60]
  refine ⟨?_, ?_, ?_, ?_⟩ <;> omega

/-- C6: for every accumulated total T whose products T*50 and T*60 fit 64 bits, and for
every total within 65535 below 2^64, with pal = floor(T*50/128) and ntsc = floor(T*60/128),
`calculate_eclock` selects pal when both candidates lie in [650000,780000] and
|pal-709379| <= |ntsc-715909|, ntsc when both lie in the band and ntsc is strictly closer,
the single in-band candidate when exactly one lies in the band, and the constant 709379
when neither does; for T = 1816000 the candidates are 709375 (in band) and 851250 (out of
band) and the selected frequency is 709375; and every completed `calculate_eclock` returns
the frequency selected from the total its loop accumulated, which is always one of the
totals covered here (the signed deltas telescope, so the total is below 65536 or at least
2^64 - 65535). -/
theorem C6_calculate_eclock_selects_by_rule (T : Nat)
    (hT : T * 60 < 2 ^ 64 ∨ (2 ^ 64 - 65535 ≤ T ∧ T < 2 ^ 64)) :
    (((650000 ≤ T * 50 / 128 ∧ T * 50 / 128 ≤ 780000) ∧
        (650000 ≤ T * 60 / 128 ∧ T * 60 / 128 ≤ 780000) ∧
        |((T * 50 / 128 : Nat) : Int) - 709379| ≤ |((T * 60 / 128 : Nat) : Int) - 715909|) →
      calculate_eclock_select T = T * 50 / 128) ∧
    (((650000 ≤ T * 50 / 128 ∧ T * 50 / 128 ≤ 780000) ∧
        (650000 ≤ T * 60 / 128 ∧ T * 60 / 128 ≤ 780000) ∧
        |((T * 60 / 128 : Nat) : Int) - 715909| < |((T * 50 / 128 : Nat) : Int) - 709379|) →
      calculate_eclock_select T = T * 60 / 128) ∧
    (((650000 ≤ T * 50 / 128 ∧ T * 50 / 128 ≤ 780000) ∧
        ¬ (650000 ≤ T * 60 / 128 ∧ T * 60 / 128 ≤ 780000)) →
      calculate_eclock_select T = T * 50 / 128) ∧
    ((¬ (650000 ≤ T * 50 / 128 ∧ T * 50 / 128 ≤ 780000) ∧
        (650000 ≤ T * 60 / 128 ∧ T * 60 / 128 ≤ 780000)) →
      calculate_eclock_select T = T * 60 / 128) ∧
    ((¬ (650000 ≤ T * 50 / 128 ∧ T * 50 / 128 ≤ 780000) ∧
        ¬ (650000 ≤ T * 60 / 128 ∧ T * 60 / 128 ≤ 780000)) →
      calculate_eclock_select T = 709379) ∧
    (1816000 * 50 / 128 = 709375 ∧ 1816000 * 60 / 128 = 851250 ∧
      (650000 ≤ 709375 ∧ 709375 ≤ 780000) ∧ ¬ (650000 ≤ 851250 ∧ 851250 ≤ 780000) ∧
      calculate_eclock_select 1816000 = 709375) ∧
    (∀ (σ : Type) (first : CalReads) (reads : Nat → CalReads) (fuel : Nat) (m : Machine σ)
        (r : Nat × CalState σ), calculate_eclock first reads fuel m = some r →
      r.1 = calculate_eclock_select r.2.tick_accum ∧
      (r.2.tick_accum * 60 < 2 ^ 64 ∨
        (2 ^ 64 - 65535 ≤ r.2.tick_accum ∧ r.2.tick_accum < 2 ^ 64))) := by
  have e64 : (2 : Nat) ^ 64 = 18446744073709551616 := by norm_num
  have hlt : T < 2 ^ 64 := by
    rw [e64] at hT ⊢
    omega
  have hr := calculate_eclock_select_rule T hlt
  simp only [e64] at hr hT ⊢
  have hruns : ∀ (σ : Type) (first : CalReads) (reads : Nat → CalReads) (fuel : Nat)
      (m : Machine σ) (r : Nat × CalState σ), calculate_eclock first reads fuel m = some r →
      r.1 = calculate_eclock_select r.2.tick_accum ∧
      (r.2.tick_accum * 60 < 18446744073709551616 ∨
        (18446744073709551616 - 65535 ≤ r.2.tick_accum ∧
          r.2.tick_accum < 18446744073709551616)) := by
    intro σ first reads fuel m r h
    obtain ⟨c1, c2, c3⟩ := calculate_eclock_total first reads fuel m r h
    refine ⟨c1, ?_⟩
    omega
  rcases hT with h60 | ⟨h1, h2⟩
  · obtain ⟨hp, hn⟩ := hr.2.2.2.2.2.1 h60
    rw [hp, hn] at hr
    exact ⟨hr.1, hr.2.1, hr.2.2.1, hr.2.2.2.1, hr.2.2.2.2.1, by decide, hruns⟩
  · obtain ⟨w1, w2, v1, v2⟩ := candidates_of_wrapped_total T (by omega) h2
    refine ⟨?_, ?_, ?_, ?_, ?_, by decide, hruns⟩
    · rintro ⟨⟨_, a2⟩, _⟩
      omega
    · rintro ⟨⟨_, a2⟩, _⟩
      omega
    · rintro ⟨⟨_, a2⟩, _⟩
      omega
    · rintro ⟨_, ⟨_, b2⟩⟩
      omega
    · intro _
      exact hr.2.2.2.2.1 ⟨by omega, by omega⟩

/-- C6 witness: the rule at T = 1816000, where only the 50 Hz candidate is in band; at
T = 2^64 - 64255, where neither is; and on the sample calibration run, whose total is
covered by the rule. -/
theorem C6_calculate_eclock_selects_by_rule_witness :
    calculate_eclock_select 1816000 = 1816000 * 50 / 128 ∧
    calculate_eclock_select 18446744073709487361 = 709379 ∧
    (∃ r, calculate_eclock cal_first_sample cal_reads_sample 128 machine_reset = some r ∧
      r.1 = calculate_eclock_select r.2.tick_accum ∧
      (r.2.tick_accum * 60 < 2 ^ 64 ∨
        (2 ^ 64 - 65535 ≤ r.2.tick_accum ∧ r.2.tick_accum < 2 ^ 64))) :=
  ⟨(C6_calculate_eclock_selects_by_rule 1816000 (Or.inl (by decide))).2.2.1 (by decide),
   (C6_calculate_eclock_selects_by_rule 18446744073709487361
      (Or.inr (by decide))).2.2.2.2.1 (by decide),
   (Option.isSome_iff_exists.1
      (by decide! : (calculate_eclock cal_first_sample cal_reads_sample 128
        machine_reset).isSome = true)).elim
     (fun r hr => ⟨r, hr, (C6_calculate_eclock_selects_by_rule 1816000
       (Or.inl (by decide))).2.2.2.2.2.2 Unit cal_first_sample cal_reads_sample 128
       machine_reset r hr⟩)⟩

/-! ## C18: the calibrated frequency is in band -/

/-- Whatever the accumulated total, the selected frequency lies in [650000,780000]. -/
theorem calculate_eclock_select_band (T : Nat) :
    650000 ≤ calculate_eclock_select T ∧ calculate_eclock_select T ≤ 780000 := by
  have hmod : calculate_eclock_select T = calculate_eclock_select (T % 18446744073709551616) := by
    simp only [calculate_eclock_select, u64, Nat.mod_mod]
  rw [hmod]
  have hlt : T % 18446744073709551616 < 18446744073709551616 := Nat.mod_lt _ (by decide)
  rcases calculate_eclock_select_cases _ hlt with
    ⟨a, b, h | h⟩ | ⟨a, _, h⟩ | ⟨_, b, h⟩ | ⟨_, _, h⟩
  · rw [h.2]; exact a
  · rw [h.2]; exact b
  · rw [h]; exact a
  · rw [h]; exact b
  · rw [h]; decide

/-- C18: for every 64-bit accumulated total T the frequency `calculate_eclock` selects lies
in [650000,780000], is not 0, and is one of the two 64-bit candidates or the constant
709379 (the narrowing to 32 bits leaves it unchanged); hence whenever `cia_timer_init`
completes, the `eclock_hz` it has stored lies in the band and the divisor of
`current_time_hires` is not 0. -/
theorem C18_calibrated_frequency_in_band (T : Nat) (hT : T < 2 ^ 64) :
    (650000 ≤ calculate_eclock_select T ∧ calculate_eclock_select T ≤ 780000) ∧
    calculate_eclock_select T ≠ 0 ∧
    (calculate_eclock_select T = T * 50 % 2 ^ 64 / 128 ∨
      calculate_eclock_select T = T * 60 % 2 ^ 64 / 128 ∨
      calculate_eclock_select T = 709379) ∧
    (∀ (κ σ : Type) (timer_irq : int_handler σ) (handlers : HandlerTable σ)
        (g : TimerGlobals κ) (m : Machine σ) (first : CalReads) (reads : Nat → CalReads)
        (ta0 : TaReads) (fuel : Nat) (r : HandlerTable σ × TimerGlobals κ × Machine σ),
      cia_timer_init timer_irq handlers g m first reads ta0 fuel = some r →
        650000 ≤ r.2.1.eclock_hz ∧ r.2.1.eclock_hz ≤ 780000 ∧ u32 r.2.1.eclock_hz ≠ 0) := by
  have e64 : (2 : Nat) ^ 64 = 18446744073709551616 := by norm_num
  simp only [e64] at *
  have hband := calculate_eclock_select_band T
  refine ⟨hband, by omega, ?_, ?_⟩
  · rcases calculate_eclock_select_cases T hT with
      ⟨_, _, h | h⟩ | ⟨_, _, h⟩ | ⟨_, _, h⟩ | ⟨_, _, h⟩
    · exact Or.inl h.2
    · exact Or.inr (Or.inl h.2)
    · exact Or.inl h
    · exact Or.inr (Or.inl h)
    · exact Or.inr (Or.inr h)
  · intro κ σ timer_irq handlers g m first reads ta0 fuel r hr
    unfold cia_timer_init at hr
    cases hc : calculate_eclock first reads fuel m with
    | none => simp [hc] at hr
    | some c =>
      simp only [hc, Option.some.injEq] at hr
      have hhz : r.2.1.eclock_hz = c.1 := by rw [← hr]
      have hsel : ∃ T2, c.1 = calculate_eclock_select T2 := by
        unfold calculate_eclock at hc
        simp only at hc
        split at hc
        · exact absurd hc (by simp)
        · simp only [Option.some.injEq] at hc
          exact ⟨_, by rw [← hc]⟩
      obtain ⟨T2, hT2⟩ := hsel
      have hb2 := calculate_eclock_select_band T2
      rw [hhz, hT2]
      refine ⟨hb2.1, hb2.2, ?_⟩
      simp only [u32]
      omega

/-- C18 witness: the total 1816000 gives 709375, and on the sample calibration reads
`cia_timer_init` completes with `eclock_hz` in band. -/
theorem C18_calibrated_frequency_in_band_witness :
    ((650000 ≤ calculate_eclock_select 1816000 ∧ calculate_eclock_select 1816000 ≤ 780000) ∧
      calculate_eclock_select 1816000 ≠ 0) ∧
    (∃ r, cia_timer_init handler_quiet handlers_reset (timer_globals 0 0 0) machine_reset
        cal_first_sample cal_reads_sample (ta_reads 65535) 128 = some r ∧
      650000 ≤ r.2.1.eclock_hz ∧ r.2.1.eclock_hz ≤ 780000 ∧ u32 r.2.1.eclock_hz ≠ 0) :=
  ⟨⟨(C18_calibrated_frequency_in_band 1816000 (by decide)).1,
    (C18_calibrated_frequency_in_band 1816000 (by decide)).2.1⟩,
   (Option.isSome_iff_exists.1
      (by decide! : (cia_timer_init handler_quiet handlers_reset (timer_globals 0 0 0)
        machine_reset cal_first_sample cal_reads_sample (ta_reads 65535) 128).isSome
          = true)).elim
     (fun r hr => ⟨r, hr, (C18_calibrated_frequency_in_band 1816000 (by decide)).2.2.2
       Unit Unit handler_quiet handlers_reset (timer_globals 0 0 0) machine_reset
       cal_first_sample cal_reads_sample (ta_reads 65535) 128 r hr⟩)⟩

/-! ## C16: the receive interrupt handler -/

/-- C16 (the claim as stated fails on a full ring): with the RX ring full (two bytes,
capacity two) and the register reading 0x4041 (receive-full set, byte 0x41),
`uart_irq_rx_handler` returns INT_RESCHEDULE although no byte was delivered: the ring still
holds its two bytes. -/
theorem C16_reschedule_on_full_ring_counterexample :
    (0x4041 : Nat).testBit 14 = true ∧
    platform_machine_sample.world.rx_buf.data = [0x31, 0x32] ∧
    platform_machine_sample.world.rx_buf.capacity = 2 ∧
    (uart_irq_rx_handler 0x4041 0 platform_machine_sample).1 =
      handler_return.INT_RESCHEDULE ∧
    (uart_irq_rx_handler 0x4041 0 platform_machine_sample).2.world.rx_buf.data =
      [0x31, 0x32] := by
  decide

/-- C16 (amended): for every 16-bit value r read from the receive data/status register and
every ring state, `uart_irq_rx_handler` returns INT_RESCHEDULE if and only if bit 14 of r
is set; when it is set and the ring has room, exactly one byte, the low 8 bits of r, is
appended to the ring; when it is set and the ring is full the ring is unchanged (and
INT_RESCHEDULE is still returned); when it is clear the ring is unchanged. In every case the
handler stores 0x0800 to the pending-clear register (vector 12). -/
theorem C16_uart_irq_rx_handler_delivers {κ : Type} (r arg : Nat)
    (m : Machine (PlatformGlobals κ)) (hr : r < 2 ^ 16) :
    ((uart_irq_rx_handler r arg m).1 = handler_return.INT_RESCHEDULE ↔ r.testBit 14 = true) ∧
    ((uart_irq_rx_handler r arg m).1 = handler_return.INT_NO_RESCHEDULE ↔
      r.testBit 14 = false) ∧
    (r.testBit 14 = true → m.world.rx_buf.data.length < m.world.rx_buf.capacity →
      (uart_irq_rx_handler r arg m).2.world.rx_buf.data = m.world.rx_buf.data ++ [r % 256]) ∧
    (r.testBit 14 = true → ¬ m.world.rx_buf.data.length < m.world.rx_buf.capacity →
      (uart_irq_rx_handler r arg m).2.world.rx_buf = m.world.rx_buf) ∧
    (r.testBit 14 = false →
      (uart_irq_rx_handler r arg m).2.world.rx_buf = m.world.rx_buf) ∧
    (uart_irq_rx_handler r arg m).2.writes = m.writes ++ [(paula_reg INTREQ, 0x0800)] := by
  have e16 : u16 r = r := Nat.mod_eq_of_lt (by simpa using hr)
  have hbit : r &&& RBF_STATUS > 0 ↔ r.testBit 14 = true := by
    rw [show RBF_STATUS = 2 ^ 14 by decide, ← and_two_pow_ne_zero_iff]
    omega
  have hlow : u8 (u8 (r &&& 0xFF)) = r % 256 := by
    have : r &&& 0xFF = r % 256 := Nat.and_pow_two_sub_one_eq_mod r 8
    simp only [u8, this, Nat.mod_mod]
  have hclr : u16 (u16 (1 <<< u32 (12 + 4294967295))) = 0x0800 := by decide
  by_cases hb : r.testBit 14 = true
  · have hpos : r &&& RBF_STATUS > 0 := hbit.2 hb
    by_cases hroom : m.world.rx_buf.data.length < m.world.rx_buf.capacity
    · simp [uart_irq_rx_handler, e16, hpos, hb, hroom, cbuf_write_char, clear_interrupt,
        Platform.write_reg, Machine.write, Machine.read, hclr, hlow]
    · simp [uart_irq_rx_handler, e16, hpos, hb, hroom, cbuf_write_char, clear_interrupt,
        Platform.write_reg, Machine.write, Machine.read, hclr]
  · have hneg : ¬ r &&& RBF_STATUS > 0 := fun h => hb (hbit.1 h)
    have hb2 : r.testBit 14 = false := by simpa using hb
    simp [uart_irq_rx_handler, e16, hneg, hb2, clear_interrupt, Platform.write_reg,
      Machine.write, Machine.read, hclr]

/-- C16 witness: with room in the ring, the value 0x4041 appends the byte 0x41 and requests
a reschedule. -/
theorem C16_uart_irq_rx_handler_delivers_witness :
    ((uart_irq_rx_handler 0x4041 0
        { platform_machine_sample with
          world := { globals_sample with rx_buf := { data := [0x31], capacity := 2 } } }).1
      = handler_return.INT_RESCHEDULE ↔ (0x4041 : Nat).testBit 14 = true) ∧
    (uart_irq_rx_handler 0x4041 0
        { platform_machine_sample with
          world := { globals_sample with rx_buf := { data := [0x31], capacity := 2 } } }
      ).2.world.rx_buf.data = [0x31, 0x41] :=
  ⟨(C16_uart_irq_rx_handler_delivers 0x4041 0
      { platform_machine_sample with
        world := { globals_sample with rx_buf := { data := [0x31], capacity := 2 } } }
      (by decide)).1,
   (C16_uart_irq_rx_handler_delivers 0x4041 0
      { platform_machine_sample with
        world := { globals_sample with rx_buf := { data := [0x31], capacity := 2 } } }
      (by decide)).2.2.1 (by decide) (by decide)⟩

/-! ## C17: loads of the read-clear status registers during one dispatch call -/

/-- C17 (evaluation of the code at the failing input): at CPU level 6 with line 14 pending
and enabled, peripheral B's status reading 0x82 and source 1 enabled in shadow mask B, the
dispatcher loads peripheral B's status register and then invokes `cia_timer_irq` on vector
21, which loads the same register again: two loads within one call (followed by the loads
of the counter for `current_time`). Peripheral A's status register is not loaded. -/
theorem C17_timer_handler_rereads_status :
    (m68k_platform_irq handlers_platform platform_machine_armed
        { intreqr := 0x2000, intenar := 0x2000, cia_a_icr := 0, cia_b_icr := 0x82 }
        (6 + 24) 32).map
      (fun r => (r.invoked, r.machine.reads,
        r.machine.reads.count (Reg.cia_b CIA_B_ICR),
        r.machine.reads.count (Reg.cia_a CIA_A_ICR))) =
    some ([(21, handler_return.INT_RESCHEDULE)],
      [paula_reg INTREQR, paula_reg INTENAR, Reg.cia_b CIA_B_ICR, Reg.cia_b CIA_B_ICR,
        Reg.cia_b CIA_B_TALO, Reg.cia_b CIA_B_TAHI, Reg.cia_b CIA_B_TAHI],
      2, 0) := by
  decide

/-! ## C12: the transmit interrupt is armed exactly while there is work -/

/-- One more logged store changes the enable register only if it is a store to it. -/
theorem paula_intena_append (ena0 : Nat) (ws : List (Reg × Nat)) (r : Reg) (v : Nat) :
    paula_intena ena0 (ws ++ [(r, v)]) =
      if r = paula_reg INTENA then intena_store (paula_intena ena0 ws) v
      else paula_intena ena0 ws := by
  simp only [paula_intena, List.foldl_append, List.foldl_cons, List.foldl_nil]

/-- A store to the serial data register leaves the enable register alone. -/
theorem paula_intena_serdat (ena0 : Nat) (ws : List (Reg × Nat)) (v : Nat) :
    paula_intena ena0 (ws ++ [(paula_reg SERDAT, v)]) = paula_intena ena0 ws := by
  rw [paula_intena_append]
  have : paula_reg SERDAT ≠ paula_reg INTENA := by decide
  simp [this]

/-- Writes of `unmask_interrupt` on vector 1: one enabling store of bit 0 to the primary
enable register; nothing else changes. -/
theorem unmask_interrupt_1 {σ : Type} (m : Machine σ) :
    (unmask_interrupt m 1).2 = { m with writes := m.writes ++ [(paula_reg INTENA, 0x8001)] } := by
  simp [unmask_interrupt, is_valid_irq, is_paula_irq, NUM_IRQS_TOTAL, NUM_IRQS_PAULA,
    Platform.write_reg, Machine.write, u16]

/-- After an enabling store of bit 0, the primary enable register has line 1 enabled. -/
theorem intena_after_unmask_1 (ena0 : Nat) (ws : List (Reg × Nat)) :
    (paula_intena ena0 (ws ++ [(paula_reg INTENA, 0x8001)])).testBit 0 = true := by
  rw [paula_intena_append]
  simp only [if_true]
  generalize paula_intena ena0 ws = X
  have h1 : ((0x8001 : Nat) &&& 0x8000) ≠ 0 := by decide
  have h2 : ((0x8001 : Nat) &&& 0x7FFF) = 1 := by decide
  unfold intena_store
  rw [if_pos h1, h2, Nat.testBit_or]
  have : (1 : Nat).testBit 0 = true := by decide
  simp [this]

/-- Whenever the busy-wait returns, it has changed the load counter and the read log
only. -/
theorem wait_tbe_some {σ : Type} (serdatr : Nat → Nat) :
    ∀ (fuel : Nat) (s s2 : SerialSys σ), wait_tbe serdatr fuel s = some s2 →
      s2.machine.writes = s.machine.writes ∧ s2.g.tx_buf = s.g.tx_buf ∧
      s2.g.tx_active = s.g.tx_active := by
  intro fuel
  induction fuel with
  | zero =>
    intro s s2 h
    simp [wait_tbe] at h
  | succ fuel ih =>
    intro s s2 h
    simp only [wait_tbe] at h
    split_ifs at h
    · obtain ⟨a, b, c⟩ := ih _ s2 h
      exact ⟨a, b, c⟩
    · simp only [Option.some.injEq] at h
      subst h
      exact ⟨rfl, rfl, rfl⟩

/-- Whenever the polled transmission of a byte returns, it has left the enable register,
the queue and the in-flight flag as they were. -/
theorem uart_send_polled_some {σ : Type} (cs : Bool) (serdatr : Nat → Nat) (ena0 fuel : Nat)
    (s s2 : SerialSys σ) (c : Nat) (h : uart_send_polled cs serdatr fuel s c = some s2) :
    paula_intena ena0 s2.machine.writes = paula_intena ena0 s.machine.writes ∧
    s2.g.tx_buf = s.g.tx_buf ∧ s2.g.tx_active = s.g.tx_active := by
  unfold uart_send_polled at h
  cases hw : wait_tbe serdatr fuel s with
  | none => simp [hw] at h
  | some s1 =>
    obtain ⟨a, b, c1⟩ := wait_tbe_some serdatr fuel s s1 hw
    simp only [hw, Option.some.injEq] at h
    subst h
    refine ⟨?_, b, c1⟩
    simp only [Serial.write_reg, Machine.write, a]
    exact paula_intena_serdat ena0 _ _

/-- Whenever the drain loop returns, the queue is empty and the enable register and the
in-flight flag are as they were. -/
theorem uart_drain_some {σ : Type} (cs : Bool) (serdatr : Nat → Nat) (ena0 fuel : Nat) :
    ∀ (k : Nat) (s s2 : SerialSys σ), uart_drain cs serdatr fuel k s = some s2 →
      s2.g.tx_buf.data = [] ∧
      paula_intena ena0 s2.machine.writes = paula_intena ena0 s.machine.writes ∧
      s2.g.tx_active = s.g.tx_active := by
  intro k
  induction k with
  | zero =>
    intro s s2 h
    simp [uart_drain] at h
  | succ k ih =>
    intro s s2 h
    cases hd : s.g.tx_buf.data with
    | nil =>
      simp only [uart_drain, cbuf_read_char, hd, Nat.zero_ne_one, if_false,
        Option.some.injEq] at h
      subst h
      exact ⟨hd, rfl, rfl⟩
    | cons q rest =>
      simp only [uart_drain, cbuf_read_char, hd, if_true] at h
      cases hs : uart_send_polled cs serdatr fuel
          ({ s with g := { s.g with tx_buf := { s.g.tx_buf with data := rest } } } :
            SerialSys σ) q with
      | none => simp [hs] at h
      | some s1 =>
        obtain ⟨a, _, c1⟩ := uart_send_polled_some cs serdatr ena0 fuel _ s1 q hs
        simp only [hs] at h
        obtain ⟨i1, i2, i3⟩ := ih s1 s2 h
        exact ⟨i1, by rw [i2, a], by rw [i3, c1]⟩

/-- Whenever the retry loop of the normal path returns, it has left the machine and the
in-flight flag as they were. -/
theorem uart_retry_some {σ : Type} (c : Nat) :
    ∀ (fuel written : Nat) (s s2 : SerialSys σ), uart_retry c fuel written s = some s2 →
      s2.machine = s.machine ∧ s2.g.tx_active = s.g.tx_active := by
  intro fuel
  induction fuel with
  | zero =>
    intro written s s2 h
    rw [uart_retry] at h
    by_cases hw : written = 0
    · simp [hw] at h
    · simp only [hw, if_false, Option.some.injEq] at h
      subst h
      exact ⟨rfl, rfl⟩
  | succ fuel ih =>
    intro written s s2 h
    rw [uart_retry] at h
    by_cases hw : written = 0
    · simp only [hw, if_true] at h
      obtain ⟨a, b⟩ := ih _ _ s2 h
      exact ⟨a, b⟩
    · simp only [hw, if_false, Option.some.injEq] at h
      subst h
      exact ⟨rfl, rfl⟩

/-- C12: in every state of the serial driver reachable from an initial state (TX queue
empty, `tx_active` false, vector 1 masked) by normal-path `uart_putc`, panic-path
`uart_putc` and passes of the worker (a pass that pops and transmits a byte, or the go-idle
pass on an empty queue), taken one at a time, the transmit-ready interrupt (bit 0 of the
primary enable register) is enabled if and only if the TX queue is non-empty or `tx_active`
is true. -/
theorem C12_tx_interrupt_armed_iff_work {σ : Type} (char_signed : Bool)
    (serdatr : Nat → Nat) (ena0 : Nat) (s : SerialSys σ)
    (hreach : serial_reachable char_signed serdatr ena0 s) :
    (paula_intena ena0 s.machine.writes).testBit 0 = true ↔
      (s.g.tx_buf.data ≠ [] ∨ s.g.tx_active = true) := by
  induction hreach with
  | init s hd ha hm =>
    simp [hd, ha, hm]
  | putc_normal s s2 fuel c _ hstep ih =>
    simp only [uart_putc, Bool.not_false, Bool.and_true, Bool.false_eq_true, if_false]
      at hstep
    obtain ⟨hm, ha⟩ := uart_retry_some c fuel _ _ s2 hstep
    by_cases hact : s.g.tx_active = true
    · -- a transmission is already active: vector 1 is unmasked and stays so
      have hun : (paula_intena ena0 s.machine.writes).testBit 0 = true := ih.2 (Or.inr hact)
      have h1 : s2.machine.writes = s.machine.writes := by
        rw [hm]
        split_ifs <;> simp_all
      have h2 : s2.g.tx_active = true := by
        rw [ha]
        split_ifs <;> simp_all
      rw [h1]
      exact ⟨fun _ => Or.inr h2, fun _ => hun⟩
    · have hfalse : s.g.tx_active = false := by simpa using hact
      have h1 : s2.machine.writes = s.machine.writes ++ [(paula_reg INTENA, 0x8001)] := by
        rw [hm]
        split_ifs <;> simp_all [unmask_interrupt_1]
      have h2 : s2.g.tx_active = true := by
        rw [ha]
        split_ifs <;> simp_all
      rw [h1]
      exact ⟨fun _ => Or.inr h2, fun _ => intena_after_unmask_1 ena0 _⟩
  | putc_panic s s2 fuel c _ hstep _ =>
    simp only [uart_putc, Bool.not_true, Bool.and_false, Bool.false_eq_true, if_false,
      if_true] at hstep
    cases h1 : uart_drain char_signed serdatr fuel fuel s with
    | none => simp [h1] at hstep
    | some s1 =>
      simp only [h1] at hstep
      cases h2 : uart_send_polled char_signed serdatr fuel s1 c with
      | none => simp [h2] at hstep
      | some s3 =>
        simp only [h2] at hstep
        cases h3 : uart_drain char_signed serdatr fuel fuel s3 with
        | none => simp [h3] at hstep
        | some s4 =>
          simp only [h3, Option.some.injEq, mask_interrupt_1] at hstep
          obtain ⟨d, _, _⟩ := uart_drain_some char_signed serdatr ena0 fuel fuel s3 s4 h3
          subst hstep
          have hm := intena_after_mask_1 ena0 s4.machine.writes
          simp [d, hm]
  | worker_pass s s2 fuel continues _ hstep _ =>
    unfold uart_write_thread_pass at hstep
    cases hd : s.g.tx_buf.data with
    | nil =>
      simp only [cbuf_read_char, hd, ne_eq, Nat.zero_ne_one, not_false_eq_true, if_true,
        Option.some.injEq, Prod.mk.injEq, mask_interrupt_1] at hstep
      obtain ⟨hs, _⟩ := hstep
      subst hs
      have hm := intena_after_mask_1 ena0 s.machine.writes
      simp [hd, hm]
    | cons q rest =>
      simp only [cbuf_read_char, hd, ne_eq, not_true_eq_false, if_false] at hstep
      cases hs : uart_send_polled char_signed serdatr fuel
          ({ s with g := { s.g with tx_buf := { s.g.tx_buf with data := rest },
                                    tx_active := true } } : SerialSys σ) q with
      | none => simp [hs] at hstep
      | some s1 =>
        obtain ⟨_, _, c1⟩ := uart_send_polled_some char_signed serdatr ena0 fuel _ s1 q hs
        simp only [hs, Option.some.injEq, Prod.mk.injEq, unmask_interrupt_1] at hstep
        obtain ⟨hs2, _⟩ := hstep
        subst hs2
        have hm := intena_after_unmask_1 ena0 s1.machine.writes
        have hact : s1.g.tx_active = true := c1
        simp [hm, hact]

/-- C12 witness: the state after one normal-path `uart_putc(0x41)` from the initial state
is reachable; in it vector 1 is unmasked, the queue holds one byte and `tx_active` is
true. -/
theorem C12_tx_interrupt_armed_iff_work_witness :
    ((paula_intena 0 serial_after_putc.machine.writes).testBit 0 = true ↔
      (serial_after_putc.g.tx_buf.data ≠ [] ∨ serial_after_putc.g.tx_active = true)) ∧
    (paula_intena 0 serial_after_putc.machine.writes).testBit 0 = true :=
  ⟨C12_tx_interrupt_armed_iff_work true serdatr_sample 0 serial_after_putc
    (serial_reachable.putc_normal serial_initial serial_after_putc 1 0x41
      (serial_reachable.init serial_initial rfl rfl (by decide)) rfl),
   by decide⟩

end Amiga
